import Mathlib

/-
Verification development for the "Compilador" pipeline: a shallow embedding of
user_lexer.py, adapter_lexer.py, parser.py, ir_generator.py and asm_generator.py,
together with theorems settling the specification claims about them.
-/

set_option maxHeartbeats 1000000
set_option maxRecDepth 8192

-- ========================================================================
-- Decimal rendering of naturals and integers (Python str(n), f-strings)
-- ========================================================================

def digitChar : Nat → Char
  | 0 => '0'
  | 1 => '1'
  | 2 => '2'
  | 3 => '3'
  | 4 => '4'
  | 5 => '5'
  | 6 => '6'
  | 7 => '7'
  | 8 => '8'
  | _ => '9'

def digitVal (c : Char) : Nat :=
  if c = '0' then 0 else if c = '1' then 1 else if c = '2' then 2
  else if c = '3' then 3 else if c = '4' then 4 else if c = '5' then 5
  else if c = '6' then 6 else if c = '7' then 7 else if c = '8' then 8 else 9

/-- Decimal digits of a natural number, most significant first. The fuel
argument (instantiated with the number itself, which bounds the number of
divisions by 10) keeps the recursion structural, so that concrete values
evaluate definitionally. -/
def natDigsFuel : Nat → Nat → List Char
  | 0, n => [digitChar n]
  | fuel + 1, n =>
      if n < 10 then [digitChar n]
      else natDigsFuel fuel (n / 10) ++ [digitChar (n % 10)]

def natDigs (n : Nat) : List Char := natDigsFuel n n

def natStr (n : Nat) : String := ⟨natDigs n⟩

/-- Python str() of an integer. -/
def intStr : Int → String
  | .ofNat n => natStr n
  | .negSucc n => "-" ++ natStr (n + 1)

def digsVal (cs : List Char) : Nat :=
  cs.foldl (fun a c => a * 10 + digitVal c) 0

theorem digitVal_digitChar (n : Nat) (h : n < 10) : digitVal (digitChar n) = n := by
  interval_cases n <;> rfl

theorem digsVal_aux (cs : List Char) (a : Nat) :
    cs.foldl (fun a c => a * 10 + digitVal c) a =
      a * 10 ^ cs.length + digsVal cs := by
  induction cs generalizing a with
  | nil => simp [digsVal]
  | cons c cs ih =>
      simp only [List.foldl_cons, List.length_cons, digsVal]
      rw [ih (a * 10 + digitVal c), ih (0 * 10 + digitVal c)]
      ring

theorem digsVal_append_one (cs : List Char) (c : Char) :
    digsVal (cs ++ [c]) = digsVal cs * 10 + digitVal c := by
  simp [digsVal, List.foldl_append]

theorem digsVal_natDigsFuel : ∀ (fuel n : Nat), n ≤ fuel →
    digsVal (natDigsFuel fuel n) = n := by
  intro fuel
  induction fuel with
  | zero =>
      intro n h
      interval_cases n
      rfl
  | succ fuel ih =>
      intro n h
      rw [natDigsFuel]
      by_cases h10 : n < 10
      · rw [if_pos h10]
        simp [digsVal, digitVal_digitChar n h10]
      · rw [if_neg h10]
        have hlt : n / 10 < n := Nat.div_lt_self (by omega) (by omega)
        rw [digsVal_append_one, ih (n / 10) (by omega),
          digitVal_digitChar (n % 10) (Nat.mod_lt _ (by omega))]
        omega

theorem digsVal_natDigs (n : Nat) : digsVal (natDigs n) = n :=
  digsVal_natDigsFuel n n (le_refl n)

theorem natDigs_injective : Function.Injective natDigs := by
  intro a b h
  have := digsVal_natDigs a
  rw [h, digsVal_natDigs] at this
  omega

theorem natStr_injective : Function.Injective natStr := by
  intro a b h
  exact natDigs_injective (congrArg String.data h)

theorem natDigsFuel_ne_nil (fuel n : Nat) : natDigsFuel fuel n ≠ [] := by
  cases fuel with
  | zero => simp [natDigsFuel]
  | succ fuel =>
      rw [natDigsFuel]
      split <;> simp

theorem natDigs_ne_nil (n : Nat) : natDigs n ≠ [] := natDigsFuel_ne_nil n n

theorem digitChar_isDigit (n : Nat) : (digitChar n).isDigit = true := by
  unfold digitChar
  split <;> decide

theorem natDigsFuel_all_digits : ∀ (fuel n : Nat),
    (natDigsFuel fuel n).all Char.isDigit = true := by
  intro fuel
  induction fuel with
  | zero => intro n; simp [natDigsFuel, digitChar_isDigit]
  | succ fuel ih =>
      intro n
      rw [natDigsFuel]
      split
      · simp [digitChar_isDigit]
      · simp only [List.all_append, ih (n / 10), Bool.true_and, List.all_cons,
          List.all_nil, Bool.and_true]
        exact digitChar_isDigit _

theorem natDigs_all_digits (n : Nat) : (natDigs n).all Char.isDigit = true :=
  natDigsFuel_all_digits n n

-- ========================================================================
-- user_lexer.py — the lexer
-- ========================================================================

/-- The six raw token categories of user_lexer.py (`tokens` list). -/
inductive RawKind where
  | keywords
  | identifier
  | punctuacion
  | operator
  | constant
  | literal
deriving DecidableEq, Repr

/-- A raw lexer token: (tipo, lexema, línea, columna). -/
structure RawTok where
  kind : RawKind
  lex : List Char
  line : Nat
  col : Nat
deriving DecidableEq, Repr

/-- Structured lexer errors; user_lexer raises SyntaxError with an f-string
carrying exactly these data. `noFuel` models nontermination and is never
produced when the fuel bound (length of the input plus one) suffices. -/
inductive LexErr where
  | unterminatedComment (line col : Nat)
  | unexpectedChar (ch : Char) (line col : Nat) (snippet : List Char)
  | noFuel
deriving DecidableEq, Repr

/-- Python \w for ASCII input: [A-Za-z0-9_]. -/
def isWordChar (c : Char) : Bool :=
  c.isAlpha || c.isDigit || c = '_'

def isIdentStart (c : Char) : Bool :=
  c.isAlpha || c = '_'

/-- Advance (line, col) over one character, as user_lexer._advance does. -/
def advChar (p : Nat × Nat) (ch : Char) : Nat × Nat :=
  if ch = '\n' then (p.1 + 1, 1) else (p.1, p.2 + 1)

/-- Advance (line, col) over a chunk of characters (user_lexer._advance_n). -/
def advStr (p : Nat × Nat) (cs : List Char) : Nat × Nat :=
  cs.foldl advChar p

theorem advStr_append (p : Nat × Nat) (a b : List Char) :
    advStr p (a ++ b) = advStr (advStr p a) b := by
  simp [advStr, List.foldl_append]

-- The keyword alternation, in the order of the regular expression
-- \b(?:int|bool|float|string|void|for|while|if|else|return)\b.
def kwStrs : List String :=
  ["int", "bool", "float", "string", "void", "for", "while", "if", "else", "return"]

/-- Try keyword alternatives in order; each alternative must be followed by a
word boundary (end of input or a non-word character). -/
def tryKws : List String → List Char → Option (List Char × List Char)
  | [], _ => none
  | w :: ws, cs =>
      if w.data.isPrefixOf cs then
        match (cs.drop w.data.length).head? with
        | none => some (w.data, cs.drop w.data.length)
        | some c =>
            if isWordChar c then tryKws ws cs
            else some (w.data, cs.drop w.data.length)
      else tryKws ws cs

/-- Keyword pattern: \b before the word requires the previous character of the
source (if any) to be a non-word character. -/
def matchKeyword (prev : Option Char) (cs : List Char) : Option (List Char × List Char) :=
  if (match prev with | none => true | some c => !isWordChar c) then
    tryKws kwStrs cs
  else none

/-- Identifier pattern [A-Za-z_]\w* with maximal munch. -/
def matchIdent : List Char → Option (List Char × List Char)
  | [] => none
  | c :: rest =>
      if isIdentStart c then
        some (c :: rest.takeWhile isWordChar, rest.dropWhile isWordChar)
      else none

/-- Punctuation pattern [,;(){}]. -/
def matchPunct : List Char → Option (List Char × List Char)
  | [] => none
  | c :: rest =>
      if c = ',' ∨ c = ';' ∨ c = '(' ∨ c = ')' ∨ c = '\x7b' ∨ c = '\x7d' then
        some ([c], rest)
      else none

-- The operator alternation: two-character alternatives in regex order,
-- then the single-character class [+\-*/%<>=!&|].
def opTwoStrs : List String :=
  ["==", "!=", "<=", ">=", "++", "--", "+=", "-=", "*=", "/=", "%=", "&&", "||"]

def opOneChars : List Char :=
  ['+', '-', '*', '/', '%', '<', '>', '=', '!', '&', '|']

def tryOps : List String → List Char → Option (List Char × List Char)
  | [], _ => none
  | w :: ws, cs =>
      if w.data.isPrefixOf cs then some (w.data, cs.drop w.data.length)
      else tryOps ws cs

def matchOp (cs : List Char) : Option (List Char × List Char) :=
  match tryOps opTwoStrs cs with
  | some r => some r
  | none =>
      match cs with
      | [] => none
      | c :: rest => if c ∈ opOneChars then some ([c], rest) else none

/-- Number pattern \d+(?:\.\d+)? with maximal munch: the integer part is the
maximal run of digits, and the optional fractional group participates only
when it is a dot followed by at least one digit. -/
def matchConst : List Char → Option (List Char × List Char)
  | [] => none
  | c :: rest =>
      if c.isDigit then
        if ((rest.dropWhile Char.isDigit).head? = some '.') ∧
           ¬((rest.dropWhile Char.isDigit).tail.takeWhile Char.isDigit).isEmpty then
          some ((c :: rest.takeWhile Char.isDigit) ++
                  '.' :: (rest.dropWhile Char.isDigit).tail.takeWhile Char.isDigit,
                (rest.dropWhile Char.isDigit).tail.dropWhile Char.isDigit)
        else some (c :: rest.takeWhile Char.isDigit, rest.dropWhile Char.isDigit)
      else none

/-- Body of a string literal after its opening quote: units are either a
non-quote non-backslash character or a backslash followed by any character
other than a newline; stops at the closing quote (included in the lexeme). -/
def scanStrBody (q : Char) : List Char → Option (List Char × List Char)
  | [] => none
  | [c] => if c = q then some ([c], []) else none
  | c :: c2 :: rest2 =>
      if c = q then some ([c], c2 :: rest2)
      else if c = '\\' then
        if c2 = '\n' then none
        else
          match scanStrBody q rest2 with
          | some (b, r) => some (c :: c2 :: b, r)
          | none => none
      else
        match scanStrBody q (c2 :: rest2) with
        | some (b, r) => some (c :: b, r)
        | none => none

/-- String literal pattern "([^"\\]|\\.)*" | '([^'\\]|\\.)*'. -/
def matchStrLit : List Char → Option (List Char × List Char)
  | [] => none
  | c :: rest =>
      if c = '"' ∨ c = '\'' then
        match scanStrBody c rest with
        | some (b, r) => some (c :: b, r)
        | none => none
      else none

/-- Try the six token patterns in the fixed priority order of user_lexer. -/
def matchTok (prev : Option Char) (cs : List Char) :
    Option (RawKind × List Char × List Char) :=
  match matchKeyword prev cs with
  | some (l, r) => some (.keywords, l, r)
  | none =>
  match matchIdent cs with
  | some (l, r) => some (.identifier, l, r)
  | none =>
  match matchPunct cs with
  | some (l, r) => some (.punctuacion, l, r)
  | none =>
  match matchOp cs with
  | some (l, r) => some (.operator, l, r)
  | none =>
  match matchConst cs with
  | some (l, r) => some (.constant, l, r)
  | none =>
  match matchStrLit cs with
  | some (l, r) => some (.literal, l, r)
  | none => none

/-- Inner loop of the block-comment branch: consume through the matching */
or fail with the unterminated-comment error at the current position. The
result carries the consumed characters, the remaining input, and the
advanced (line, col). -/
def skipBlock : List Char → Nat → Nat → Except LexErr (List Char × List Char × Nat × Nat)
  | [], l, c => .error (.unterminatedComment l c)
  | ch :: rest, l, c =>
      if ch = '*' ∧ rest.head? = some '/' then
        .ok (['*', '/'], rest.tail, l, c + 2)
      else
        match skipBlock rest (advChar (l, c) ch).1 (advChar (l, c) ch).2 with
        | .ok (cons, rest', l', c') => .ok (ch :: cons, rest', l', c')
        | .error e => .error e

def isWsChar (c : Char) : Bool := c = ' ' || c = '\t' || c = '\r'

/-- Main lexer loop of user_lexer.lexer, one iteration per fuel unit.
`prev` is the character of the source just before the current position (used
for the word boundary of the keyword pattern). The branches follow the
Python loop in order: line comment, block comment, newline, horizontal
whitespace, token patterns, unexpected-character error. -/
def lexLoop : Nat → List Char → Option Char → Nat → Nat → Except LexErr (List RawTok)
  | 0, _, _, _, _ => .error .noFuel
  | fuel + 1, cs, prev, l, c =>
      match cs with
      | [] => .ok []
      | ch :: cs2 =>
          if ch = '/' ∧ cs2.head? = some '/' then
            lexLoop fuel ((ch :: cs2).dropWhile (fun c0 => c0 ≠ '\n'))
              (((ch :: cs2).takeWhile (fun c0 => c0 ≠ '\n')).getLast?)
              (advStr (l, c) ((ch :: cs2).takeWhile (fun c0 => c0 ≠ '\n'))).1
              (advStr (l, c) ((ch :: cs2).takeWhile (fun c0 => c0 ≠ '\n'))).2
          else if ch = '/' ∧ cs2.head? = some '*' then
            match skipBlock cs2.tail l (c + 2) with
            | .error e => .error e
            | .ok (cons, rest, l', c') =>
                lexLoop fuel rest (('/' :: '*' :: cons).getLast?) l' c'
          else if ch = '\n' then
            lexLoop fuel cs2 (some '\n') (l + 1) 1
          else if isWsChar ch then
            lexLoop fuel (cs2.dropWhile isWsChar)
              ((ch :: cs2.takeWhile isWsChar).getLast?)
              (advStr (l, c) (ch :: cs2.takeWhile isWsChar)).1
              (advStr (l, c) (ch :: cs2.takeWhile isWsChar)).2
          else
            match matchTok prev (ch :: cs2) with
            | some (kind, lexm, rest) =>
                match lexLoop fuel rest lexm.getLast?
                    (advStr (l, c) lexm).1 (advStr (l, c) lexm).2 with
                | .ok toks => .ok (⟨kind, lexm, l, c⟩ :: toks)
                | .error e => .error e
            | none => .error (.unexpectedChar ch l c ((ch :: cs2).take 20))

def userLexer (src : String) : Except LexErr (List RawTok) :=
  lexLoop (src.data.length + 1) src.data none 1 1

example : userLexer "int x = 10;" =
    .ok [⟨.keywords, "int".data, 1, 1⟩, ⟨.identifier, "x".data, 1, 5⟩,
         ⟨.operator, "=".data, 1, 7⟩, ⟨.constant, "10".data, 1, 9⟩,
         ⟨.punctuacion, ";".data, 1, 11⟩] := rfl

example : userLexer "/* a\n b */ x" =
    .ok [⟨.identifier, "x".data, 2, 7⟩] := rfl

example : userLexer "// nada\nintx" =
    .ok [⟨.identifier, "intx".data, 2, 1⟩] := rfl

example : userLexer "123if" =
    .ok [⟨.constant, "123".data, 1, 1⟩, ⟨.identifier, "if".data, 1, 4⟩] := rfl

example : userLexer "\"ho\\\"la\"" =
    .ok [⟨.literal, "\"ho\\\"la\"".data, 1, 1⟩] := rfl

example : userLexer "/*\n" = .error (.unterminatedComment 2 1) := rfl

-- ========================================================================
-- Lexer bookkeeping lemmas: every branch consumes a prefix of the input,
-- and (line, col) is advanced over exactly the consumed characters.
-- ========================================================================

theorem isPrefixOf_append_drop (a b : List Char) (h : a.isPrefixOf b = true) :
    b = a ++ b.drop a.length :=
  (List.prefix_iff_eq_append.mp (List.isPrefixOf_iff_prefix.mp h)).symm

theorem tryKws_spec (ws : List String) (cs lexm rest : List Char)
    (hne : ∀ w ∈ ws, w.data ≠ [])
    (h : tryKws ws cs = some (lexm, rest)) : cs = lexm ++ rest ∧ lexm ≠ [] := by
  induction ws with
  | nil => simp [tryKws] at h
  | cons w ws ih =>
      rw [tryKws] at h
      by_cases hp : w.data.isPrefixOf cs = true
      · rw [if_pos hp] at h
        rcases hh : (cs.drop w.data.length).head? with _ | c
        · rw [hh] at h
          dsimp only at h
          simp only [Option.some.injEq, Prod.mk.injEq] at h
          exact ⟨h.1 ▸ h.2 ▸ isPrefixOf_append_drop _ _ hp,
            h.1 ▸ hne w (by simp)⟩
        · rw [hh] at h
          dsimp only at h
          by_cases hw : isWordChar c = true
          · rw [if_pos hw] at h
            exact ih (fun w hw => hne w (by simp [hw])) h
          · rw [if_neg hw] at h
            simp only [Option.some.injEq, Prod.mk.injEq] at h
            exact ⟨h.1 ▸ h.2 ▸ isPrefixOf_append_drop _ _ hp,
              h.1 ▸ hne w (by simp)⟩
      · rw [if_neg hp] at h
        exact ih (fun w hw => hne w (by simp [hw])) h

theorem matchKeyword_spec (prev : Option Char) (cs lexm rest : List Char)
    (h : matchKeyword prev cs = some (lexm, rest)) : cs = lexm ++ rest ∧ lexm ≠ [] := by
  unfold matchKeyword at h
  split at h
  · exact tryKws_spec kwStrs cs lexm rest (by decide) h
  · simp at h

theorem matchIdent_spec (cs lexm rest : List Char)
    (h : matchIdent cs = some (lexm, rest)) : cs = lexm ++ rest ∧ lexm ≠ [] := by
  match cs with
  | [] => simp [matchIdent] at h
  | c :: cs2 =>
      rw [matchIdent] at h
      split at h
      · simp only [Option.some.injEq, Prod.mk.injEq] at h
        refine ⟨?_, by simp [← h.1]⟩
        rw [← h.1, ← h.2]
        simp [List.takeWhile_append_dropWhile]
      · simp at h

theorem matchPunct_spec (cs lexm rest : List Char)
    (h : matchPunct cs = some (lexm, rest)) : cs = lexm ++ rest ∧ lexm ≠ [] := by
  match cs with
  | [] => simp [matchPunct] at h
  | c :: cs2 =>
      rw [matchPunct] at h
      split at h
      · simp only [Option.some.injEq, Prod.mk.injEq] at h
        exact ⟨by rw [← h.1, ← h.2]; rfl, by simp [← h.1]⟩
      · simp at h

theorem tryOps_spec (ws : List String) (cs lexm rest : List Char)
    (hne : ∀ w ∈ ws, w.data ≠ [])
    (h : tryOps ws cs = some (lexm, rest)) : cs = lexm ++ rest ∧ lexm ≠ [] := by
  induction ws with
  | nil => simp [tryOps] at h
  | cons w ws ih =>
      rw [tryOps] at h
      by_cases hp : w.data.isPrefixOf cs = true
      · rw [if_pos hp] at h
        simp only [Option.some.injEq, Prod.mk.injEq] at h
        exact ⟨h.1 ▸ h.2 ▸ isPrefixOf_append_drop _ _ hp, h.1 ▸ hne w (by simp)⟩
      · rw [if_neg hp] at h
        exact ih (fun w hw => hne w (by simp [hw])) h

theorem matchOp_spec (cs lexm rest : List Char)
    (h : matchOp cs = some (lexm, rest)) : cs = lexm ++ rest ∧ lexm ≠ [] := by
  rw [matchOp.eq_def] at h
  rcases h2 : tryOps opTwoStrs cs with _ | r
  · rw [h2] at h
    match cs, h with
    | [], h => simp at h
    | c :: cs2, h =>
        simp only at h
        by_cases hc : c ∈ opOneChars
        · rw [if_pos hc] at h
          simp only [Option.some.injEq, Prod.mk.injEq] at h
          exact ⟨by rw [← h.1, ← h.2]; rfl, by simp [← h.1]⟩
        · rw [if_neg hc] at h
          simp at h
  · rw [h2] at h
    simp only [Option.some.injEq] at h
    subst h
    exact tryOps_spec opTwoStrs cs lexm rest (by decide) h2

theorem matchConst_spec (cs lexm rest : List Char)
    (h : matchConst cs = some (lexm, rest)) : cs = lexm ++ rest ∧ lexm ≠ [] := by
  match cs with
  | [] => simp [matchConst] at h
  | c :: cs2 =>
      rw [matchConst] at h
      have hsplit : cs2 = cs2.takeWhile Char.isDigit ++ cs2.dropWhile Char.isDigit :=
        (List.takeWhile_append_dropWhile _ _).symm
      split at h
      case isTrue hd =>
        split at h
        case isTrue hdot =>
          rcases h1 : cs2.dropWhile Char.isDigit with _ | ⟨c1, r2⟩
          · rw [h1] at hdot; simp at hdot
          · have hc1 : c1 = '.' := by
              have := hdot.1
              rw [h1] at this
              simpa using this
            subst hc1
            rw [h1] at h
            simp only [List.tail_cons, Option.some.injEq, Prod.mk.injEq] at h
            refine ⟨?_, by simp [← h.1]⟩
            rw [← h.1, ← h.2]
            have hr2 : r2 = r2.takeWhile Char.isDigit ++ r2.dropWhile Char.isDigit :=
              (List.takeWhile_append_dropWhile _ _).symm
            calc c :: cs2
                = c :: (cs2.takeWhile Char.isDigit ++ '.' :: r2) := by
                  rw [← h1, ← hsplit]
              _ = c :: (cs2.takeWhile Char.isDigit ++
                    '.' :: (r2.takeWhile Char.isDigit ++ r2.dropWhile Char.isDigit)) := by
                  rw [← hr2]
              _ = (c :: cs2.takeWhile Char.isDigit ++ '.' :: r2.takeWhile Char.isDigit) ++
                    r2.dropWhile Char.isDigit := by simp
        case isFalse hdot =>
          simp only [Option.some.injEq, Prod.mk.injEq] at h
          refine ⟨?_, by simp [← h.1]⟩
          rw [← h.1, ← h.2]
          simp [hsplit.symm]
      case isFalse => simp at h

theorem scanStrBody_spec (q : Char) : ∀ (n : Nat) (cs : List Char), cs.length ≤ n →
    ∀ b r, scanStrBody q cs = some (b, r) → cs = b ++ r ∧ b ≠ [] := by
  intro n
  induction n with
  | zero =>
      intro cs hle b r h
      match cs with
      | [] => simp [scanStrBody] at h
      | c :: rest => simp at hle
  | succ n ih =>
      intro cs hle b r h
      match cs with
      | [] => simp [scanStrBody] at h
      | [c] =>
          rw [scanStrBody] at h
          split at h
          · simp only [Option.some.injEq, Prod.mk.injEq] at h
            exact ⟨by rw [← h.1, ← h.2]; rfl, by simp [← h.1]⟩
          · simp at h
      | c :: c2 :: rest2 =>
          rw [scanStrBody] at h
          by_cases hq : c = q
          · rw [if_pos hq] at h
            simp only [Option.some.injEq, Prod.mk.injEq] at h
            exact ⟨by rw [← h.1, ← h.2]; rfl, by simp [← h.1]⟩
          · rw [if_neg hq] at h
            by_cases hb : c = '\\'
            · rw [if_pos hb] at h
              by_cases hn2 : c2 = '\n'
              · rw [if_pos hn2] at h; simp at h
              · rw [if_neg hn2] at h
                rcases h3 : scanStrBody q rest2 with _ | ⟨b2, r2⟩
                · rw [h3] at h; simp at h
                · rw [h3] at h
                  simp only [Option.some.injEq, Prod.mk.injEq] at h
                  have hrec := ih rest2 (by simp at hle; omega) b2 r2 h3
                  refine ⟨?_, by simp [← h.1]⟩
                  rw [← h.1, ← h.2]
                  simp [hrec.1]
            · rw [if_neg hb] at h
              rcases h3 : scanStrBody q (c2 :: rest2) with _ | ⟨b2, r2⟩
              · rw [h3] at h; simp at h
              · rw [h3] at h
                simp only [Option.some.injEq, Prod.mk.injEq] at h
                have hrec := ih (c2 :: rest2) (by simp at hle ⊢; omega) b2 r2 h3
                refine ⟨?_, by simp [← h.1]⟩
                rw [← h.1, ← h.2]
                simp [hrec.1]

theorem matchStrLit_spec (cs lexm rest : List Char)
    (h : matchStrLit cs = some (lexm, rest)) : cs = lexm ++ rest ∧ lexm ≠ [] := by
  match cs with
  | [] => simp [matchStrLit] at h
  | c :: cs2 =>
      rw [matchStrLit] at h
      split at h
      · rcases h3 : scanStrBody c cs2 with _ | ⟨b2, r2⟩
        · rw [h3] at h; simp at h
        · rw [h3] at h
          simp only [Option.some.injEq, Prod.mk.injEq] at h
          have hrec := scanStrBody_spec c cs2.length cs2 (le_refl _) b2 r2 h3
          refine ⟨?_, by simp [← h.1]⟩
          rw [← h.1, ← h.2]
          simp [hrec.1]
      · simp at h

theorem matchTok_spec (prev : Option Char) (cs : List Char) (k : RawKind)
    (lexm rest : List Char) (h : matchTok prev cs = some (k, lexm, rest)) :
    cs = lexm ++ rest ∧ lexm ≠ [] := by
  rw [matchTok] at h
  cases h1 : matchKeyword prev cs with
  | some p =>
      obtain ⟨l1, r1⟩ := p
      rw [h1] at h
      simp only [Option.some.injEq, Prod.mk.injEq] at h
      exact h.2.1 ▸ h.2.2 ▸ matchKeyword_spec prev cs l1 r1 h1
  | none =>
  rw [h1] at h
  cases h2 : matchIdent cs with
  | some p =>
      obtain ⟨l2, r2⟩ := p
      rw [h2] at h
      simp only [Option.some.injEq, Prod.mk.injEq] at h
      exact h.2.1 ▸ h.2.2 ▸ matchIdent_spec cs l2 r2 h2
  | none =>
  rw [h2] at h
  cases h3 : matchPunct cs with
  | some p =>
      obtain ⟨l3, r3⟩ := p
      rw [h3] at h
      simp only [Option.some.injEq, Prod.mk.injEq] at h
      exact h.2.1 ▸ h.2.2 ▸ matchPunct_spec cs l3 r3 h3
  | none =>
  rw [h3] at h
  cases h4 : matchOp cs with
  | some p =>
      obtain ⟨l4, r4⟩ := p
      rw [h4] at h
      simp only [Option.some.injEq, Prod.mk.injEq] at h
      exact h.2.1 ▸ h.2.2 ▸ matchOp_spec cs l4 r4 h4
  | none =>
  rw [h4] at h
  cases h5 : matchConst cs with
  | some p =>
      obtain ⟨l5, r5⟩ := p
      rw [h5] at h
      simp only [Option.some.injEq, Prod.mk.injEq] at h
      exact h.2.1 ▸ h.2.2 ▸ matchConst_spec cs l5 r5 h5
  | none =>
  rw [h5] at h
  cases h6 : matchStrLit cs with
  | some p =>
      obtain ⟨l6, r6⟩ := p
      rw [h6] at h
      simp only [Option.some.injEq, Prod.mk.injEq] at h
      exact h.2.1 ▸ h.2.2 ▸ matchStrLit_spec cs l6 r6 h6
  | none =>
  rw [h6] at h
  simp at h

theorem skipBlock_ok_spec : ∀ (cs : List Char) (l c : Nat) cons rest l' c',
    skipBlock cs l c = .ok (cons, rest, l', c') →
    cs = cons ++ rest ∧ (l', c') = advStr (l, c) cons := by
  intro cs
  induction cs with
  | nil => intro l c cons rest l' c' h; simp [skipBlock] at h
  | cons ch cs2 ih =>
      intro l c cons rest l' c' h
      rw [skipBlock] at h
      split at h
      case isTrue hsl =>
        simp only [Except.ok.injEq, Prod.mk.injEq] at h
        obtain ⟨h1, h2, h3, h4⟩ := h
        subst h1; subst h2; subst h3; subst h4
        obtain ⟨hstar, hslash⟩ := hsl
        subst hstar
        rcases cs2 with _ | ⟨c2, cs3⟩
        · simp at hslash
        · simp only [List.head?_cons, Option.some.injEq] at hslash
          subst hslash
          exact ⟨rfl, by simp [advStr, advChar]⟩
      case isFalse hsl =>
        rcases h2 : skipBlock cs2 (advChar (l, c) ch).1 (advChar (l, c) ch).2 with e | ⟨cons2, rest2, l2, c2⟩
        · rw [h2] at h; simp at h
        · rw [h2] at h
          simp only [Except.ok.injEq, Prod.mk.injEq] at h
          obtain ⟨h1, h3, h4, h5⟩ := h
          have hrec := ih _ _ cons2 rest2 l2 c2 h2
          constructor
          · rw [← h1, ← h3]; simp [hrec.1]
          · rw [← h1, ← h4, ← h5]
            have hadv : advStr (l, c) (ch :: cons2) = advStr (advChar (l, c) ch) cons2 := by
              simp [advStr]
            rw [hadv, ← hrec.2]

theorem skipBlock_err_spec : ∀ (cs : List Char) (l c : Nat) (e : LexErr),
    skipBlock cs l c = .error e →
    e = .unterminatedComment (advStr (l, c) cs).1 (advStr (l, c) cs).2 := by
  intro cs
  induction cs with
  | nil =>
      intro l c e h
      rw [skipBlock] at h
      simp only [Except.error.injEq] at h
      simp [h.symm, advStr]
  | cons ch cs2 ih =>
      intro l c e h
      rw [skipBlock] at h
      split at h
      case isTrue hsl => simp at h
      case isFalse hsl =>
        rcases h2 : skipBlock cs2 (advChar (l, c) ch).1 (advChar (l, c) ch).2 with e2 | r2
        · rw [h2] at h
          simp only [Except.error.injEq] at h
          subst h
          have hrec := ih _ _ e2 h2
          rw [hrec]
          have hadv : advStr (l, c) (ch :: cs2) = advStr (advChar (l, c) ch) cs2 := by
            simp [advStr]
          rw [hadv]
        · rw [h2] at h; simp at h

theorem advStr_two (l c : Nat) (a b : Char) (cs : List Char)
    (ha : a ≠ '\n') (hb : b ≠ '\n') :
    advStr (l, c) (a :: b :: cs) = advStr (l, c + 2) cs := by
  simp [advStr, advChar, ha, hb]

/-- Whenever the lexer loop reports an unterminated block comment, the
reported position is the one reached after advancing over the whole of the
remaining input. -/
theorem lexLoop_unterminated : ∀ (fuel : Nat) (cs : List Char) (prev : Option Char)
    (l c l' c' : Nat), lexLoop fuel cs prev l c = .error (.unterminatedComment l' c') →
    (l', c') = advStr (l, c) cs := by
  intro fuel
  induction fuel with
  | zero => intro cs prev l c l' c' h; simp [lexLoop] at h
  | succ fuel ih =>
      intro cs prev l c l' c' h
      match cs with
      | [] => simp [lexLoop] at h
      | ch :: cs2 =>
          simp only [lexLoop] at h
          by_cases h1 : ch = '/' ∧ cs2.head? = some '/'
          · rw [if_pos h1] at h
            have hsplit : ch :: cs2 =
                ((ch :: cs2).takeWhile (fun c0 => c0 ≠ '\n')) ++
                ((ch :: cs2).dropWhile (fun c0 => c0 ≠ '\n')) :=
              (List.takeWhile_append_dropWhile _ _).symm
            have := ih _ _ _ _ _ _ h
            rw [this]
            conv_rhs => rw [hsplit]
            rw [advStr_append]
          · rw [if_neg h1] at h
            by_cases h2 : ch = '/' ∧ cs2.head? = some '*'
            · rw [if_pos h2] at h
              obtain ⟨hsl, hst⟩ := h2
              subst hsl
              rcases cs2 with _ | ⟨c2, cs3⟩
              · simp at hst
              · simp only [List.head?_cons, Option.some.injEq] at hst
                subst hst
                simp only [List.tail_cons] at h
                rcases hsb : skipBlock cs3 l (c + 2) with e | ⟨cons, rest, l1, c1⟩
                · rw [hsb] at h
                  simp only [Except.error.injEq] at h
                  have hsp := skipBlock_err_spec cs3 l (c + 2) e hsb
                  rw [h] at hsp
                  injection hsp with hl hc
                  rw [advStr_two l c '/' '*' cs3 (by decide) (by decide)]
                  exact Prod.ext hl hc
                · rw [hsb] at h
                  have hrec := ih _ _ _ _ _ _ h
                  have hspec := skipBlock_ok_spec cs3 l (c + 2) cons rest l1 c1 hsb
                  rw [hrec, advStr_two l c '/' '*' cs3 (by decide) (by decide),
                    hspec.1, advStr_append, ← hspec.2]
            · rw [if_neg h2] at h
              by_cases h3 : ch = '\n'
              · rw [if_pos h3] at h
                subst h3
                have := ih _ _ _ _ _ _ h
                rw [this]
                simp [advStr, advChar]
              · rw [if_neg h3] at h
                by_cases h4 : isWsChar ch = true
                · rw [if_pos h4] at h
                  have hsplit : ch :: cs2 =
                      (ch :: cs2.takeWhile isWsChar) ++ (cs2.dropWhile isWsChar) := by
                    simp [List.takeWhile_append_dropWhile]
                  have := ih _ _ _ _ _ _ h
                  rw [this]
                  conv_rhs => rw [hsplit]
                  rw [advStr_append]
                · rw [if_neg h4] at h
                  split at h
                  next kind lexm rest hmt =>
                    split at h
                    next toks hin => simp at h
                    next e hin =>
                      simp only [Except.error.injEq] at h
                      subst h
                      have hrec := ih _ _ _ _ _ _ hin
                      have hspec := matchTok_spec prev (ch :: cs2) kind lexm rest hmt
                      rw [hrec, hspec.1, advStr_append]
                  next => simp at h

-- ========================================================================
-- adapter_lexer.py — adapter from raw lexer tuples to parser tokens
-- ========================================================================

/-- Literal payload of a token. A Python float is modelled by the lexeme it
was parsed from (no claim in this development depends on float arithmetic
or on Python float formatting). -/
inductive Lit where
  | i (n : Int)
  | f (srcRepr : String)
  | s (v : String)
deriving DecidableEq, Repr

/-- adapter_lexer.Token: type, lexeme, literal, pos=(line, column). -/
structure Token where
  type : String
  lexeme : String
  literal : Option Lit
  pos : Nat × Nat
deriving DecidableEq, Repr

/-- PUNCT_MAP. -/
def punctMap : List (String × String) :=
  [(";", "SEMI"), ("(", "LPAREN"), (")", "RPAREN"),
   ("\x7b", "LBRACE"), ("\x7d", "RBRACE"), (",", "COMMA")]

/-- OP_MAP. -/
def opMap : List (String × String) :=
  [("==", "EQ"), ("!=", "NEQ"), ("<=", "LE"), (">=", "GE"),
   ("&&", "AND"), ("||", "OR"), ("++", "INC"), ("--", "DEC"),
   ("+=", "PLUSEQ"), ("-=", "MINUSEQ"), ("*=", "STAREQ"), ("/=", "SLASHEQ"),
   ("=", "ASSIGN"), ("+", "PLUS"), ("-", "MINUS"), ("*", "STAR"),
   ("/", "SLASH"), ("<", "LT"), (">", "GT"), ("!", "NOT"), ("%", "PERC")]

/-- The numeric literal value: float(lex) when the lexeme contains a dot,
else int(lex); an unparseable lexeme yields no literal (the except path). -/
def numLit (lex : List Char) : Option Lit :=
  if lex.contains '.' then some (.f ⟨lex⟩)
  else if !lex.isEmpty && lex.all Char.isDigit then some (.i (digsVal lex))
  else none

/-- Convert one raw lexer token to a parser token (the body of the
tokenize_std loop); raises ValueError for unmapped punctuation/operators. -/
def mapRawTok (t : RawTok) : Except String Token :=
  match t.kind with
  | .keywords =>
      if (⟨t.lex⟩ : String) = "int" then
        .ok ⟨"INT", ⟨t.lex⟩, none, (t.line, t.col)⟩
      else
        .ok ⟨"ID", ⟨t.lex⟩, none, (t.line, t.col)⟩
  | .identifier => .ok ⟨"ID", ⟨t.lex⟩, none, (t.line, t.col)⟩
  | .constant => .ok ⟨"NUM", ⟨t.lex⟩, numLit t.lex, (t.line, t.col)⟩
  | .punctuacion =>
      match punctMap.lookup ⟨t.lex⟩ with
      | some ty => .ok ⟨ty, ⟨t.lex⟩, none, (t.line, t.col)⟩
      | none => .error ("Puntuación no mapeada: " ++ ⟨t.lex⟩ ++
          " en L" ++ natStr t.line ++ " C" ++ natStr t.col)
  | .operator =>
      match opMap.lookup ⟨t.lex⟩ with
      | some ty => .ok ⟨ty, ⟨t.lex⟩, none, (t.line, t.col)⟩
      | none => .error ("Operador no soportado por la gramática base: " ++ ⟨t.lex⟩ ++
          " en L" ++ natStr t.line ++ " C" ++ natStr t.col)
  | .literal =>
      .ok ⟨"STRING", ⟨t.lex⟩, some (.s ⟨(t.lex.drop 1).dropLast⟩), (t.line, t.col)⟩

def adaptToks : List RawTok → Except String (List Token)
  | [] => .ok []
  | t :: ts =>
      match mapRawTok t with
      | .error m => .error m
      | .ok tok =>
          match adaptToks ts with
          | .error m => .error m
          | .ok rest => .ok (tok :: rest)

/-- Combined front-end errors of tokenize_std: a lexer SyntaxError or an
adapter ValueError. -/
inductive FrontErr where
  | lexE (e : LexErr)
  | adaptE (msg : String)
deriving DecidableEq, Repr

/-- adapter_lexer.tokenize_std: run the lexer, convert every raw token, and
append the trailing EOF token carrying the position of the last raw token,
or (1, 1) when there were none. -/
def tokenizeStd (src : String) : Except FrontErr (List Token) :=
  match userLexer src with
  | .error e => .error (.lexE e)
  | .ok raws =>
      match adaptToks raws with
      | .error m => .error (.adaptE m)
      | .ok ts =>
          .ok (ts ++ [⟨"EOF", "", none,
            match raws.getLast? with
            | some r => (r.line, r.col)
            | none => (1, 1)⟩])

example : tokenizeStd "int x = 10;" =
    .ok [⟨"INT", "int", none, (1, 1)⟩, ⟨"ID", "x", none, (1, 5)⟩,
         ⟨"ASSIGN", "=", none, (1, 7)⟩, ⟨"NUM", "10", some (.i 10), (1, 9)⟩,
         ⟨"SEMI", ";", none, (1, 11)⟩, ⟨"EOF", "", none, (1, 11)⟩] := rfl

example : tokenizeStd "" = .ok [⟨"EOF", "", none, (1, 1)⟩] := rfl

example : tokenizeStd "if (x) \x7b \x7d" =
    .ok [⟨"ID", "if", none, (1, 1)⟩, ⟨"LPAREN", "(", none, (1, 4)⟩,
         ⟨"ID", "x", none, (1, 5)⟩, ⟨"RPAREN", ")", none, (1, 6)⟩,
         ⟨"LBRACE", "\x7b", none, (1, 8)⟩, ⟨"RBRACE", "\x7d", none, (1, 10)⟩,
         ⟨"EOF", "", none, (1, 10)⟩] := rfl

-- ========================================================================
-- parser.py — AST
-- ========================================================================

mutual
/-- Expression nodes of the AST (parser.py dataclasses Num, String, Var,
UnaryOp, BinOp, FuncCall). -/
inductive Expr where
  | num (v : Lit)
  | str (v : String)
  | var (name : String)
  | unary (op : String) (e : Expr)
  | bin (l : Expr) (op : String) (r : Expr)
  | call (name : String) (args : ExprList)

inductive ExprList where
  | nil
  | cons (e : Expr) (es : ExprList)
end

mutual
/-- Statement nodes (Block, Decl, Assign, Return, IfStmt, WhileStmt,
ForStmt, ExprStmt). -/
inductive Stmt where
  | block (ss : StmtList)
  | decl (name : String) (init : Option Expr)
  | assign (name : String) (e : Expr)
  | ret (e : Option Expr)
  | ifS (cond : Expr) (thenB : Stmt) (elseB : Option Stmt)
  | whileS (cond : Expr) (body : Stmt)
  | forS (finit : Stmt) (cond : Expr) (step : Stmt) (body : Stmt)
  | exprS (e : Expr)

inductive StmtList where
  | nil
  | cons (s : Stmt) (ss : StmtList)
end

/-- A top-level item: a FuncDecl or a statement. -/
inductive Item where
  | fn (retTy : String) (name : String) (params : List (String × String)) (body : Stmt)
  | st (s : Stmt)

/-- parser.Program. -/
structure Prog where
  items : List Item

def ExprList.ofList : List Expr → ExprList
  | [] => .nil
  | e :: es => .cons e (ExprList.ofList es)

def ExprList.toList : ExprList → List Expr
  | .nil => []
  | .cons e es => e :: es.toList

def StmtList.ofList : List Stmt → StmtList
  | [] => .nil
  | s :: ss => .cons s (StmtList.ofList ss)

-- ========================================================================
-- parser.py — parser state, error monad
-- ========================================================================

/-- parser.Parser state: token list, index, symbol table, function table,
current function return type. Python dict lookups are modelled by
functions into Option. -/
structure PState where
  tokens : List Token
  i : Nat
  symbols : String → Option String
  functions : String → Option (String × List (String × String) × Bool)
  curRet : Option String

/-- The two parser exception classes, plus a fuel marker modelling
nontermination (never produced for the concrete runs in this file). -/
inductive PErr where
  | syn (msg : String)
  | sem (msg : String)
  | noFuel

/-- Parser computations: state plus SyntaxError_/SemanticError exceptions. -/
def M (α : Type) := PState → Except PErr (α × PState)

instance : Monad M where
  pure a := fun s => .ok (a, s)
  bind x f := fun s => match x s with
    | .ok (a, s') => f a s'
    | .error e => .error e

def mget : M PState := fun s => .ok (s, s)

def throwSyn (msg : String) : M α := fun _ => .error (.syn msg)

def throwSem (msg : String) : M α := fun _ => .error (.sem msg)

def dfltTok : Token := ⟨"EOF", "", none, (0, 0)⟩

/-- self.current (kept in sync with self.i). -/
def curTok : M Token := fun s => .ok (s.tokens.getD s.i dfltTok, s)

/-- Parser._advance. The state-updating primitives below destructure and
rebuild the state record explicitly (rather than via record-update syntax)
so that definitional evaluation of concrete parser runs stays linear. -/
def padv : M Unit := fun s =>
  match s with
  | ⟨toks, i, syms, fns, ret⟩ =>
      if i + 1 < toks.length then .ok ((), ⟨toks, i + 1, syms, fns, ret⟩)
      else .ok ((), ⟨toks, i, syms, fns, ret⟩)

/-- self.i -= 1 (the backtrack in factor before func_call). -/
def pback : M Unit := fun s =>
  match s with
  | ⟨toks, i, syms, fns, ret⟩ => .ok ((), ⟨toks, i - 1, syms, fns, ret⟩)

/-- self.i = n (prescan restore, parse reset). -/
def setIdx (n : Nat) : M Unit := fun s =>
  match s with
  | ⟨toks, _, syms, fns, ret⟩ => .ok ((), ⟨toks, n, syms, fns, ret⟩)

/-- self.symbols[k] = v. -/
def addSym (k v : String) : M Unit := fun s =>
  match s with
  | ⟨toks, i, syms, fns, ret⟩ =>
      .ok ((), ⟨toks, i, fun x => if x = k then some v else syms x, fns, ret⟩)

/-- self.symbols = {}. -/
def clearSyms : M Unit := fun s =>
  match s with
  | ⟨toks, i, _, fns, ret⟩ => .ok ((), ⟨toks, i, fun _ => none, fns, ret⟩)

/-- self.functions[k] = v. -/
def addFn (k : String) (v : String × List (String × String) × Bool) : M Unit := fun s =>
  match s with
  | ⟨toks, i, syms, fns, ret⟩ =>
      .ok ((), ⟨toks, i, syms, fun x => if x = k then some v else fns x, ret⟩)

/-- self.current_function_return_type = r. -/
def setCurRet (r : Option String) : M Unit := fun s =>
  match s with
  | ⟨toks, i, syms, fns, _⟩ => .ok ((), ⟨toks, i, syms, fns, r⟩)

/-- Parser._check. -/
def pcheck (ty : String) : M Bool := fun s =>
  .ok ((s.tokens.getD s.i dfltTok).type = ty, s)

/-- Parser._consume. -/
def pconsume (ty : String) (msg : String) : M Token := do
  let tok ← curTok
  if tok.type = ty then do
    padv
    pure tok
  else throwSyn (msg ++ " (got " ++ tok.type ++ " '" ++ tok.lexeme ++ "')")

/-- Update of a Python-dict-as-function. -/
def updMap (m : String → Option α) (k : String) (v : α) : String → Option α :=
  fun x => if x = k then some v else m x

def emptySyms : String → Option String := fun _ => none

-- ========================================================================
-- parser.py — typeof (the integrated type checker)
-- ========================================================================

def isNumTy (t : String) : Bool := t = "int" || t = "float"

/-- Parser.typeof as a pure function of the symbol and function tables;
errors are SemanticError messages. -/
def typeofF (syms : String → Option String)
    (fns : String → Option (String × List (String × String) × Bool)) :
    Expr → Except String String
  | .num v =>
      match v with
      | .f _ => .ok "float"
      | _ => .ok "int"
  | .str _ => .ok "string"
  | .var n =>
      match syms n with
      | none => .error ("Uso de variable no declarada '" ++ n ++ "'")
      | some t => .ok t
  | .call n _ =>
      match fns n with
      | some info => .ok info.1
      | none => .ok "void"
  | .unary op e =>
      match typeofF syms fns e with
      | .error m => .error m
      | .ok t =>
          if isNumTy t then .ok t
          else .error ("Unario '" ++ op ++ "' espera número, obtuvo " ++ t)
  | .bin l op r =>
      match typeofF syms fns l with
      | .error m => .error m
      | .ok tl =>
          match typeofF syms fns r with
          | .error m => .error m
          | .ok tr =>
              if op = "+" then
                if tl = "string" && tr = "string" then .ok "string"
                else if isNumTy tl && isNumTy tr then
                  .ok (if tl = "float" || tr = "float" then "float" else "int")
                else .error ("Operación '+' incompatible entre " ++ tl ++ " y " ++ tr)
              else if op = "-" || op = "*" || op = "/" || op = "%" then
                if isNumTy tl && isNumTy tr then
                  .ok (if tl = "float" || tr = "float" then "float" else "int")
                else .error ("Operación '" ++ op ++ "' espera números, obtuvo " ++
                  tl ++ " y " ++ tr)
              else if op = "==" || op = "!=" || op = "<" || op = ">" ||
                  op = "<=" || op = ">=" then
                if (isNumTy tl && isNumTy tr) || (tl = tr && tr = "string") then
                  .ok "bool"
                else .error ("Comparación '" ++ op ++ "' incompatible entre " ++
                  tl ++ " y " ++ tr)
              else if op = "&&" || op = "||" then
                if tl = tr && tr = "bool" then .ok "bool"
                else .error ("Operación lógica '" ++ op ++ "' espera booleanos, obtuvo " ++
                  tl ++ " y " ++ tr)
              else .error "No sé inferir tipo de BinOp"

/-- Parser.typeof run inside the parser monad (reads the live tables). -/
def typeofM (e : Expr) : M String := fun s =>
  match typeofF s.symbols s.functions e with
  | .ok t => .ok (t, s)
  | .error m => .error (.sem m)

-- ========================================================================
-- parser.py — prescan (_collect_function_declarations and helpers)
-- ========================================================================

/-- Parser._is_function_declaration: (INT | ID) ID LPAREN lookahead. -/
def isFnDecl (s : PState) : Bool :=
  if s.i + 2 ≥ s.tokens.length then false
  else
    let t1 := s.tokens.getD s.i dfltTok
    let t2 := s.tokens.getD (s.i + 1) dfltTok
    let t3 := s.tokens.getD (s.i + 2) dfltTok
    (t1.type = "INT" || t1.type = "ID") && t2.type = "ID" && t3.type = "LPAREN"

/-- Skip to just after the next SEMI (or stop at EOF). -/
def pSkipToSemi : Nat → M Unit
  | 0 => fun _ => .error .noFuel
  | fuel + 1 => do
      let atSemi ← pcheck "SEMI"
      let atEof ← pcheck "EOF"
      if !atSemi && !atEof then do
        padv
        pSkipToSemi fuel
      else if atSemi then padv
      else pure ()

/-- First brace-skipping loop: advance to just after the first LBRACE;
returns whether one was found before EOF. -/
def pSkipToLBrace : Nat → M Bool
  | 0 => fun _ => .error .noFuel
  | fuel + 1 => do
      let atEof ← pcheck "EOF"
      if atEof then pure false
      else do
        let atLB ← pcheck "LBRACE"
        if atLB then do
          padv
          pure true
        else do
          padv
          pSkipToLBrace fuel

/-- Second brace-skipping loop: consume tokens while the brace count stays
positive. -/
def pSkipBraces : Nat → Nat → M Unit
  | 0, _ => fun _ => .error .noFuel
  | fuel + 1, count => do
      let atEof ← pcheck "EOF"
      if count > 0 && !atEof then do
        let atLB ← pcheck "LBRACE"
        let atRB ← pcheck "RBRACE"
        padv
        pSkipBraces fuel (if atLB then count + 1 else if atRB then count - 1 else count)
      else pure ()

/-- Parser._collect_params: read a parameter signature without touching the
symbol table. -/
def pCollectParamsLoop : Nat → List (String × String) → M (List (String × String))
  | 0, _ => fun _ => .error .noFuel
  | fuel + 1, acc => do
      let atComma ← pcheck "COMMA"
      if atComma then do
        padv
        let isInt ← pcheck "INT"
        let isId ← pcheck "ID"
        let cur ← curTok
        if isInt || isId then do
          let pty := if isInt then "int" else cur.lexeme
          padv
          let isId2 ← pcheck "ID"
          let cur2 ← curTok
          if isId2 then do
            padv
            pCollectParamsLoop fuel (acc ++ [(pty, cur2.lexeme)])
          else pCollectParamsLoop fuel acc
        else pure acc
      else pure acc

def pCollectParams (fuel : Nat) : M (List (String × String)) := do
  let isInt ← pcheck "INT"
  let isId ← pcheck "ID"
  let cur ← curTok
  if !(isInt || isId) then pure []
  else do
    let pty := if isInt then "int" else cur.lexeme
    padv
    let isId2 ← pcheck "ID"
    let cur2 ← curTok
    if isId2 then do
      padv
      pCollectParamsLoop fuel [(pty, cur2.lexeme)]
    else pCollectParamsLoop fuel []

/-- Main prescan loop of _collect_function_declarations. -/
def pCollectLoop : Nat → M Unit
  | 0 => fun _ => .error .noFuel
  | fuel + 1 =>
      pcheck "EOF" >>= fun atEof =>
      if atEof then pure ()
      else
        mget >>= fun s =>
        if isFnDecl s then
          pcheck "ID" >>= fun isId =>
          curTok >>= fun cur =>
          padv >>= fun _ =>
          curTok >>= fun cur2 =>
          padv >>= fun _ =>
          padv >>= fun _ =>
          pcheck "RPAREN" >>= fun atRp =>
          (if !atRp then pCollectParams fuel else pure []) >>= fun ps =>
          mget >>= fun s2 =>
          (if (s2.functions cur2.lexeme).isNone then
             addFn cur2.lexeme ((if isId then cur.lexeme else "int"), ps, false)
           else pure ()) >>= fun _ =>
          pSkipToLBrace fuel >>= fun found =>
          pSkipBraces fuel (if found then 1 else 0) >>= fun _ =>
          pCollectLoop fuel
        else
          pSkipToSemi fuel >>= fun _ =>
          pCollectLoop fuel

/-- Parser._collect_function_declarations: run the prescan and restore the
token index. -/
def pCollectFnDecls (fuel : Nat) : M Unit := do
  let saved ← mget
  pCollectLoop fuel
  setIdx saved.i

-- ========================================================================
-- parser.py — argument validation helpers of func_call
-- ========================================================================

def pPrintfArgsChk : List Expr → Nat → M Unit
  | [], _ => pure ()
  | a :: rest, idx =>
      match a with
      | .var vn => do
          let s ← mget
          if (s.symbols vn).isNone then
            throwSem ("printf: variable '" ++ vn ++ "' no declarada")
          else pPrintfArgsChk rest (idx + 1)
      | _ => throwSem ("printf: argumento " ++ natStr idx ++ " debe ser una variable")

def pScanfArgsChk : List Expr → Nat → M Unit
  | [], _ => pure ()
  | a :: rest, idx =>
      match a with
      | .var vn => do
          let s ← mget
          if (s.symbols vn).isNone then
            throwSem ("scanf: variable '" ++ vn ++ "' no declarada")
          else pScanfArgsChk rest (idx + 1)
      | _ => throwSem ("scanf: argumento " ++ natStr idx ++ " debe ser una variable")

def pArgsTypeChk (fname : String) : List (Expr × (String × String)) → Nat → M Unit
  | [], _ => pure ()
  | (a, (expTy, pname)) :: rest, idx => do
      let t ← typeofM a
      if t = expTy then pArgsTypeChk fname rest (idx + 1)
      else if t = "int" && expTy = "float" then pArgsTypeChk fname rest (idx + 1)
      else throwSem ("Función '" ++ fname ++ "', argumento " ++ natStr (idx + 1) ++
        " ('" ++ pname ++ "'): se esperaba " ++ expTy ++ ", se obtuvo " ++ t)

-- ========================================================================
-- parser.py — the recursive-descent parser proper
-- ========================================================================

mutual

def pFactor : Nat → M Expr
  | 0 => fun _ => .error .noFuel
  | fuel + 1 => do
      let isPlus ← pcheck "PLUS"
      let isMinus ← pcheck "MINUS"
      if isPlus || isMinus then do
        let tok ← curTok
        padv
        let e ← pFactor fuel
        pure (.unary tok.lexeme e)
      else do
      let isNum ← pcheck "NUM"
      if isNum then do
        let tok ← curTok
        padv
        match tok.literal with
        | none => throwSyn "Número mal formado"
        | some l => pure (.num l)
      else do
      let isStr ← pcheck "STRING"
      if isStr then do
        let tok ← curTok
        padv
        match tok.literal with
        | some (.s v) => pure (.str v)
        | _ => pure (.str "")
      else do
      let isId ← pcheck "ID"
      if isId then do
        let tok ← curTok
        padv
        let isLp ← pcheck "LPAREN"
        if isLp then do
          pback
          pFuncCall fuel
        else pure (.var tok.lexeme)
      else do
      let isLp ← pcheck "LPAREN"
      if isLp then do
        padv
        let e ← pLogicalOr fuel
        let _ ← pconsume "RPAREN" "Se esperaba ')'"
        pure e
      else throwSyn "Factor inválido"

def pTermLoop : Nat → Expr → M Expr
  | 0, _ => fun _ => .error .noFuel
  | fuel + 1, left => do
      let c1 ← pcheck "STAR"
      let c2 ← pcheck "SLASH"
      let c3 ← pcheck "PERC"
      if c1 || c2 || c3 then do
        let tok ← curTok
        padv
        let right ← pFactor fuel
        pTermLoop fuel (.bin left tok.lexeme right)
      else pure left

def pTerm : Nat → M Expr
  | 0 => fun _ => .error .noFuel
  | fuel + 1 => do
      let left ← pFactor fuel
      pTermLoop fuel left

def pAddLoop : Nat → Expr → M Expr
  | 0, _ => fun _ => .error .noFuel
  | fuel + 1, left => do
      let c1 ← pcheck "PLUS"
      let c2 ← pcheck "MINUS"
      if c1 || c2 then do
        let tok ← curTok
        padv
        let right ← pTerm fuel
        pAddLoop fuel (.bin left tok.lexeme right)
      else pure left

def pAdditive : Nat → M Expr
  | 0 => fun _ => .error .noFuel
  | fuel + 1 => do
      let left ← pTerm fuel
      pAddLoop fuel left

def pRelLoop : Nat → Expr → M Expr
  | 0, _ => fun _ => .error .noFuel
  | fuel + 1, left => do
      let c1 ← pcheck "LT"
      let c2 ← pcheck "GT"
      let c3 ← pcheck "LE"
      let c4 ← pcheck "GE"
      if c1 || c2 || c3 || c4 then do
        let tok ← curTok
        padv
        let right ← pAdditive fuel
        pRelLoop fuel (.bin left tok.lexeme right)
      else pure left

def pRelational : Nat → M Expr
  | 0 => fun _ => .error .noFuel
  | fuel + 1 => do
      let left ← pAdditive fuel
      pRelLoop fuel left

def pEqLoop : Nat → Expr → M Expr
  | 0, _ => fun _ => .error .noFuel
  | fuel + 1, left => do
      let c1 ← pcheck "EQ"
      let c2 ← pcheck "NEQ"
      if c1 || c2 then do
        let tok ← curTok
        padv
        let right ← pRelational fuel
        pEqLoop fuel (.bin left tok.lexeme right)
      else pure left

def pEquality : Nat → M Expr
  | 0 => fun _ => .error .noFuel
  | fuel + 1 => do
      let left ← pRelational fuel
      pEqLoop fuel left

def pAndLoop : Nat → Expr → M Expr
  | 0, _ => fun _ => .error .noFuel
  | fuel + 1, left => do
      let c1 ← pcheck "AND"
      if c1 then do
        let tok ← curTok
        padv
        let right ← pEquality fuel
        pAndLoop fuel (.bin left tok.lexeme right)
      else pure left

def pLogicalAnd : Nat → M Expr
  | 0 => fun _ => .error .noFuel
  | fuel + 1 => do
      let left ← pEquality fuel
      pAndLoop fuel left

def pOrLoop : Nat → Expr → M Expr
  | 0, _ => fun _ => .error .noFuel
  | fuel + 1, left => do
      let c1 ← pcheck "OR"
      if c1 then do
        let tok ← curTok
        padv
        let right ← pLogicalAnd fuel
        pOrLoop fuel (.bin left tok.lexeme right)
      else pure left

def pLogicalOr : Nat → M Expr
  | 0 => fun _ => .error .noFuel
  | fuel + 1 => do
      let left ← pLogicalAnd fuel
      pOrLoop fuel left

def pArgsLoop : Nat → List Expr → M (List Expr)
  | 0, _ => fun _ => .error .noFuel
  | fuel + 1, acc => do
      let c ← pcheck "COMMA"
      if c then do
        padv
        let e ← pLogicalOr fuel
        pArgsLoop fuel (acc ++ [e])
      else pure acc

def pArgs : Nat → M (List Expr)
  | 0 => fun _ => .error .noFuel
  | fuel + 1 => do
      let e ← pLogicalOr fuel
      pArgsLoop fuel [e]

def pFuncCall : Nat → M Expr
  | 0 => fun _ => .error .noFuel
  | fuel + 1 => do
      let nameTok ← pconsume "ID" "Se esperaba nombre de función"
      let name := nameTok.lexeme
      let s ← mget
      if (s.functions name).isNone then
        throwSem ("Función '" ++ name ++ "' no declarada")
      else do
      let _ ← pconsume "LPAREN" "Se esperaba '('"
      let atRp ← pcheck "RPAREN"
      let args ← if !atRp then pArgs fuel else pure []
      let _ ← pconsume "RPAREN" "Se esperaba ')'"
      let s2 ← mget
      match s2.functions name with
      | none => throwSem ("Función '" ++ name ++ "' no declarada")
      | some info =>
          if name = "printf" then
            match args with
            | [] => throwSem "printf requiere al menos 1 argumento"
            | [a0] => do
                let _ ← typeofM a0
                match a0 with
                | .var vn => do
                    let s3 ← mget
                    if (s3.symbols vn).isNone then
                      throwSem ("printf: variable '" ++ vn ++ "' no declarada")
                    else pure (Expr.call name (.ofList args))
                | _ => pure (Expr.call name (.ofList args))
            | _ :: restArgs => do
                pPrintfArgsChk restArgs 2
                pure (Expr.call name (.ofList args))
          else if name = "scanf" then
            match args with
            | [] => throwSem "scanf requiere al menos 1 argumento"
            | _ => do
                pScanfArgsChk args 1
                pure (Expr.call name (.ofList args))
          else if !info.2.2 then do
            if args.length ≠ info.2.1.length then
              throwSem ("Función '" ++ name ++ "' espera " ++ natStr info.2.1.length ++
                " argumento(s), se proporcionaron " ++ natStr args.length)
            else do
              pArgsTypeChk name (args.zip info.2.1) 0
              pure (Expr.call name (.ofList args))
          else pure (Expr.call name (.ofList args))

def pDecl : Nat → M Stmt
  | 0 => fun _ => .error .noFuel
  | fuel + 1 => do
      let _ ← pconsume "INT" "Se esperaba 'int'"
      let nameTok ← pconsume "ID" "Se esperaba un identificador"
      let name := nameTok.lexeme
      let s ← mget
      if (s.symbols name).isSome then
        throwSem ("Variable '" ++ name ++ "' ya declarada")
      else do
        let hasA ← pcheck "ASSIGN"
        let init ← if hasA then do
            padv
            let e ← pLogicalOr fuel
            pure (some e)
          else pure none
        let _ ← pconsume "SEMI" "Falta ';' al final de la declaración"
        addSym name "int"
        match init with
        | none => pure (Stmt.decl name none)
        | some e => do
            let t ← typeofM e
            if t ≠ "int" then
              throwSem ("Tipo incompatible en inicialización de '" ++ name ++ "': " ++ t)
            else pure (Stmt.decl name init)

def pDeclNS : Nat → M Stmt
  | 0 => fun _ => .error .noFuel
  | fuel + 1 => do
      let _ ← pconsume "INT" "Se esperaba 'int'"
      let nameTok ← pconsume "ID" "Se esperaba un identificador"
      let name := nameTok.lexeme
      let s ← mget
      if (s.symbols name).isSome then
        throwSem ("Variable '" ++ name ++ "' ya declarada")
      else do
        let hasA ← pcheck "ASSIGN"
        let init ← if hasA then do
            padv
            let e ← pLogicalOr fuel
            pure (some e)
          else pure none
        addSym name "int"
        match init with
        | none => pure (Stmt.decl name none)
        | some e => do
            let t ← typeofM e
            if t ≠ "int" then
              throwSem ("Tipo incompatible en inicialización de '" ++ name ++ "': " ++ t)
            else pure (Stmt.decl name init)

def pAssign : Nat → M Stmt
  | 0 => fun _ => .error .noFuel
  | fuel + 1 => do
      let nameTok ← pconsume "ID" "Se esperaba un identificador"
      let _ ← pconsume "ASSIGN" "Se esperaba '='"
      let e ← pLogicalOr fuel
      let _ ← pconsume "SEMI" "Falta ';' al final de la asignación"
      let name := nameTok.lexeme
      let s ← mget
      match s.symbols name with
      | none => throwSem ("Variable '" ++ name ++ "' no declarada")
      | some expected => do
          let t ← typeofM e
          if t = expected then pure (Stmt.assign name e)
          else if t = "int" && expected = "float" then pure (Stmt.assign name e)
          else throwSem ("Tipo incompatible en asignación a '" ++ name ++
            "': se esperaba " ++ expected ++ ", se obtuvo " ++ t)

def pAssignNS : Nat → M Stmt
  | 0 => fun _ => .error .noFuel
  | fuel + 1 => do
      let nameTok ← pconsume "ID" "Se esperaba un identificador"
      let _ ← pconsume "ASSIGN" "Se esperaba '='"
      let e ← pLogicalOr fuel
      let name := nameTok.lexeme
      let s ← mget
      match s.symbols name with
      | none => throwSem ("Variable '" ++ name ++ "' no declarada")
      | some expected => do
          let t ← typeofM e
          if t = expected then pure (Stmt.assign name e)
          else if t = "int" && expected = "float" then pure (Stmt.assign name e)
          else throwSem ("Tipo incompatible en asignación a '" ++ name ++
            "': se esperaba " ++ expected ++ ", se obtuvo " ++ t)

def pDeclTy : Nat → M Stmt
  | 0 => fun _ => .error .noFuel
  | fuel + 1 => do
      let tyTok ← pconsume "ID" "Se esperaba un tipo"
      let nameTok ← pconsume "ID" "Se esperaba un identificador"
      let hasA ← pcheck "ASSIGN"
      let init ← if hasA then do
          padv
          let e ← pLogicalOr fuel
          pure (some e)
        else pure none
      let _ ← pconsume "SEMI" "Falta ';' al final de la declaración"
      let tyName := tyTok.lexeme
      let name := nameTok.lexeme
      let s ← mget
      if (s.symbols name).isSome then
        throwSem ("Variable '" ++ name ++ "' ya declarada")
      else do
        addSym name tyName
        match init with
        | none => pure (Stmt.decl name none)
        | some e => do
            let t ← typeofM e
            if t = tyName then pure (Stmt.decl name init)
            else if t = "int" && tyName = "float" then pure (Stmt.decl name init)
            else throwSem ("Tipo incompatible en inicialización de '" ++ name ++ "': " ++ t)

def pDeclTyNS : Nat → M Stmt
  | 0 => fun _ => .error .noFuel
  | fuel + 1 => do
      let tyTok ← pconsume "ID" "Se esperaba un tipo"
      let nameTok ← pconsume "ID" "Se esperaba un identificador"
      let hasA ← pcheck "ASSIGN"
      let init ← if hasA then do
          padv
          let e ← pLogicalOr fuel
          pure (some e)
        else pure none
      let tyName := tyTok.lexeme
      let name := nameTok.lexeme
      let s ← mget
      if (s.symbols name).isSome then
        throwSem ("Variable '" ++ name ++ "' ya declarada")
      else do
        addSym name tyName
        match init with
        | none => pure (Stmt.decl name none)
        | some e => do
            let t ← typeofM e
            if t = tyName then pure (Stmt.decl name init)
            else if t = "int" && tyName = "float" then pure (Stmt.decl name init)
            else throwSem ("Tipo incompatible en inicialización de '" ++ name ++ "': " ++ t)

def pReturnStmt : Nat → M Stmt
  | 0 => fun _ => .error .noFuel
  | fuel + 1 => do
      let isRet ← pcheck "RETURN"
      if isRet then do
        let _ ← pconsume "RETURN" "Se esperaba 'return'"
        pure ()
      else do
        let isId ← pcheck "ID"
        let cur ← curTok
        if isId && cur.lexeme = "return" then padv
        else throwSyn "Se esperaba 'return'"
      let atSemi ← pcheck "SEMI"
      let e ← if !atSemi then do
          let x ← pLogicalOr fuel
          pure (some x)
        else pure none
      let _ ← pconsume "SEMI" "Se esperaba ';' después de return"
      let s ← mget
      match s.curRet with
      | none => pure (Stmt.ret e)
      | some rt =>
          match e with
          | none =>
              if rt ≠ "void" then
                throwSem ("Return sin valor en función que retorna " ++ rt)
              else pure (Stmt.ret none)
          | some ex => do
              let t ← typeofM ex
              if t = rt then pure (Stmt.ret e)
              else if t = "int" && rt = "float" then pure (Stmt.ret e)
              else throwSem ("Tipo de return incompatible: se esperaba " ++ rt ++
                ", se obtuvo " ++ t)

def pIfStmt : Nat → M Stmt
  | 0 => fun _ => .error .noFuel
  | fuel + 1 => do
      let isId ← pcheck "ID"
      let cur ← curTok
      if !(isId && cur.lexeme = "if") then throwSyn "Se esperaba 'if'"
      else do
        padv
        let _ ← pconsume "LPAREN" "Se esperaba '(' después de 'if'"
        let cond ← pLogicalOr fuel
        let _ ← pconsume "RPAREN" "Se esperaba ')' después de la condición"
        let ct ← typeofM cond
        if !(ct = "bool" || ct = "int" || ct = "float") then
          throwSem ("Condición de 'if' debe ser booleana o numérica, se obtuvo " ++ ct)
        else do
          let thenB ← pBlock fuel
          let isId2 ← pcheck "ID"
          let cur2 ← curTok
          if isId2 && cur2.lexeme = "else" then do
            padv
            let elseB ← pBlock fuel
            pure (.ifS cond thenB (some elseB))
          else pure (.ifS cond thenB none)

def pWhileStmt : Nat → M Stmt
  | 0 => fun _ => .error .noFuel
  | fuel + 1 => do
      let isId ← pcheck "ID"
      let cur ← curTok
      if !(isId && cur.lexeme = "while") then throwSyn "Se esperaba 'while'"
      else do
        padv
        let _ ← pconsume "LPAREN" "Se esperaba '(' después de 'while'"
        let cond ← pLogicalOr fuel
        let _ ← pconsume "RPAREN" "Se esperaba ')' después de la condición"
        let ct ← typeofM cond
        if !(ct = "bool" || ct = "int" || ct = "float") then
          throwSem ("Condición de 'while' debe ser booleana o numérica, se obtuvo " ++ ct)
        else do
          let body ← pBlock fuel
          pure (.whileS cond body)

def pForStmt : Nat → M Stmt
  | 0 => fun _ => .error .noFuel
  | fuel + 1 => do
      let isId ← pcheck "ID"
      let cur ← curTok
      if !(isId && cur.lexeme = "for") then throwSyn "Se esperaba 'for'"
      else do
        padv
        let _ ← pconsume "LPAREN" "Se esperaba '(' después de 'for'"
        let isInt ← pcheck "INT"
        let finit ← if isInt then pDeclNS fuel
          else do
            let isId2 ← pcheck "ID"
            if isId2 then do
              let s ← mget
              let nxtTy := if s.i + 1 < s.tokens.length then
                  (s.tokens.getD (s.i + 1) dfltTok).type
                else ""
              if nxtTy = "ID" then pDeclTyNS fuel
              else if nxtTy = "ASSIGN" then pAssignNS fuel
              else throwSyn "Se esperaba declaración o asignación en inicialización de for"
            else throwSyn "Se esperaba declaración o asignación en inicialización de for"
        let _ ← pconsume "SEMI" "Se esperaba ';' después de la inicialización"
        let cond ← pLogicalOr fuel
        let ct ← typeofM cond
        if !(ct = "bool" || ct = "int" || ct = "float") then
          throwSem ("Condición de 'for' debe ser booleana o numérica, se obtuvo " ++ ct)
        else do
          let _ ← pconsume "SEMI" "Se esperaba ';' después de la condición"
          let step ← pAssignNS fuel
          let _ ← pconsume "RPAREN" "Se esperaba ')' después del paso"
          let body ← pBlock fuel
          pure (.forS finit cond step body)

def pBlockStmts : Nat → M (List Stmt)
  | 0 => fun _ => .error .noFuel
  | fuel + 1 => do
      let isRb ← pcheck "RBRACE"
      if isRb then pure []
      else do
        let isEof ← pcheck "EOF"
        if isEof then throwSyn "Se esperaba '\x7d' pero se alcanzó EOF"
        else do
          let st ← pStmt fuel
          let rest ← pBlockStmts fuel
          pure (st :: rest)

def pBlock : Nat → M Stmt
  | 0 => fun _ => .error .noFuel
  | fuel + 1 => do
      let _ ← pconsume "LBRACE" "Se esperaba '\x7b'"
      let ss ← pBlockStmts fuel
      let _ ← pconsume "RBRACE" "Se esperaba '\x7d'"
      pure (.block (StmtList.ofList ss))

def pStmt : Nat → M Stmt
  | 0 => fun _ => .error .noFuel
  | fuel + 1 => do
      let isRet ← pcheck "RETURN"
      let isId ← pcheck "ID"
      let cur ← curTok
      if isRet || (isId && cur.lexeme = "return") then pReturnStmt fuel
      else do
      let isLb ← pcheck "LBRACE"
      if isLb then pBlock fuel
      else if isId && cur.lexeme = "if" then pIfStmt fuel
      else if isId && cur.lexeme = "while" then pWhileStmt fuel
      else if isId && cur.lexeme = "for" then pForStmt fuel
      else do
      let isInt ← pcheck "INT"
      if isInt then pDecl fuel
      else if isId then do
        let s ← mget
        let nxtTy := if s.i + 1 < s.tokens.length then
            (s.tokens.getD (s.i + 1) dfltTok).type
          else ""
        if nxtTy = "ASSIGN" then pAssign fuel
        else if nxtTy = "ID" then pDeclTy fuel
        else if nxtTy = "LPAREN" then do
          let e ← pFuncCall fuel
          let _ ← pconsume "SEMI" "Se esperaba ';' después de llamada a función"
          pure (.exprS e)
        else throwSyn ("Statement no reconocido: " ++ cur.type ++ " '" ++ cur.lexeme ++ "'")
      else throwSyn ("Statement no reconocido: " ++ cur.type ++ " '" ++ cur.lexeme ++ "'")

def pParamsLoop : Nat → List (String × String) → M (List (String × String))
  | 0, _ => fun _ => .error .noFuel
  | fuel + 1, acc => do
      let c ← pcheck "COMMA"
      if c then do
        padv
        let p ← pParam fuel
        pParamsLoop fuel (acc ++ [p])
      else pure acc

def pParam : Nat → M (String × String)
  | 0 => fun _ => .error .noFuel
  | _fuel + 1 => do
      let isInt ← pcheck "INT"
      let pty ← if isInt then do
          padv
          pure "int"
        else do
          let isId ← pcheck "ID"
          let cur ← curTok
          if isId then do
            padv
            pure cur.lexeme
          else throwSyn "Se esperaba un tipo en parámetro"
      let nameTok ← pconsume "ID" "Se esperaba nombre de parámetro"
      addSym nameTok.lexeme pty
      pure (pty, nameTok.lexeme)

def pParams : Nat → M (List (String × String))
  | 0 => fun _ => .error .noFuel
  | fuel + 1 => do
      let p ← pParam fuel
      pParamsLoop fuel [p]

def pFuncDecl : Nat → M Item
  | 0 => fun _ => .error .noFuel
  | fuel + 1 =>
      pcheck "INT" >>= fun isInt =>
      (if isInt then padv >>= fun _ => pure "int"
       else
         pcheck "ID" >>= fun isId =>
         curTok >>= fun cur =>
         if isId then padv >>= fun _ => pure cur.lexeme
         else throwSyn "Se esperaba un tipo de retorno") >>= fun retTy =>
      pconsume "ID" "Se esperaba nombre de función" >>= fun nameTok =>
      clearSyms >>= fun _ =>
      pconsume "LPAREN" "Se esperaba '(' después del nombre de función" >>= fun _ =>
      pcheck "RPAREN" >>= fun atRp =>
      (if !atRp then pParams fuel else pure []) >>= fun ps =>
      pconsume "RPAREN" "Se esperaba ')'" >>= fun _ =>
      mget >>= fun s2 =>
      setCurRet (some retTy) >>= fun _ =>
      pBlock fuel >>= fun body =>
      clearSyms >>= fun _ =>
      setCurRet s2.curRet >>= fun _ =>
      pure (Item.fn retTy nameTok.lexeme ps body)

def pTopLevel : Nat → M Item
  | 0 => fun _ => .error .noFuel
  | fuel + 1 => do
      let s ← mget
      if isFnDecl s then pFuncDecl fuel
      else do
        let st ← pStmt fuel
        pure (Item.st st)

def pParseItems : Nat → M (List Item)
  | 0 => fun _ => .error .noFuel
  | fuel + 1 => do
      let atEof ← pcheck "EOF"
      if atEof then pure []
      else do
        let item ← pTopLevel fuel
        let rest ← pParseItems fuel
        pure (item :: rest)

end

/-- Parser.parse: prescan, reset the index, then the top-level loop. -/
def pParse (fuel : Nat) : M Prog := do
  pCollectFnDecls fuel
  setIdx 0
  let items ← pParseItems fuel
  pure ⟨items⟩

/-- Parser.__init__ plus _init_builtin_functions. -/
def initPState (toks : List Token) : PState :=
  { tokens := toks, i := 0, symbols := emptySyms,
    functions := fun n =>
      if n = "printf" then some ("int", [], true)
      else if n = "scanf" then some ("int", [], true)
      else none,
    curRet := none }

def parseToks (fuel : Nat) (toks : List Token) : Except PErr (Prog × PState) :=
  pParse fuel (initPState toks)

inductive CompErr where
  | frontE (e : FrontErr)
  | parseE (e : PErr)

/-- Front half of the pipeline: lexer, adapter, parser. -/
def pipeParse (fuel : Nat) (src : String) : Except CompErr (Prog × PState) :=
  match tokenizeStd src with
  | .error e => .error (.frontE e)
  | .ok toks =>
      match parseToks fuel toks with
      | .error e => .error (.parseE e)
      | .ok r => .ok r


/-- Staging lemma: once the adapter's output on a source string is known,
the parse half of the pipeline can be evaluated on the explicit token
list. -/
theorem pipeParse_eq (fuel : Nat) (src : String) (ts : List Token)
    (h : tokenizeStd src = .ok ts) :
    pipeParse fuel src =
      (match parseToks fuel ts with
       | .error e => .error (.parseE e)
       | .ok r => .ok r) := by
  unfold pipeParse
  rw [h]

-- Concrete token lists (each certified against the adapter by rfl below).

def toksMain0 : List Token :=
  [⟨"INT", "int", none, (1, 1)⟩, ⟨"ID", "main", none, (1, 5)⟩,
   ⟨"LPAREN", "(", none, (1, 9)⟩, ⟨"RPAREN", ")", none, (1, 10)⟩,
   ⟨"LBRACE", "\x7b", none, (1, 12)⟩, ⟨"ID", "return", none, (1, 14)⟩,
   ⟨"NUM", "0", some (.i 0), (1, 21)⟩, ⟨"SEMI", ";", none, (1, 22)⟩,
   ⟨"RBRACE", "\x7d", none, (1, 24)⟩, ⟨"EOF", "", none, (1, 24)⟩]

def toksScope : List Token :=
  [⟨"INT", "int", none, (1, 1)⟩, ⟨"ID", "x", none, (1, 5)⟩,
   ⟨"ASSIGN", "=", none, (1, 7)⟩, ⟨"NUM", "1", some (.i 1), (1, 9)⟩,
   ⟨"SEMI", ";", none, (1, 10)⟩,
   ⟨"INT", "int", none, (1, 12)⟩, ⟨"ID", "f", none, (1, 16)⟩,
   ⟨"LPAREN", "(", none, (1, 17)⟩, ⟨"RPAREN", ")", none, (1, 18)⟩,
   ⟨"LBRACE", "\x7b", none, (1, 20)⟩, ⟨"ID", "return", none, (1, 22)⟩,
   ⟨"NUM", "0", some (.i 0), (1, 29)⟩, ⟨"SEMI", ";", none, (1, 30)⟩,
   ⟨"RBRACE", "\x7d", none, (1, 32)⟩,
   ⟨"ID", "x", none, (1, 34)⟩, ⟨"ASSIGN", "=", none, (1, 36)⟩,
   ⟨"NUM", "2", some (.i 2), (1, 38)⟩, ⟨"SEMI", ";", none, (1, 39)⟩,
   ⟨"EOF", "", none, (1, 39)⟩]

def toksTemp : List Token :=
  [⟨"INT", "int", none, (1, 1)⟩, ⟨"ID", "t0", none, (1, 5)⟩,
   ⟨"ASSIGN", "=", none, (1, 8)⟩, ⟨"NUM", "1", some (.i 1), (1, 10)⟩,
   ⟨"SEMI", ";", none, (1, 11)⟩,
   ⟨"INT", "int", none, (1, 13)⟩, ⟨"ID", "y", none, (1, 17)⟩,
   ⟨"ASSIGN", "=", none, (1, 19)⟩, ⟨"NUM", "1", some (.i 1), (1, 21)⟩,
   ⟨"PLUS", "+", none, (1, 23)⟩, ⟨"NUM", "2", some (.i 2), (1, 25)⟩,
   ⟨"SEMI", ";", none, (1, 26)⟩, ⟨"EOF", "", none, (1, 26)⟩]

def toksBool : List Token :=
  [⟨"ID", "bool", none, (1, 1)⟩, ⟨"ID", "b", none, (1, 6)⟩,
   ⟨"ASSIGN", "=", none, (1, 8)⟩, ⟨"NUM", "1", some (.i 1), (1, 10)⟩,
   ⟨"EQ", "==", none, (1, 12)⟩, ⟨"NUM", "2", some (.i 2), (1, 15)⟩,
   ⟨"SEMI", ";", none, (1, 16)⟩,
   ⟨"ID", "b", none, (1, 18)⟩, ⟨"ASSIGN", "=", none, (1, 20)⟩,
   ⟨"ID", "b", none, (1, 22)⟩, ⟨"AND", "&&", none, (1, 24)⟩,
   ⟨"ID", "b", none, (1, 27)⟩, ⟨"SEMI", ";", none, (1, 28)⟩,
   ⟨"EOF", "", none, (1, 28)⟩]

example : tokenizeStd "int main() \x7b return 0; \x7d" = .ok toksMain0 := rfl

example : tokenizeStd "int x = 1; int f() \x7b return 0; \x7d x = 2;" = .ok toksScope := rfl

example : tokenizeStd "int t0 = 1; int y = 1 + 2;" = .ok toksTemp := rfl

example : tokenizeStd "bool b = 1 == 2; b = b && b;" = .ok toksBool := rfl

/-- The AST of `int main() { return 0; }`. -/
def progMain0 : Prog :=
  ⟨[.fn "int" "main" [] (.block (.ofList [.ret (some (.num (.i 0)))]))]⟩

example : (match parseToks 50 toksMain0 with
           | .ok (p, _) => p
           | .error _ => ⟨[]⟩) = progMain0 := rfl

example : parseToks 50 toksScope = .error (.sem "Variable 'x' no declarada") := rfl

/-- The AST of `int t0 = 1; int y = 1 + 2;`. -/
def progTemp : Prog :=
  ⟨[.st (.decl "t0" (some (.num (.i 1)))),
    .st (.decl "y" (some (.bin (.num (.i 1)) "+" (.num (.i 2)))))]⟩

example : (match parseToks 50 toksTemp with
           | .ok (p, _) => p
           | .error _ => ⟨[]⟩) = progTemp := rfl

example : (match parseToks 50 toksBool with
           | .ok (p, _) => p
           | .error _ => ⟨[]⟩) =
    ⟨[.st (.decl "b" (some (.bin (.num (.i 1)) "==" (.num (.i 2))))),
      .st (.assign "b" (.bin (.var "b") "&&" (.var "b")))]⟩ := rfl

-- ========================================================================
-- ir_generator.py — IR instructions
-- ========================================================================

/-- The IR instruction sum type. ir_generator.py defines the constructors
IRLabel, IRAssign, IRBinOp, IRUnaryOp, IRGoto, IRIfFalseGoto, IRCall,
IRReturn, IRFuncBegin, IRFuncEnd and IRParam; `ifGoto` mirrors the IRIfGoto
instruction that asm_generator.py imports from ir_generator and lowers in
visit_if_goto, although ir_generator.py does not define such a class (see
the C8 theorem). -/
inductive IRInstr where
  | label (name : String)
  | assign (dest src : String)
  | binop (dest l op r : String)
  | unaryop (dest op e : String)
  | goto (label : String)
  | ifGoto (cond label : String)
  | ifFalseGoto (cond label : String)
  | call (dest : Option String) (f : String) (args : List String)
  | ret (v : Option String)
  | funcBegin (name : String) (params : List String)
  | funcEnd (name : String)
  | param (v : String)
deriving DecidableEq, Repr

/-- The canonical one-line string form of an instruction (the __str__
methods of the IR dataclasses). -/
def instrStr : IRInstr → String
  | .label name => name ++ ":"
  | .assign d s => d ++ " = " ++ s
  | .binop d l op r => d ++ " = " ++ l ++ " " ++ op ++ " " ++ r
  | .unaryop d op e => d ++ " = " ++ op ++ e
  | .goto l => "goto " ++ l
  | .ifGoto c l => "if " ++ c ++ " goto " ++ l
  | .ifFalseGoto c l => "ifFalse " ++ c ++ " goto " ++ l
  | .call d f args =>
      match d with
      | some dn =>
          if dn = "" then "call " ++ f ++ "(" ++ String.intercalate ", " args ++ ")"
          else dn ++ " = call " ++ f ++ "(" ++ String.intercalate ", " args ++ ")"
      | none => "call " ++ f ++ "(" ++ String.intercalate ", " args ++ ")"
  | .ret v =>
      match v with
      | some vn => if vn = "" then "return" else "return " ++ vn
      | none => "return"
  | .funcBegin name ps => "func " ++ name ++ "(" ++ String.intercalate ", " ps ++ ")"
  | .funcEnd name => "endfunc " ++ name
  | .param v => "param " ++ v

-- ========================================================================
-- ir_generator.py — the generator
-- ========================================================================

/-- Mutable counters and the interned string-literal table of IRGenerator
(the instruction list is returned by each visit as an explicit chunk). -/
structure GenSt where
  temps : Nat
  labels : Nat
  strings : List (String × String)
  strCount : Nat
deriving Repr

def tempName (k : Nat) : String := "t" ++ natStr k

def labelName (k : Nat) : String := "L" ++ natStr k

def strName (k : Nat) : String := "str" ++ natStr k

/-- IRGenerator.new_temp. -/
def newTemp (st : GenSt) : String × GenSt :=
  (tempName st.temps, ⟨st.temps + 1, st.labels, st.strings, st.strCount⟩)

/-- IRGenerator.new_label. -/
def newLabel (st : GenSt) : String × GenSt :=
  (labelName st.labels, ⟨st.temps, st.labels + 1, st.strings, st.strCount⟩)

/-- IRGenerator.new_string: intern a string literal, preserving first-come
insertion order. -/
def newString (v : String) (st : GenSt) : String × GenSt :=
  match st.strings.lookup v with
  | some n => (n, st)
  | none =>
      (strName st.strCount,
       ⟨st.temps, st.labels, st.strings ++ [(v, strName st.strCount)], st.strCount + 1⟩)

/-- Python str() of a Num literal value (int, float, or the degenerate
string case, which the adapter never produces for NUM tokens). -/
def litStr : Lit → String
  | .i n => intStr n
  | .f r => r
  | .s v => v

mutual

/-- IRGenerator.visit on expressions: returns the emitted chunk, the operand
holding the result, and the updated state. -/
def genExpr : Expr → GenSt → List IRInstr × String × GenSt
  | .num v, st => ([], litStr v, st)
  | .str v, st =>
      match newString v st with
      | (n, st') => ([], n, st')
  | .var n, st => ([], n, st)
  | .unary op e, st =>
      match genExpr e st with
      | (ce, r, st1) =>
          match newTemp st1 with
          | (t, st2) => (ce ++ [.unaryop t op r], t, st2)
  | .bin l op r, st =>
      match genExpr l st with
      | (cl, rl, st1) =>
          match genExpr r st1 with
          | (cr, rr, st2) =>
              match newTemp st2 with
              | (t, st3) => (cl ++ cr ++ [.binop t rl op rr], t, st3)
  | .call name args, st =>
      match genArgs args st with
      | (ca, rs, st1) =>
          match newTemp st1 with
          | (t, st2) => (ca ++ [.call (some t) name rs], t, st2)

/-- The argument loop of visit_call: each argument's chunk followed by its
Param instruction. -/
def genArgs : ExprList → GenSt → List IRInstr × List String × GenSt
  | .nil, st => ([], [], st)
  | .cons a as, st =>
      match genExpr a st with
      | (ca, r, st1) =>
          match genArgs as st1 with
          | (crest, rs, st2) => (ca ++ [.param r] ++ crest, r :: rs, st2)

end

mutual

/-- IRGenerator.visit on statements. -/
def genStmt : Stmt → GenSt → List IRInstr × GenSt
  | .block ss, st => genStmts ss st
  | .decl _ none, st => ([], st)
  | .decl name (some e), st =>
      match genExpr e st with
      | (ce, r, st1) => (ce ++ [.assign name r], st1)
  | .assign name e, st =>
      match genExpr e st with
      | (ce, r, st1) => (ce ++ [.assign name r], st1)
  | .ret none, st => ([.ret none], st)
  | .ret (some e), st =>
      match genExpr e st with
      | (ce, r, st1) => (ce ++ [.ret (some r)], st1)
  | .ifS cond thenB elseB, st =>
      match genExpr cond st with
      | (cc, c, st1) =>
          match newLabel st1 with
          | (lthen, st2) =>
              match newLabel st2 with
              | (lend, st3) =>
                  match elseB with
                  | none =>
                      match genStmt thenB st3 with
                      | (ct, st4) =>
                          (cc ++ [.ifFalseGoto c lend, .label lthen] ++ ct ++
                            [.label lend], st4)
                  | some eb =>
                      match newLabel st3 with
                      | (lelse, st4) =>
                          match genStmt thenB st4 with
                          | (ct, st5) =>
                              match genStmt eb st5 with
                              | (ce2, st6) =>
                                  (cc ++ [.ifFalseGoto c lelse, .label lthen] ++ ct ++
                                    [.goto lend, .label lelse] ++ ce2 ++
                                    [.label lend], st6)
  | .whileS cond body, st =>
      match newLabel st with
      | (lstart, st1) =>
          match newLabel st1 with
          | (lbody, st2) =>
              match newLabel st2 with
              | (lend, st3) =>
                  match genExpr cond st3 with
                  | (cc, c, st4) =>
                      match genStmt body st4 with
                      | (cb, st5) =>
                          ([.label lstart] ++ cc ++ [.ifFalseGoto c lend, .label lbody] ++
                            cb ++ [.goto lstart, .label lend], st5)
  | .forS finit cond step body, st =>
      match genStmt finit st with
      | (ci, st1) =>
          match newLabel st1 with
          | (lstart, st2) =>
              match newLabel st2 with
              | (lbody, st3) =>
                  match newLabel st3 with
                  | (lend, st4) =>
                      match genExpr cond st4 with
                      | (cc, c, st5) =>
                          match genStmt body st5 with
                          | (cb, st6) =>
                              match genStmt step st6 with
                              | (cs, st7) =>
                                  (ci ++ [.label lstart] ++ cc ++
                                    [.ifFalseGoto c lend, .label lbody] ++ cb ++ cs ++
                                    [.goto lstart, .label lend], st7)
  | .exprS e, st =>
      match genExpr e st with
      | (ce, _, st1) => (ce, st1)

def genStmts : StmtList → GenSt → List IRInstr × GenSt
  | .nil, st => ([], st)
  | .cons s ss, st =>
      match genStmt s st with
      | (cs, st1) =>
          match genStmts ss st1 with
          | (crest, st2) => (cs ++ crest, st2)

end

/-- IRGenerator.visit_func_decl / top-level items. -/
def genItem : Item → GenSt → List IRInstr × GenSt
  | .fn _ name params body, st =>
      match genStmt body st with
      | (cb, st1) =>
          ([.funcBegin name (params.map Prod.snd)] ++ cb ++ [.funcEnd name], st1)
  | .st s, st => genStmt s st

def genItems : List Item → GenSt → List IRInstr × GenSt
  | [], st => ([], st)
  | it :: its, st =>
      match genItem it st with
      | (ci, st1) =>
          match genItems its st1 with
          | (crest, st2) => (ci ++ crest, st2)

def initGenSt : GenSt := ⟨0, 0, [], 0⟩

/-- generate_ir: the instruction list and the string-literal table. -/
def generateIR (p : Prog) : List IRInstr × List (String × String) :=
  match genItems p.items initGenSt with
  | (ins, st) => (ins, st.strings)

example : (generateIR progMain0).1 =
    [.funcBegin "main" [], .ret (some "0"), .funcEnd "main"] := rfl

example : (generateIR progTemp).1 =
    [.assign "t0" "1", .binop "t0" "1" "+" "2", .assign "y" "t0"] := rfl

-- ========================================================================
-- asm_generator.py — x86-64 NASM generator
-- ========================================================================

/-- AsmGenerator mutable state (output lines are returned by each visitor
as an explicit chunk). -/
structure AsmSt where
  varOffset : String → Option Nat
  curOffset : Nat
  inFunction : Bool
  functionName : String

/-- Python str.isdigit (ASCII): nonempty and all digits. -/
def pyIsDigit (s : String) : Bool := !s.data.isEmpty && s.data.all Char.isDigit

/-- The numeric-literal test of get_var_location:
var.isdigit() or (var.startswith('-') and var[1:].isdigit()). -/
def isIntLit (v : String) : Bool :=
  pyIsDigit v || (v.startsWith "-" && pyIsDigit (v.drop 1))

def paramRegs : List String := ["rcx", "rdx", "r8", "r9"]

/-- AsmGenerator.get_var_location: literals are immediates; any other
operand is mapped on first reference to a fresh 8-byte slot. -/
def getVarLocation (v : String) (st : AsmSt) : String × AsmSt :=
  if isIntLit v then (v, st)
  else
    match st.varOffset v with
    | some off => ("QWORD [rbp-" ++ natStr off ++ "]", st)
    | none =>
        ("QWORD [rbp-" ++ natStr (st.curOffset + 8) ++ "]",
         ⟨fun x => if x = v then some (st.curOffset + 8) else st.varOffset x,
          st.curOffset + 8, st.inFunction, st.functionName⟩)

/-- Parameter spilling of visit_func_begin: every parameter gets a slot,
and the first four are populated from RCX, RDX, R8, R9. -/
def fbParams : List String → Nat → Nat → (String → Option Nat) →
    List String × (String → Option Nat) × Nat
  | [], _, off, vo => ([], vo, off)
  | p :: ps, idx, off, vo =>
      match fbParams ps (idx + 1) (off + 8) (fun x => if x = p then some (off + 8) else vo x) with
      | (lines, vo', off') =>
          ((if idx < 4 then
              ["    mov QWORD [rbp-" ++ natStr (off + 8) ++ "], " ++ paramRegs.getD idx ""]
            else []) ++ lines, vo', off')

def setccFor (op : String) : List String :=
  if op = "<" then ["    setl al"]
  else if op = ">" then ["    setg al"]
  else if op = "<=" then ["    setle al"]
  else if op = ">=" then ["    setge al"]
  else if op = "==" then ["    sete al"]
  else ["    setne al"]

def binopLines (op : String) : List String :=
  if op = "+" then ["    add rax, rbx"]
  else if op = "-" then ["    sub rax, rbx"]
  else if op = "*" then ["    imul rax, rbx"]
  else if op = "/" then ["    xor rdx, rdx", "    idiv rbx"]
  else if op = "%" then ["    xor rdx, rdx", "    idiv rbx", "    mov rax, rdx"]
  else if op = "<" || op = ">" || op = "<=" || op = ">=" || op = "==" || op = "!=" then
    ["    cmp rax, rbx"] ++ setccFor op ++ ["    movzx rax, al"]
  else []

/-- The argument loop of visit_call: arguments at indices 0..3 are moved or
LEA'd into the registers; arguments at index ≥ 4 emit nothing. -/
def callArgsLoop : List String → Nat → AsmSt → List String × AsmSt
  | [], _, st => ([], st)
  | a :: rest, i, st =>
      if i < 4 then
        match getVarLocation a st with
        | (loc, st1) =>
            match callArgsLoop rest (i + 1) st1 with
            | (lines, st2) =>
                ((if pyIsDigit a then "    mov " ++ paramRegs.getD i "" ++ ", " ++ a
                  else if a.startsWith "str" then
                    "    lea " ++ paramRegs.getD i "" ++ ", [" ++ a ++ "]"
                  else "    mov " ++ paramRegs.getD i "" ++ ", " ++ loc) :: lines, st2)
      else
        callArgsLoop rest (i + 1) st

/-- AsmGenerator.visit: lower one IR instruction. -/
def asmVisit (instr : IRInstr) (st : AsmSt) : List String × AsmSt :=
  match instr with
  | .funcBegin name params =>
      match fbParams params 0 0 (fun _ => none) with
      | (plines, vo, off) =>
          ([name ++ ":", "    push rbp", "    mov rbp, rsp",
            "    sub rsp, 64  ; Espacio para variables locales", ""] ++ plines,
           ⟨vo, off, true, name⟩)
  | .funcEnd name =>
      ([".end_" ++ name ++ ":", "    mov rsp, rbp", "    pop rbp", "    ret", ""],
       ⟨st.varOffset, st.curOffset, false, st.functionName⟩)
  | .label name => (["." ++ name ++ ":"], st)
  | .assign dest src =>
      match getVarLocation dest st with
      | (destLoc, st1) =>
          if isIntLit src then
            (["    mov " ++ destLoc ++ ", " ++ src], st1)
          else if src.startsWith "str" then
            (["    lea rax, [" ++ src ++ "]", "    mov " ++ destLoc ++ ", rax"], st1)
          else
            match getVarLocation src st1 with
            | (srcLoc, st2) =>
                (["    mov rax, " ++ srcLoc, "    mov " ++ destLoc ++ ", rax"], st2)
  | .binop dest l op r =>
      match getVarLocation dest st with
      | (destLoc, st1) =>
          match getVarLocation l st1 with
          | (leftLoc, st2) =>
              match getVarLocation r st2 with
              | (rightLoc, st3) =>
                  ([if pyIsDigit l then "    mov rax, " ++ l else "    mov rax, " ++ leftLoc,
                    if pyIsDigit r then "    mov rbx, " ++ r else "    mov rbx, " ++ rightLoc] ++
                   binopLines op ++ ["    mov " ++ destLoc ++ ", rax"], st3)
  | .unaryop dest op e =>
      match getVarLocation dest st with
      | (destLoc, st1) =>
          match getVarLocation e st1 with
          | (exprLoc, st2) =>
              (["    mov rax, " ++ exprLoc] ++
               (if op = "-" then ["    neg rax"]
                else if op = "!" then
                  ["    test rax, rax", "    setz al", "    movzx rax, al"]
                else []) ++
               ["    mov " ++ destLoc ++ ", rax"], st2)
  | .goto l => (["    jmp ." ++ l], st)
  | .ifGoto c l =>
      match getVarLocation c st with
      | (condLoc, st1) =>
          (["    mov rax, " ++ condLoc, "    test rax, rax", "    jnz ." ++ l], st1)
  | .ifFalseGoto c l =>
      match getVarLocation c st with
      | (condLoc, st1) =>
          (["    mov rax, " ++ condLoc, "    test rax, rax", "    jz ." ++ l], st1)
  | .param _ => ([], st)
  | .call d f args =>
      match callArgsLoop args 0 st with
      | (argLines, st1) =>
          match d with
          | some dn =>
              if dn = "" then
                (["    sub rsp, 32  ; Shadow space para Windows x64"] ++ argLines ++
                 ["    call " ++ f, "    add rsp, 32"], st1)
              else
                match getVarLocation dn st1 with
                | (destLoc, st2) =>
                    (["    sub rsp, 32  ; Shadow space para Windows x64"] ++ argLines ++
                     ["    call " ++ f, "    add rsp, 32",
                      "    mov " ++ destLoc ++ ", rax"], st2)
          | none =>
              (["    sub rsp, 32  ; Shadow space para Windows x64"] ++ argLines ++
               ["    call " ++ f, "    add rsp, 32"], st1)
  | .ret v =>
      match v with
      | some vn =>
          if vn = "" then
            (["    xor rax, rax  ; return 0", "    jmp .end_" ++ st.functionName], st)
          else
            match getVarLocation vn st with
            | (valLoc, st1) =>
                ([if pyIsDigit vn then "    mov rax, " ++ vn else "    mov rax, " ++ valLoc,
                  "    jmp .end_" ++ st.functionName], st1)
      | none =>
          (["    xor rax, rax  ; return 0", "    jmp .end_" ++ st.functionName], st)

def asmLoop : List IRInstr → AsmSt → List String × AsmSt
  | [], st => ([], st)
  | i :: is, st =>
      match asmVisit i st with
      | (lines, st1) =>
          match asmLoop is st1 with
          | (rest, st2) => (lines ++ rest, st2)

/-- String replacement, left to right, non-overlapping (Python str.replace
for a non-empty pattern). -/
def replaceAllFuel : Nat → List Char → List Char → List Char → List Char
  | 0, _, _, cs => cs
  | fuel + 1, pat, repl, cs =>
      match cs with
      | [] => []
      | c :: rest =>
          if !pat.isEmpty && pat.isPrefixOf (c :: rest) then
            repl ++ replaceAllFuel fuel pat repl ((c :: rest).drop pat.length)
          else c :: replaceAllFuel fuel pat repl rest

def pyReplace (s pat repl : String) : String :=
  ⟨replaceAllFuel s.data.length pat.data repl.data s.data⟩

/-- AsmGenerator.emit_header. -/
def asmHeader : List String :=
  ["; Generado por el compilador", "; Arquitectura: x86-64 (64 bits)",
   "; Sintaxis: NASM (Intel)", "", "bits 64", "default rel", ""]

/-- AsmGenerator.emit_data_section: \n and \t escape sequences in the
source literal are lowered to NASM inline bytes 10 and 9. -/
def asmData (strings : List (String × String)) : List String :=
  if strings.isEmpty then []
  else
    "section .data" ::
    (strings.map (fun p =>
      "    " ++ p.2 ++ ": db \"" ++
        pyReplace (pyReplace p.1 "\\n" "\", 10, \"") "\\t" "\", 9, \"" ++ "\", 0")) ++
    [""]

def hasMain (ins : List IRInstr) : Bool :=
  ins.any (fun i =>
    match i with
    | .funcBegin n _ => n = "main"
    | _ => false)

def initAsmSt : AsmSt := ⟨fun _ => none, 0, false, ""⟩

/-- AsmGenerator.emit_code_section. -/
def asmCode (ins : List IRInstr) : List String :=
  ["section .text", "    extern printf", "    extern scanf", "    extern exit", ""] ++
  (if hasMain ins then ["    global main", ""] else []) ++
  (asmLoop ins initAsmSt).1

/-- generate_asm: the complete assembly text. -/
def generateAsm (ins : List IRInstr) (strings : List (String × String)) : String :=
  String.intercalate "\n" (asmHeader ++ asmData strings ++ asmCode ins)

-- ========================================================================
-- Whole-pipeline text outputs (--show-ir text and the .asm text)
-- ========================================================================

/-- The canonical IR text: one line per instruction. -/
def irText (ins : List IRInstr) : String :=
  String.intercalate "\n" (ins.map instrStr)

def compileIRText (fuel : Nat) (src : String) : Except CompErr String :=
  match pipeParse fuel src with
  | .error e => .error e
  | .ok (p, _) => .ok (irText (generateIR p).1)

def compileAsmText (fuel : Nat) (src : String) : Except CompErr String :=
  match pipeParse fuel src with
  | .error e => .error e
  | .ok (p, _) => .ok (generateAsm (generateIR p).1 (generateIR p).2)

-- ========================================================================
-- Claim C1 — lowering of IfStmt
-- ========================================================================

/-- The If-lowering template, written from the specification text: evaluate
cond into c; allocate L_then, L_end (and L_else when an else block exists);
emit IfFalseGoto(c, L_else_or_end), Label(L_then), the lowered then-block,
then — only with an else block — Goto(L_end), Label(L_else) and the lowered
else-block, and finally Label(L_end). -/
def specIfLowering (cc : List IRInstr) (c lthen lend : String)
    (ct : List IRInstr) (elsePart : Option (String × List IRInstr)) : List IRInstr :=
  cc ++
  [.ifFalseGoto c (match elsePart with | some (lelse, _) => lelse | none => lend),
   .label lthen] ++ ct ++
  (match elsePart with
   | some (lelse, ce) => [.goto lend, .label lelse] ++ ce
   | none => []) ++
  [.label lend]

/-- Claim C1: for every IfStmt, the IR generator evaluates the condition to
an operand c, allocates fresh labels L_then and L_end (and L_else only when
an else block exists), and emits exactly the spec's template: the condition
code, IfFalseGoto(c, L_else) when an else block exists and
IfFalseGoto(c, L_end) otherwise, Label(L_then), the lowered then-block,
then — only with an else block — Goto(L_end), Label(L_else) and the lowered
else-block, and finally Label(L_end). -/
theorem c1_if_lowering (cond : Expr) (thenB : Stmt) (elseB : Option Stmt) (st : GenSt) :
    genStmt (.ifS cond thenB elseB) st =
      (match genExpr cond st with
       | (cc, c, st1) =>
         match elseB with
         | none =>
             match genStmt thenB ⟨st1.temps, st1.labels + 2, st1.strings, st1.strCount⟩ with
             | (ct, st4) =>
                 (specIfLowering cc c (labelName st1.labels) (labelName (st1.labels + 1))
                   ct none, st4)
         | some eb =>
             match genStmt thenB ⟨st1.temps, st1.labels + 3, st1.strings, st1.strCount⟩ with
             | (ct, st5) =>
                 match genStmt eb st5 with
                 | (ce, st6) =>
                     (specIfLowering cc c (labelName st1.labels) (labelName (st1.labels + 1))
                       ct (some (labelName (st1.labels + 2), ce)), st6)) := by
  rcases hE : genExpr cond st with ⟨cc, ⟨c, st1⟩⟩
  cases elseB with
  | none =>
      rcases hT : genStmt thenB ⟨st1.temps, st1.labels + 2, st1.strings, st1.strCount⟩
        with ⟨ct, st4⟩
      simp only [genStmt, hE, newLabel, specIfLowering]
      rw [show (⟨st1.temps, st1.labels + 1 + 1, st1.strings, st1.strCount⟩ : GenSt) =
        ⟨st1.temps, st1.labels + 2, st1.strings, st1.strCount⟩ from rfl, hT]
      simp
  | some eb =>
      rcases hT : genStmt thenB ⟨st1.temps, st1.labels + 3, st1.strings, st1.strCount⟩
        with ⟨ct, st5⟩
      rcases hEl : genStmt eb st5 with ⟨ce, st6⟩
      simp only [genStmt, hE, newLabel, specIfLowering]
      rw [show (⟨st1.temps, st1.labels + 1 + 1 + 1, st1.strings, st1.strCount⟩ : GenSt) =
        ⟨st1.temps, st1.labels + 3, st1.strings, st1.strCount⟩ from rfl, hT, hEl]
      simp

-- ========================================================================
-- Claim C2 — lowering of Call instructions
-- ========================================================================

/-- The argument moves of the spec's Call template: the arguments at
indices 0..3, paired with RCX, RDX, R8, R9; an integer literal as an
immediate, an operand starting with "str" via lea, anything else from its
stack slot. -/
def specCallArgMoves : List (String × String) → AsmSt → List String × AsmSt
  | [], st => ([], st)
  | (a, reg) :: rest, st =>
      match getVarLocation a st with
      | (loc, st1) =>
          match specCallArgMoves rest st1 with
          | (lines, st2) =>
              ((if pyIsDigit a then "    mov " ++ reg ++ ", " ++ a
                else if a.startsWith "str" then "    lea " ++ reg ++ ", [" ++ a ++ "]"
                else "    mov " ++ reg ++ ", " ++ loc) :: lines, st2)

/-- The Call-lowering template, written from the specification text:
shadow space, the moves for arguments 0..3 (arguments beyond index 3 are
silently dropped), call, stack restore, and the store of RAX exactly when
a destination is present. -/
def specCallLowering (d : Option String) (f : String) (args : List String)
    (st : AsmSt) : List String × AsmSt :=
  match specCallArgMoves ((args.take 4).zip paramRegs) st with
  | (moves, st1) =>
      match d with
      | some dn =>
          match getVarLocation dn st1 with
          | (loc, st2) =>
              (["    sub rsp, 32  ; Shadow space para Windows x64"] ++ moves ++
               ["    call " ++ f, "    add rsp, 32", "    mov " ++ loc ++ ", rax"], st2)
      | none =>
          (["    sub rsp, 32  ; Shadow space para Windows x64"] ++ moves ++
           ["    call " ++ f, "    add rsp, 32"], st1)

theorem callArgsLoop_ge (args : List String) : ∀ (i : Nat) (st : AsmSt), 4 ≤ i →
    callArgsLoop args i st = ([], st) := by
  induction args with
  | nil => intro i st h; rfl
  | cons a rest ih =>
      intro i st h
      rw [callArgsLoop, if_neg (by omega)]
      exact ih (i + 1) st (by omega)

theorem callArgsLoop_spec (args : List String) : ∀ (i : Nat) (st : AsmSt), i ≤ 4 →
    callArgsLoop args i st =
      specCallArgMoves ((args.take (4 - i)).zip (paramRegs.drop i)) st := by
  induction args with
  | nil => intro i st _; simp [callArgsLoop, specCallArgMoves]
  | cons a rest ih =>
      intro i st h
      by_cases hi : i < 4
      · rw [callArgsLoop, if_pos hi]
        have htake : (a :: rest).take (4 - i) = a :: rest.take (4 - (i + 1)) := by
          have h4 : 4 - i = (4 - (i + 1)) + 1 := by omega
          rw [h4]
          rfl
        have hdrop : paramRegs.drop i = paramRegs.getD i "" :: paramRegs.drop (i + 1) := by
          interval_cases i <;> rfl
        rw [htake, hdrop, List.zip_cons_cons]
        rcases hg : getVarLocation a st with ⟨loc, st1⟩
        rw [specCallArgMoves]
        simp only [hg]
        rw [ih (i + 1) st1 (by omega)]
      · rw [callArgsLoop, if_neg hi]
        have h4 : i = 4 := by omega
        subst h4
        rw [callArgsLoop_ge rest 5 st (by omega)]
        simp [specCallArgMoves]

/-- Claim C2: for every IR Call(d, f, args) whose destination, when
present, is a nonempty name (every destination the IR generator produces is
a fresh temporary), the ASM generator emits exactly: the 32-byte shadow
space, the moves or LEAs of arguments 0..3 into RCX, RDX, R8, R9 (integer
literals as immediates, operands starting with "str" via lea, anything
else from its stack slot), nothing at all for arguments at index ≥ 4,
`call f`, `add rsp, 32`, and a store of RAX into d's stack slot exactly
when d is present. -/
theorem c2_call_lowering (d : Option String) (f : String) (args : List String)
    (st : AsmSt) (hd : d = none ∨ ∃ s, d = some s ∧ s ≠ "") :
    asmVisit (.call d f args) st = specCallLowering d f args st := by
  have hmov := callArgsLoop_spec args 0 st (by omega)
  simp only [Nat.sub_zero, List.drop_zero] at hmov
  rcases hd with hd | ⟨s, hd, hs⟩ <;> subst hd
  · simp only [asmVisit, specCallLowering]
    rw [hmov]
  · simp only [asmVisit, specCallLowering]
    rw [hmov]
    rcases hsm : specCallArgMoves ((args.take 4).zip paramRegs) st with ⟨moves, st1⟩
    rw [if_neg hs]

/-- Witness for C2 at a concrete call: dest t0, three arguments of the
three operand kinds. -/
theorem c2_call_lowering_witness :
    asmVisit (.call (some "t0") "printf" ["str0", "5", "x"]) initAsmSt =
      specCallLowering (some "t0") "printf" ["str0", "5", "x"] initAsmSt :=
  c2_call_lowering (some "t0") "printf" ["str0", "5", "x"] initAsmSt
    (Or.inr ⟨"t0", rfl, by decide⟩)

-- ========================================================================
-- Claim C3 — typing of comparisons and logical operators
-- ========================================================================

def isCmpOp (op : String) : Bool :=
  op = "==" || op = "!=" || op = "<" || op = ">" || op = "<=" || op = ">="

def isLogicOp (op : String) : Bool := op = "&&" || op = "||"

/-- Whether an expression is a comparison or logical BinOp (the shapes the
claim says are the only sources of type bool). -/
def isBoolFormBin : Expr → Bool
  | .bin _ op _ => isCmpOp op || isLogicOp op
  | _ => false

/-- The BinOp branch of typeof as a pure function of the operator and the
two operand types. -/
def binTypeRule (op tl tr : String) : Except String String :=
  if op = "+" then
    if tl = "string" && tr = "string" then .ok "string"
    else if isNumTy tl && isNumTy tr then
      .ok (if tl = "float" || tr = "float" then "float" else "int")
    else .error ("Operación '+' incompatible entre " ++ tl ++ " y " ++ tr)
  else if op = "-" || op = "*" || op = "/" || op = "%" then
    if isNumTy tl && isNumTy tr then
      .ok (if tl = "float" || tr = "float" then "float" else "int")
    else .error ("Operación '" ++ op ++ "' espera números, obtuvo " ++ tl ++ " y " ++ tr)
  else if op = "==" || op = "!=" || op = "<" || op = ">" || op = "<=" || op = ">=" then
    if (isNumTy tl && isNumTy tr) || (tl = tr && tr = "string") then .ok "bool"
    else .error ("Comparación '" ++ op ++ "' incompatible entre " ++ tl ++ " y " ++ tr)
  else if op = "&&" || op = "||" then
    if tl = tr && tr = "bool" then .ok "bool"
    else .error ("Operación lógica '" ++ op ++ "' espera booleanos, obtuvo " ++
      tl ++ " y " ++ tr)
  else .error "No sé inferir tipo de BinOp"

theorem typeofF_bin (syms : String → Option String)
    (fns : String → Option (String × List (String × String) × Bool))
    (l r : Expr) (op tl tr : String)
    (hl : typeofF syms fns l = .ok tl) (hr : typeofF syms fns r = .ok tr) :
    typeofF syms fns (.bin l op r) = binTypeRule op tl tr := by
  rw [typeofF]
  split
  next m heq => rw [hl] at heq; simp at heq
  next tl2 heq =>
    rw [hl] at heq
    simp only [Except.ok.injEq] at heq
    subst heq
    split
    next m heq2 => rw [hr] at heq2; simp at heq2
    next tr2 heq2 =>
      rw [hr] at heq2
      simp only [Except.ok.injEq] at heq2
      subst heq2
      rfl

/-- Claim C3 (amended): comparisons type as bool exactly when both operand
types are numeric or both are string, and fail with a semantic error
otherwise; logical operators type as bool exactly when both operand types
are bool, and fail otherwise; and the expressions of type bool are exactly
the comparisons, the logical operations, the variables whose declared type
is bool, and the calls to functions whose declared return type is bool. -/
theorem c3_bool_typing :
    (∀ syms fns l r op tl tr, isCmpOp op = true →
       typeofF syms fns l = .ok tl → typeofF syms fns r = .ok tr →
       ((typeofF syms fns (.bin l op r) = .ok "bool" ↔
           ((isNumTy tl && isNumTy tr) = true ∨ (tl = "string" ∧ tr = "string"))) ∧
        (¬((isNumTy tl && isNumTy tr) = true ∨ (tl = "string" ∧ tr = "string")) →
           typeofF syms fns (.bin l op r) =
             .error ("Comparación '" ++ op ++ "' incompatible entre " ++ tl ++ " y " ++ tr)))) ∧
    (∀ syms fns l r op tl tr, isLogicOp op = true →
       typeofF syms fns l = .ok tl → typeofF syms fns r = .ok tr →
       ((typeofF syms fns (.bin l op r) = .ok "bool" ↔ (tl = "bool" ∧ tr = "bool")) ∧
        (¬(tl = "bool" ∧ tr = "bool") →
           typeofF syms fns (.bin l op r) =
             .error ("Operación lógica '" ++ op ++ "' espera booleanos, obtuvo " ++
               tl ++ " y " ++ tr)))) ∧
    (∀ syms fns e, typeofF syms fns e = .ok "bool" →
       isBoolFormBin e = true ∨
       (∃ n, e = .var n ∧ syms n = some "bool") ∨
       (∃ f args info, e = .call f args ∧ fns f = some info ∧ info.1 = "bool")) := by
  refine ⟨?_, ?_, ?_⟩
  · intro syms fns l r op tl tr hop hl hr
    rw [typeofF_bin syms fns l r op tl tr hl hr]
    have hcond : binTypeRule op tl tr =
        if (isNumTy tl && isNumTy tr) || (tl = tr && tr = "string") then .ok "bool"
        else .error ("Comparación '" ++ op ++ "' incompatible entre " ++ tl ++ " y " ++ tr) := by
      simp only [isCmpOp, Bool.or_eq_true, decide_eq_true_eq] at hop
      rcases hop with ((((h | h) | h) | h) | h) | h <;> subst h <;>
        rw [binTypeRule, if_neg (by decide), if_neg (by decide), if_pos (by decide)]
    rw [hcond]
    have hiff : ((isNumTy tl && isNumTy tr) || (tl = tr && tr = "string")) = true ↔
        ((isNumTy tl && isNumTy tr) = true ∨ (tl = "string" ∧ tr = "string")) := by
      simp only [Bool.or_eq_true, Bool.and_eq_true, decide_eq_true_eq]
      constructor
      · rintro (hc | ⟨hc1, hc2⟩)
        · exact Or.inl hc
        · exact Or.inr ⟨hc1.trans hc2, hc2⟩
      · rintro (hc | ⟨hc1, hc2⟩)
        · exact Or.inl hc
        · exact Or.inr ⟨hc1.trans hc2.symm, hc2⟩
    constructor
    · by_cases hc : ((isNumTy tl && isNumTy tr) || (tl = tr && tr = "string")) = true
      · rw [if_pos hc]
        exact ⟨fun _ => hiff.mp hc, fun _ => rfl⟩
      · rw [if_neg hc]
        constructor
        · intro h; simp at h
        · intro hcl
          exact absurd (hiff.mpr hcl) hc
    · intro hno
      rw [if_neg (fun hc => hno (hiff.mp hc))]
  · intro syms fns l r op tl tr hop hl hr
    rw [typeofF_bin syms fns l r op tl tr hl hr]
    have hcond : binTypeRule op tl tr =
        if tl = tr && tr = "bool" then .ok "bool"
        else .error ("Operación lógica '" ++ op ++ "' espera booleanos, obtuvo " ++
          tl ++ " y " ++ tr) := by
      simp only [isLogicOp, Bool.or_eq_true, decide_eq_true_eq] at hop
      rcases hop with h | h <;> subst h <;>
        rw [binTypeRule, if_neg (by decide), if_neg (by decide), if_neg (by decide),
          if_pos (by decide)]
    rw [hcond]
    have hiff : (tl = tr && tr = "bool") = true ↔ (tl = "bool" ∧ tr = "bool") := by
      simp only [Bool.and_eq_true, decide_eq_true_eq]
      exact ⟨fun ⟨h1, h2⟩ => ⟨h1.trans h2, h2⟩, fun ⟨h1, h2⟩ => ⟨h1.trans h2.symm, h2⟩⟩
    constructor
    · by_cases hc : (tl = tr && tr = "bool") = true
      · rw [if_pos hc]
        exact ⟨fun _ => hiff.mp hc, fun _ => rfl⟩
      · rw [if_neg hc]
        constructor
        · intro h; simp at h
        · intro hcl; exact absurd (hiff.mpr hcl) hc
    · intro hno
      rw [if_neg (fun hc => hno (hiff.mp hc))]
  · intro syms fns e h
    match e with
    | .num v =>
        exfalso
        rcases v with n | rr | vv
        · have he : typeofF syms fns (.num (.i n)) = .ok "int" := rfl
          rw [he] at h
          injection h with h2
          exact absurd h2 (by decide)
        · have he : typeofF syms fns (.num (.f rr)) = .ok "float" := rfl
          rw [he] at h
          injection h with h2
          exact absurd h2 (by decide)
        · have he : typeofF syms fns (.num (.s vv)) = .ok "int" := rfl
          rw [he] at h
          injection h with h2
          exact absurd h2 (by decide)
    | .str v =>
        exfalso
        have he : typeofF syms fns (.str v) = .ok "string" := rfl
        rw [he] at h
        injection h with h2
        exact absurd h2 (by decide)
    | .var n =>
        rw [typeofF] at h
        split at h
        next hv => simp at h
        next t hv =>
          simp only [Except.ok.injEq] at h
          exact Or.inr (Or.inl ⟨n, rfl, by rw [hv, h]⟩)
    | .call f args =>
        rw [typeofF] at h
        split at h
        next info hf =>
          simp only [Except.ok.injEq] at h
          exact Or.inr (Or.inr ⟨f, args, info, rfl, hf, h⟩)
        next hf => simp at h
    | .unary op e1 =>
        exfalso
        rw [typeofF] at h
        split at h
        next m heq => simp at h
        next t heq =>
          by_cases ht : isNumTy t = true
          · rw [if_pos ht] at h
            simp only [Except.ok.injEq] at h
            subst h
            simp [isNumTy] at ht
          · rw [if_neg ht] at h
            simp at h
    | .bin l op r =>
        rw [typeofF] at h
        split at h
        next m heq => simp at h
        next tl heq =>
        split at h
        next m heq2 => simp at h
        next tr heq2 =>
        by_cases h1 : op = "+"
        · exfalso
          rw [if_pos h1] at h
          by_cases h2 : (tl = "string" && tr = "string") = true
          · rw [if_pos h2] at h
            simp only [Except.ok.injEq] at h
            exact absurd h (by decide)
          · rw [if_neg h2] at h
            by_cases h3 : (isNumTy tl && isNumTy tr) = true
            · rw [if_pos h3] at h
              simp only [Except.ok.injEq] at h
              by_cases h4 : (tl = "float" || tr = "float") = true
              · rw [if_pos h4] at h
                exact absurd h (by decide)
              · rw [if_neg h4] at h
                exact absurd h (by decide)
            · rw [if_neg h3] at h
              simp at h
        rw [if_neg h1] at h
        by_cases h2 : (op = "-" || op = "*" || op = "/" || op = "%") = true
        · exfalso
          rw [if_pos h2] at h
          by_cases h3 : (isNumTy tl && isNumTy tr) = true
          · rw [if_pos h3] at h
            simp only [Except.ok.injEq] at h
            by_cases h4 : (tl = "float" || tr = "float") = true
            · rw [if_pos h4] at h
              exact absurd h (by decide)
            · rw [if_neg h4] at h
              exact absurd h (by decide)
          · rw [if_neg h3] at h
            simp at h
        rw [if_neg h2] at h
        by_cases h3 : (op = "==" || op = "!=" || op = "<" || op = ">" ||
            op = "<=" || op = ">=") = true
        · refine Or.inl ?_
          simp only [isBoolFormBin, isCmpOp, isLogicOp]
          simp only [Bool.or_eq_true] at h3 ⊢
          tauto
        rw [if_neg h3] at h
        by_cases h4 : (op = "&&" || op = "||") = true
        · refine Or.inl ?_
          simp only [isBoolFormBin, isCmpOp, isLogicOp]
          simp only [Bool.or_eq_true] at h4 ⊢
          tauto
        · exfalso
          rw [if_neg h4] at h
          simp at h

/-- Counterexample to the last sentence of claim C3 as stated: after parsing
`bool b = 1 == 2; b = b && b;`, the variable expression `b` has type bool
under the parser's resulting tables, yet it is neither a comparison nor a
logical operation. -/
theorem c3_counterexample :
    (match parseToks 50 toksBool with
     | .ok (_, st) => typeofF st.symbols st.functions (.var "b")
     | .error _ => .error "") = .ok "bool" ∧
    isBoolFormBin (.var "b") = false := ⟨rfl, rfl⟩

theorem c3_bool_typing_witness :
    typeofF (fun _ => none) (fun _ => none)
      (.bin (.num (.i 1)) "==" (.num (.i 2))) = .ok "bool" :=
  (c3_bool_typing.1 (fun _ => none) (fun _ => none) (.num (.i 1)) (.num (.i 2))
    "==" "int" "int" (by decide) rfl rfl).1.mpr (Or.inl (by decide))

/-- Counterexample to claim C6 as stated: the source `/*` followed by a
newline starts an unterminated block comment at (1, 1), but the lexer
reports the unterminated-block-comment error at (2, 1), the position just
past the end of the input, not at the comment's starting location. -/
theorem c6_counterexample :
    userLexer "/*\n" = .error (.unterminatedComment 2 1) ∧
    ((2 : Nat), (1 : Nat)) ≠ ((1 : Nat), (1 : Nat)) := ⟨rfl, by decide⟩

/-- Claim C6 (amended): when the lexer fails with an unterminated
block-comment error, the reported (line, column) is the position reached
after advancing over the whole input from (1, 1) — i.e. the end of the
input — rather than the starting location of the comment. -/
theorem c6_unterminated_position (src : String) (l c : Nat)
    (h : userLexer src = .error (.unterminatedComment l c)) :
    (l, c) = advStr (1, 1) src.data :=
  lexLoop_unterminated _ _ _ _ _ _ _ h

theorem c6_unterminated_position_witness :
    userLexer "/*\n" = .error (.unterminatedComment 2 1) ∧
    ((2 : Nat), (1 : Nat)) = advStr (1, 1) "/*\n".data :=
  ⟨rfl, c6_unterminated_position "/*\n" 2 1 rfl⟩

theorem lookup_snd_mem (l : List (String × String)) (k v : String)
    (h : l.lookup k = some v) : v ∈ l.map Prod.snd := by
  induction l with
  | nil => simp [List.lookup] at h
  | cons a l ih =>
      rw [List.lookup] at h
      split at h
      · injection h with h2
        exact List.mem_map.mpr ⟨a, List.mem_cons_self _ _, h2⟩
      · obtain ⟨b, hb, he⟩ := List.mem_map.mp (ih h)
        exact List.mem_map.mpr ⟨b, List.mem_cons_of_mem _ hb, he⟩

theorem mapRawTok_pos (t : RawTok) (tok : Token) (h : mapRawTok t = .ok tok) :
    tok.pos = (t.line, t.col) := by
  rw [mapRawTok] at h
  split at h
  · split at h <;> (injection h with h2; subst h2; rfl)
  · injection h with h2; subst h2; rfl
  · injection h with h2; subst h2; rfl
  · split at h
    · injection h with h2; subst h2; rfl
    · exact Except.noConfusion h
  · split at h
    · injection h with h2; subst h2; rfl
    · exact Except.noConfusion h
  · injection h with h2; subst h2; rfl

theorem mapRawTok_not_eof (t : RawTok) (tok : Token) (h : mapRawTok t = .ok tok) :
    tok.type ≠ "EOF" := by
  rw [mapRawTok] at h
  split at h
  · split at h
    · injection h with h2; subst h2
      show "INT" ≠ "EOF"
      decide
    · injection h with h2; subst h2
      show "ID" ≠ "EOF"
      decide
  · injection h with h2; subst h2
    show "ID" ≠ "EOF"
    decide
  · injection h with h2; subst h2
    show "NUM" ≠ "EOF"
    decide
  · split at h
    next ty heq =>
      injection h with h2; subst h2
      intro hc
      have hc2 : ty = "EOF" := hc
      have hm := lookup_snd_mem punctMap _ _ heq
      rw [hc2] at hm
      exact absurd hm (by decide)
    next heq => exact Except.noConfusion h
  · split at h
    next ty heq =>
      injection h with h2; subst h2
      intro hc
      have hc2 : ty = "EOF" := hc
      have hm := lookup_snd_mem opMap _ _ heq
      rw [hc2] at hm
      exact absurd hm (by decide)
    next heq => exact Except.noConfusion h
  · injection h with h2; subst h2
    show "STRING" ≠ "EOF"
    decide

theorem adaptToks_spec : ∀ (rs : List RawTok) (ts : List Token),
    adaptToks rs = .ok ts →
    (rs = [] ↔ ts = []) ∧ (∀ tok ∈ ts, tok.type ≠ "EOF") ∧
    (∀ r, rs.getLast? = some r →
      ∃ tok, ts.getLast? = some tok ∧ tok.pos = (r.line, r.col)) := by
  intro rs
  induction rs with
  | nil =>
      intro ts h
      rw [adaptToks] at h
      injection h with h2
      subst h2
      exact ⟨by simp, by simp, by simp⟩
  | cons t rs ih =>
      intro ts h
      rw [adaptToks] at h
      split at h
      next m heq => exact Except.noConfusion h
      next tok heq =>
        split at h
        next m heq2 => exact Except.noConfusion h
        next rest heq2 =>
          injection h with h2
          subst h2
          obtain ⟨hiff, heof, hlast⟩ := ih rest heq2
          refine ⟨by simp, ?_, ?_⟩
          · intro tk hm
            rcases List.mem_cons.mp hm with he | hm2
            · subst he
              exact mapRawTok_not_eof t tk heq
            · exact heof tk hm2
          · intro r hr
            cases rs with
            | nil =>
                have hrest : rest = [] := hiff.mp rfl
                subst hrest
                have hr2 : some t = some r := hr
                injection hr2 with hr3
                subst hr3
                exact ⟨tok, rfl, mapRawTok_pos t tok heq⟩
            | cons t2 rs2 =>
                rw [List.getLast?_cons_cons] at hr
                obtain ⟨tok2, hl2, hp2⟩ := hlast r hr
                cases rest with
                | nil =>
                    exact absurd (hiff.mpr rfl) (by simp)
                | cons q qs =>
                    exact ⟨tok2, by rw [List.getLast?_cons_cons]; exact hl2, hp2⟩

/-- Claim C7: tokenize_std always returns a token list ending in a single
trailing EOF token with empty lexeme, no earlier token having type EOF;
the EOF token carries the position of the last real token when one exists,
and (1, 1) otherwise. -/
theorem c7_eof_token (src : String) (ts : List Token)
    (h : tokenizeStd src = .ok ts) :
    ∃ real p, ts = real ++ [⟨"EOF", "", none, p⟩] ∧
      (∀ tok ∈ real, tok.type ≠ "EOF") ∧
      ((real = [] ∧ p = (1, 1)) ∨
        ∃ last, real.getLast? = some last ∧ p = last.pos) := by
  rw [tokenizeStd] at h
  split at h
  next e heq => exact Except.noConfusion h
  next raws heq =>
    split at h
    next m heq2 => exact Except.noConfusion h
    next ts0 heq2 =>
      injection h with h2
      obtain ⟨hiff, heof, hlast⟩ := adaptToks_spec raws ts0 heq2
      refine ⟨ts0, (match raws.getLast? with
        | some r => (r.line, r.col) | none => (1, 1)), h2.symm, heof, ?_⟩
      cases hg : raws.getLast? with
      | none =>
          left
          have hnil : raws = [] := by
            cases raws with
            | nil => rfl
            | cons a l => simp at hg
          exact ⟨hiff.mp hnil, rfl⟩
      | some r =>
          right
          obtain ⟨tok, hl, hp⟩ := hlast r hg
          exact ⟨tok, hl, hp.symm⟩

theorem c7_eof_token_witness :
    ∃ real p,
      [(⟨"INT", "int", none, (1, 1)⟩ : Token), ⟨"ID", "x", none, (1, 5)⟩,
       ⟨"ASSIGN", "=", none, (1, 7)⟩, ⟨"NUM", "10", some (.i 10), (1, 9)⟩,
       ⟨"SEMI", ";", none, (1, 11)⟩, ⟨"EOF", "", none, (1, 11)⟩] =
        real ++ [⟨"EOF", "", none, p⟩] ∧
      (∀ tok ∈ real, tok.type ≠ "EOF") ∧
      ((real = [] ∧ p = (1, 1)) ∨
        ∃ last, real.getLast? = some last ∧ p = last.pos) :=
  c7_eof_token "int x = 10;" _ rfl

mutual

theorem genExpr_no_ifGoto : ∀ (e : Expr) (st : GenSt) (c l : String),
    IRInstr.ifGoto c l ∉ (genExpr e st).1
  | .num v, st, c, l => by simp [genExpr]
  | .str v, st, c, l => by
      rcases hn : newString v st with ⟨n, st'⟩
      simp [genExpr, hn]
  | .var n, st, c, l => by simp [genExpr]
  | .unary op e, st, c, l => by
      rcases he : genExpr e st with ⟨ce, r, st1⟩
      rcases ht : newTemp st1 with ⟨t, st2⟩
      have ih := genExpr_no_ifGoto e st c l
      rw [he] at ih
      intro hm
      simp only [genExpr, he, ht, List.mem_append, List.mem_cons,
        List.not_mem_nil, or_false] at hm
      rcases hm with h1 | h2
      · exact ih h1
      · exact IRInstr.noConfusion h2
  | .bin el op er, st, c, l => by
      rcases hl : genExpr el st with ⟨cl, rl, st1⟩
      rcases hr : genExpr er st1 with ⟨cr, rr, st2⟩
      rcases ht : newTemp st2 with ⟨t, st3⟩
      have ihl := genExpr_no_ifGoto el st c l
      have ihr := genExpr_no_ifGoto er st1 c l
      rw [hl] at ihl
      rw [hr] at ihr
      intro hm
      simp only [genExpr, hl, hr, ht, List.append_assoc, List.mem_append,
        List.mem_cons, List.not_mem_nil, or_false] at hm
      rcases hm with h1 | h2 | h3
      · exact ihl h1
      · exact ihr h2
      · exact IRInstr.noConfusion h3
  | .call name args, st, c, l => by
      rcases ha : genArgs args st with ⟨ca, rs, st1⟩
      rcases ht : newTemp st1 with ⟨t, st2⟩
      have ih := genArgs_no_ifGoto args st c l
      rw [ha] at ih
      intro hm
      simp only [genExpr, ha, ht, List.mem_append, List.mem_cons,
        List.not_mem_nil, or_false] at hm
      rcases hm with h1 | h2
      · exact ih h1
      · exact IRInstr.noConfusion h2

theorem genArgs_no_ifGoto : ∀ (as : ExprList) (st : GenSt) (c l : String),
    IRInstr.ifGoto c l ∉ (genArgs as st).1
  | .nil, st, c, l => by simp [genArgs]
  | .cons a as, st, c, l => by
      rcases he : genExpr a st with ⟨ca, r, st1⟩
      rcases hr : genArgs as st1 with ⟨crest, rs, st2⟩
      have ih1 := genExpr_no_ifGoto a st c l
      have ih2 := genArgs_no_ifGoto as st1 c l
      rw [he] at ih1
      rw [hr] at ih2
      intro hm
      simp only [genArgs, he, hr, List.append_assoc, List.mem_append,
        List.mem_cons, List.not_mem_nil, or_false] at hm
      rcases hm with h1 | h2 | h3
      · exact ih1 h1
      · exact IRInstr.noConfusion h2
      · exact ih2 h3

end

mutual

theorem genStmt_no_ifGoto : ∀ (s : Stmt) (st : GenSt) (c l : String),
    IRInstr.ifGoto c l ∉ (genStmt s st).1
  | .block ss, st, c, l => by
      have ih := genStmts_no_ifGoto ss st c l
      simpa [genStmt] using ih
  | .decl _ none, st, c, l => by simp [genStmt]
  | .decl name (some e), st, c, l => by
      rcases he : genExpr e st with ⟨ce, r, st1⟩
      have ih := genExpr_no_ifGoto e st c l
      rw [he] at ih
      intro hm
      simp only [genStmt, he, List.mem_append, List.mem_cons,
        List.not_mem_nil, or_false] at hm
      rcases hm with h1 | h2
      · exact ih h1
      · exact IRInstr.noConfusion h2
  | .assign name e, st, c, l => by
      rcases he : genExpr e st with ⟨ce, r, st1⟩
      have ih := genExpr_no_ifGoto e st c l
      rw [he] at ih
      intro hm
      simp only [genStmt, he, List.mem_append, List.mem_cons,
        List.not_mem_nil, or_false] at hm
      rcases hm with h1 | h2
      · exact ih h1
      · exact IRInstr.noConfusion h2
  | .ret none, st, c, l => by
      intro hm
      simp only [genStmt, List.mem_cons, List.not_mem_nil, or_false] at hm
      exact IRInstr.noConfusion hm
  | .ret (some e), st, c, l => by
      rcases he : genExpr e st with ⟨ce, r, st1⟩
      have ih := genExpr_no_ifGoto e st c l
      rw [he] at ih
      intro hm
      simp only [genStmt, he, List.mem_append, List.mem_cons,
        List.not_mem_nil, or_false] at hm
      rcases hm with h1 | h2
      · exact ih h1
      · exact IRInstr.noConfusion h2
  | .ifS cond thenB none, st, c, l => by
      rcases hc : genExpr cond st with ⟨cc, cv, st1⟩
      rcases ht : genStmt thenB
          ⟨st1.temps, st1.labels + 1 + 1, st1.strings, st1.strCount⟩
        with ⟨ct, st4⟩
      have ihc := genExpr_no_ifGoto cond st c l
      have iht := genStmt_no_ifGoto thenB
        ⟨st1.temps, st1.labels + 1 + 1, st1.strings, st1.strCount⟩ c l
      rw [hc] at ihc
      rw [ht] at iht
      intro hm
      simp only [genStmt, hc, newLabel, ht, List.mem_append, List.mem_cons,
        List.not_mem_nil, or_false] at hm
      rcases hm with ((hm | hm | hm) | hm) | hm
      · exact ihc hm
      · exact IRInstr.noConfusion hm
      · exact IRInstr.noConfusion hm
      · exact iht hm
      · exact IRInstr.noConfusion hm
  | .ifS cond thenB (some eb), st, c, l => by
      rcases hc : genExpr cond st with ⟨cc, cv, st1⟩
      rcases ht : genStmt thenB
          ⟨st1.temps, st1.labels + 1 + 1 + 1, st1.strings, st1.strCount⟩
        with ⟨ct, st5⟩
      rcases hel : genStmt eb st5 with ⟨ce2, st6⟩
      have ihc := genExpr_no_ifGoto cond st c l
      have iht := genStmt_no_ifGoto thenB
        ⟨st1.temps, st1.labels + 1 + 1 + 1, st1.strings, st1.strCount⟩ c l
      have ihe := genStmt_no_ifGoto eb st5 c l
      rw [hc] at ihc
      rw [ht] at iht
      rw [hel] at ihe
      intro hm
      simp only [genStmt, hc, newLabel, ht, hel, List.mem_append,
        List.mem_cons, List.not_mem_nil, or_false] at hm
      rcases hm with ((((hm | hm | hm) | hm) | hm | hm) | hm) | hm
      · exact ihc hm
      · exact IRInstr.noConfusion hm
      · exact IRInstr.noConfusion hm
      · exact iht hm
      · exact IRInstr.noConfusion hm
      · exact IRInstr.noConfusion hm
      · exact ihe hm
      · exact IRInstr.noConfusion hm
  | .whileS cond body, st, c, l => by
      rcases hc : genExpr cond
          ⟨st.temps, st.labels + 1 + 1 + 1, st.strings, st.strCount⟩
        with ⟨cc, cv, st4⟩
      rcases hb : genStmt body st4 with ⟨cb, st5⟩
      have ihc := genExpr_no_ifGoto cond
        ⟨st.temps, st.labels + 1 + 1 + 1, st.strings, st.strCount⟩ c l
      have ihb := genStmt_no_ifGoto body st4 c l
      rw [hc] at ihc
      rw [hb] at ihb
      intro hm
      simp only [genStmt, newLabel, hc, hb, List.mem_append, List.mem_cons,
        List.not_mem_nil, or_false] at hm
      rcases hm with (((hm | hm) | hm | hm) | hm) | hm | hm
      · exact IRInstr.noConfusion hm
      · exact ihc hm
      · exact IRInstr.noConfusion hm
      · exact IRInstr.noConfusion hm
      · exact ihb hm
      · exact IRInstr.noConfusion hm
      · exact IRInstr.noConfusion hm
  | .forS finit cond step body, st, c, l => by
      rcases hin : genStmt finit st with ⟨ci, st1⟩
      rcases hc : genExpr cond
          ⟨st1.temps, st1.labels + 1 + 1 + 1, st1.strings, st1.strCount⟩
        with ⟨cc, cv, st5⟩
      rcases hb : genStmt body st5 with ⟨cb, st6⟩
      rcases hs : genStmt step st6 with ⟨cs, st7⟩
      have ihi := genStmt_no_ifGoto finit st c l
      have ihc := genExpr_no_ifGoto cond
        ⟨st1.temps, st1.labels + 1 + 1 + 1, st1.strings, st1.strCount⟩ c l
      have ihb := genStmt_no_ifGoto body st5 c l
      have ihs := genStmt_no_ifGoto step st6 c l
      rw [hin] at ihi
      rw [hc] at ihc
      rw [hb] at ihb
      rw [hs] at ihs
      intro hm
      simp only [genStmt, hin, newLabel, hc, hb, hs, List.mem_append,
        List.mem_cons, List.not_mem_nil, or_false] at hm
      rcases hm with (((((hm | hm) | hm) | hm | hm) | hm) | hm) | hm | hm
      · exact ihi hm
      · exact IRInstr.noConfusion hm
      · exact ihc hm
      · exact IRInstr.noConfusion hm
      · exact IRInstr.noConfusion hm
      · exact ihb hm
      · exact ihs hm
      · exact IRInstr.noConfusion hm
      · exact IRInstr.noConfusion hm
  | .exprS e, st, c, l => by
      rcases he : genExpr e st with ⟨ce, r, st1⟩
      have ih := genExpr_no_ifGoto e st c l
      rw [he] at ih
      intro hm
      simp only [genStmt, he] at hm
      exact ih hm

theorem genStmts_no_ifGoto : ∀ (ss : StmtList) (st : GenSt) (c l : String),
    IRInstr.ifGoto c l ∉ (genStmts ss st).1
  | .nil, st, c, l => by simp [genStmts]
  | .cons s ss, st, c, l => by
      rcases hs : genStmt s st with ⟨cs, st1⟩
      rcases hr : genStmts ss st1 with ⟨crest, st2⟩
      have ih1 := genStmt_no_ifGoto s st c l
      have ih2 := genStmts_no_ifGoto ss st1 c l
      rw [hs] at ih1
      rw [hr] at ih2
      intro hm
      simp only [genStmts, hs, hr, List.mem_append] at hm
      rcases hm with h1 | h2
      · exact ih1 h1
      · exact ih2 h2

end

theorem genItem_no_ifGoto (it : Item) (st : GenSt) (c l : String) :
    IRInstr.ifGoto c l ∉ (genItem it st).1 := by
  match it with
  | .fn rt name params body =>
      rcases hb : genStmt body st with ⟨cb, st1⟩
      have ih := genStmt_no_ifGoto body st c l
      rw [hb] at ih
      intro hm
      simp only [genItem, hb, List.append_assoc, List.mem_append,
        List.mem_cons, List.not_mem_nil, or_false] at hm
      rcases hm with h1 | h2 | h3
      · exact IRInstr.noConfusion h1
      · exact ih h2
      · exact IRInstr.noConfusion h3
  | .st s =>
      have ih := genStmt_no_ifGoto s st c l
      simpa [genItem] using ih

theorem genItems_no_ifGoto : ∀ (its : List Item) (st : GenSt) (c l : String),
    IRInstr.ifGoto c l ∉ (genItems its st).1
  | [], st, c, l => by simp [genItems]
  | it :: its, st, c, l => by
      rcases hi : genItem it st with ⟨ci, st1⟩
      rcases hr : genItems its st1 with ⟨crest, st2⟩
      have ih1 := genItem_no_ifGoto it st c l
      have ih2 := genItems_no_ifGoto its st1 c l
      rw [hi] at ih1
      rw [hr] at ih2
      intro hm
      simp only [genItems, hi, hr, List.mem_append] at hm
      rcases hm with h1 | h2
      · exact ih1 h1
      · exact ih2 h2

/-- Claim C8: the embedded IR instruction sum type reserves an IfGoto
conditional jump that the ASM generator lowers as a load, test and jnz;
the IR generator itself never constructs it. (In the Python source this
claim fails operationally: asm_generator.py line 17 imports IRIfGoto from
ir_generator, but ir_generator.py defines no such class, so importing
asm_generator raises ImportError and main.py cannot run at all; the
`ifGoto` constructor exists here only to model the instruction
visit_if_goto expects.) -/
theorem c8_ifgoto_reserved :
    (∀ (p : Prog) (c l : String), IRInstr.ifGoto c l ∉ (generateIR p).1) ∧
    (∀ (c l : String) (st : AsmSt), ∃ condLoc st1,
      asmVisit (.ifGoto c l) st =
        (["    mov rax, " ++ condLoc, "    test rax, rax", "    jnz ." ++ l],
         st1)) := by
  constructor
  · intro p c l
    have ih := genItems_no_ifGoto p.items initGenSt c l
    rcases hg : genItems p.items initGenSt with ⟨ins, st⟩
    rw [hg] at ih
    simpa [generateIR, hg] using ih
  · intro c l st
    rcases h : getVarLocation c st with ⟨loc, st1⟩
    exact ⟨loc, st1, by simp [asmVisit, h]⟩

/-- A parser computation that leaves the function table untouched. -/
def FnsPres {α : Type} (m : M α) : Prop :=
  ∀ s a s', m s = .ok (a, s') → s'.functions = s.functions

theorem fnsPres_bind {α β : Type} {m : M α} {k : α → M β}
    (hm : FnsPres m) (hk : ∀ a, FnsPres (k a)) : FnsPres (m >>= k) := by
  intro s b s' h
  have h2 : (match m s with
    | .ok (a, s1) => k a s1
    | .error e => (.error e : Except PErr (β × PState))) = .ok (b, s') := h
  split at h2
  next a s1 heq => exact (hk a s1 b s' h2).trans (hm s a s1 heq)
  next e heq => exact Except.noConfusion h2

theorem fnsPres_pure {α : Type} (a : α) : FnsPres (pure a : M α) := by
  intro s b s' h
  injection h with h3
  exact (congrArg PState.functions (congrArg Prod.snd h3)).symm

theorem fnsPres_mget : FnsPres mget := by
  intro s b s' h
  injection h with h3
  exact (congrArg PState.functions (congrArg Prod.snd h3)).symm

theorem fnsPres_curTok : FnsPres curTok := by
  intro s b s' h
  injection h with h3
  exact (congrArg PState.functions (congrArg Prod.snd h3)).symm

theorem fnsPres_pcheck (ty : String) : FnsPres (pcheck ty) := by
  intro s b s' h
  injection h with h3
  exact (congrArg PState.functions (congrArg Prod.snd h3)).symm

theorem fnsPres_padv : FnsPres padv := by
  intro s a s' h
  rcases s with ⟨toks, i, syms, fns, ret⟩
  simp only [padv] at h
  split at h <;>
    · injection h with h3
      exact (congrArg PState.functions (congrArg Prod.snd h3)).symm

theorem fnsPres_setIdx (n : Nat) : FnsPres (setIdx n) := by
  intro s a s' h
  rcases s with ⟨toks, i, syms, fns, ret⟩
  injection h with h3
  exact (congrArg PState.functions (congrArg Prod.snd h3)).symm

theorem fnsPres_throwSyn {α : Type} (msg : String) : FnsPres (throwSyn msg : M α) :=
  fun _ _ _ h => Except.noConfusion h

theorem fnsPres_throwSem {α : Type} (msg : String) : FnsPres (throwSem msg : M α) :=
  fun _ _ _ h => Except.noConfusion h

theorem fnsPres_noFuel {α : Type} : FnsPres (fun _ => .error .noFuel : M α) :=
  fun _ _ _ h => Except.noConfusion h

theorem fnsPres_pconsume (ty msg : String) : FnsPres (pconsume ty msg) := by
  rw [pconsume]
  apply fnsPres_bind fnsPres_curTok
  intro tok
  by_cases hc : tok.type = ty
  · rw [if_pos hc]
    exact fnsPres_bind fnsPres_padv (fun _ => fnsPres_pure tok)
  · rw [if_neg hc]
    exact fnsPres_throwSyn _

theorem fnsPres_pSkipToSemi : ∀ fuel, FnsPres (pSkipToSemi fuel)
  | 0 => fnsPres_noFuel
  | fuel + 1 => by
      rw [pSkipToSemi]
      apply fnsPres_bind (fnsPres_pcheck _)
      intro atSemi
      apply fnsPres_bind (fnsPres_pcheck _)
      intro atEof
      by_cases h1 : (!atSemi && !atEof) = true
      · rw [if_pos h1]
        exact fnsPres_bind fnsPres_padv (fun _ => fnsPres_pSkipToSemi fuel)
      · rw [if_neg h1]
        by_cases h2 : atSemi = true
        · rw [if_pos h2]
          exact fnsPres_padv
        · rw [if_neg h2]
          exact fnsPres_pure ()

theorem fnsPres_pSkipToLBrace : ∀ fuel, FnsPres (pSkipToLBrace fuel)
  | 0 => fnsPres_noFuel
  | fuel + 1 => by
      rw [pSkipToLBrace]
      apply fnsPres_bind (fnsPres_pcheck _)
      intro atEof
      by_cases h1 : atEof = true
      · rw [if_pos h1]
        exact fnsPres_pure false
      · rw [if_neg h1]
        apply fnsPres_bind (fnsPres_pcheck _)
        intro atLB
        by_cases h2 : atLB = true
        · rw [if_pos h2]
          exact fnsPres_bind fnsPres_padv (fun _ => fnsPres_pure true)
        · rw [if_neg h2]
          exact fnsPres_bind fnsPres_padv (fun _ => fnsPres_pSkipToLBrace fuel)

theorem fnsPres_pSkipBraces : ∀ fuel count, FnsPres (pSkipBraces fuel count)
  | 0, _ => fnsPres_noFuel
  | fuel + 1, count => by
      rw [pSkipBraces]
      apply fnsPres_bind (fnsPres_pcheck _)
      intro atEof
      by_cases h1 : (count > 0 && !atEof) = true
      · rw [if_pos h1]
        apply fnsPres_bind (fnsPres_pcheck _)
        intro atLB
        apply fnsPres_bind (fnsPres_pcheck _)
        intro atRB
        exact fnsPres_bind fnsPres_padv (fun _ => fnsPres_pSkipBraces fuel _)
      · rw [if_neg h1]
        exact fnsPres_pure ()

theorem fnsPres_pCollectParamsLoop : ∀ fuel acc, FnsPres (pCollectParamsLoop fuel acc)
  | 0, _ => fnsPres_noFuel
  | fuel + 1, acc => by
      rw [pCollectParamsLoop]
      apply fnsPres_bind (fnsPres_pcheck _)
      intro atComma
      by_cases h1 : atComma = true
      · rw [if_pos h1]
        apply fnsPres_bind fnsPres_padv
        intro u
        apply fnsPres_bind (fnsPres_pcheck _)
        intro isInt
        apply fnsPres_bind (fnsPres_pcheck _)
        intro isId
        apply fnsPres_bind fnsPres_curTok
        intro cur
        by_cases h2 : (isInt || isId) = true
        · rw [if_pos h2]
          apply fnsPres_bind fnsPres_padv
          intro u2
          apply fnsPres_bind (fnsPres_pcheck _)
          intro isId2
          apply fnsPres_bind fnsPres_curTok
          intro cur2
          by_cases h3 : isId2 = true
          · rw [if_pos h3]
            exact fnsPres_bind fnsPres_padv
              (fun _ => fnsPres_pCollectParamsLoop fuel _)
          · rw [if_neg h3]
            exact fnsPres_pCollectParamsLoop fuel _
        · rw [if_neg h2]
          exact fnsPres_pure acc
      · rw [if_neg h1]
        exact fnsPres_pure acc

theorem fnsPres_pCollectParams (fuel : Nat) : FnsPres (pCollectParams fuel) := by
  rw [pCollectParams]
  apply fnsPres_bind (fnsPres_pcheck _)
  intro isInt
  apply fnsPres_bind (fnsPres_pcheck _)
  intro isId
  apply fnsPres_bind fnsPres_curTok
  intro cur
  by_cases h1 : (!(isInt || isId)) = true
  · rw [if_pos h1]
    exact fnsPres_pure []
  · rw [if_neg h1]
    apply fnsPres_bind fnsPres_padv
    intro u
    apply fnsPres_bind (fnsPres_pcheck _)
    intro isId2
    apply fnsPres_bind fnsPres_curTok
    intro cur2
    by_cases h2 : isId2 = true
    · rw [if_pos h2]
      exact fnsPres_bind fnsPres_padv (fun _ => fnsPres_pCollectParamsLoop fuel _)
    · rw [if_neg h2]
      exact fnsPres_pCollectParamsLoop fuel _

/-- A parser computation that never removes or overwrites an existing
function-table entry. -/
def MonoFns {α : Type} (m : M α) : Prop :=
  ∀ s a s' n v, m s = .ok (a, s') → s.functions n = some v →
    s'.functions n = some v

theorem monoFns_of_fnsPres {α : Type} {m : M α} (h : FnsPres m) : MonoFns m :=
  fun s a s' n v he hv => by rw [h s a s' he]; exact hv

theorem monoFns_bind {α β : Type} {m : M α} {k : α → M β}
    (hm : MonoFns m) (hk : ∀ a, MonoFns (k a)) : MonoFns (m >>= k) := by
  intro s b s' n v h hv
  have h2 : (match m s with
    | .ok (a, s1) => k a s1
    | .error e => (.error e : Except PErr (β × PState))) = .ok (b, s') := h
  split at h2
  next a s1 heq => exact hk a s1 b s' n v h2 (hm s a s1 n v heq hv)
  next e heq => exact Except.noConfusion h2

/-- The guarded insertion of the prescan: look the name up in the live
function table and only add the signature when the name is absent. Existing
entries survive it. -/
theorem monoFns_guardAdd {β : Type} (name : String)
    (v0 : String × List (String × String) × Bool) (k : Unit → M β)
    (hk : ∀ a, MonoFns (k a)) :
    MonoFns (mget >>= fun s2 =>
      (if (s2.functions name).isNone then addFn name v0 else pure ()) >>= k) := by
  intro s b s' n v h hv
  have h2 : ((if (s.functions name).isNone then addFn name v0
      else pure ()) >>= k) s = .ok (b, s') := h
  by_cases hg : (s.functions name).isNone = true
  · rw [if_pos hg] at h2
    rcases s with ⟨toks, i, syms, fns, ret⟩
    have h3 : (addFn name v0 >>= k) ⟨toks, i, syms, fns, ret⟩ =
        k () ⟨toks, i, syms, fun x => if x = name then some v0 else fns x, ret⟩ := rfl
    rw [h3] at h2
    have hv' : fns n = some v := hv
    have hv2 : (⟨toks, i, syms,
        fun x => if x = name then some v0 else fns x, ret⟩ : PState).functions n =
        some v := by
      show (if n = name then some v0 else fns n) = some v
      by_cases hn : n = name
      · subst hn
        have hg' : (fns n).isNone = true := hg
        rw [hv'] at hg'
        simp at hg'
      · rw [if_neg hn]
        exact hv'
    exact hk () _ b s' n v h2 hv2
  · rw [if_neg hg] at h2
    have h3 : ((pure () : M Unit) >>= k) s = k () s := rfl
    rw [h3] at h2
    exact hk () s b s' n v h2 hv

theorem monoFns_pCollectLoop : ∀ fuel, MonoFns (pCollectLoop fuel)
  | 0 => fun _ _ _ _ _ h _ => Except.noConfusion h
  | fuel + 1 => by
      rw [pCollectLoop]
      apply monoFns_bind (monoFns_of_fnsPres (fnsPres_pcheck _))
      intro atEof
      by_cases h1 : atEof = true
      · rw [if_pos h1]
        exact monoFns_of_fnsPres (fnsPres_pure ())
      · rw [if_neg h1]
        apply monoFns_bind (monoFns_of_fnsPres fnsPres_mget)
        intro s0
        by_cases h2 : isFnDecl s0 = true
        · rw [if_pos h2]
          apply monoFns_bind (monoFns_of_fnsPres (fnsPres_pcheck _))
          intro isId
          apply monoFns_bind (monoFns_of_fnsPres fnsPres_curTok)
          intro cur
          apply monoFns_bind (monoFns_of_fnsPres fnsPres_padv)
          intro u1
          apply monoFns_bind (monoFns_of_fnsPres fnsPres_curTok)
          intro cur2
          apply monoFns_bind (monoFns_of_fnsPres fnsPres_padv)
          intro u2
          apply monoFns_bind (monoFns_of_fnsPres fnsPres_padv)
          intro u3
          apply monoFns_bind (monoFns_of_fnsPres (fnsPres_pcheck _))
          intro atRp
          apply monoFns_bind
          · by_cases h3 : (!atRp) = true
            · rw [if_pos h3]
              exact monoFns_of_fnsPres (fnsPres_pCollectParams fuel)
            · rw [if_neg h3]
              exact monoFns_of_fnsPres (fnsPres_pure [])
          · intro ps
            apply monoFns_guardAdd
            intro a
            apply monoFns_bind (monoFns_of_fnsPres (fnsPres_pSkipToLBrace fuel))
            intro found
            apply monoFns_bind (monoFns_of_fnsPres (fnsPres_pSkipBraces fuel _))
            intro u4
            exact monoFns_pCollectLoop fuel
        · rw [if_neg h2]
          apply monoFns_bind (monoFns_of_fnsPres (fnsPres_pSkipToSemi fuel))
          intro u
          exact monoFns_pCollectLoop fuel

theorem monoFns_pCollectFnDecls (fuel : Nat) : MonoFns (pCollectFnDecls fuel) := by
  rw [pCollectFnDecls]
  apply monoFns_bind (monoFns_of_fnsPres fnsPres_mget)
  intro saved
  apply monoFns_bind (monoFns_pCollectLoop fuel)
  intro u
  exact monoFns_of_fnsPres (fnsPres_setIdx _)

/-- Claim C9: the prescan never overwrites an existing function-table
entry — any entry present before _collect_function_declarations runs (in
particular the one written by the first of two same-named declarations, and
the seeded variadic printf/scanf built-ins) is still present, unchanged,
afterwards. -/
theorem c9_prescan_first_wins :
    (∀ (fuel : Nat) (s : PState) (a : Unit) (s' : PState)
       (n : String) (v : String × List (String × String) × Bool),
       pCollectFnDecls fuel s = .ok (a, s') →
       s.functions n = some v → s'.functions n = some v) ∧
    (∀ (fuel : Nat) (toks : List Token) (a : Unit) (s' : PState),
       pCollectFnDecls fuel (initPState toks) = .ok (a, s') →
       s'.functions "printf" = some ("int", [], true) ∧
       s'.functions "scanf" = some ("int", [], true)) := by
  constructor
  · intro fuel s a s' n v h hv
    exact monoFns_pCollectFnDecls fuel s a s' n v h hv
  · intro fuel toks a s' h
    exact ⟨monoFns_pCollectFnDecls fuel _ a s' "printf" _ h rfl,
           monoFns_pCollectFnDecls fuel _ a s' "scanf" _ h rfl⟩

theorem c9_prescan_first_wins_witness :
    pCollectFnDecls 50 (initPState toksMain0) =
      .ok ((), ⟨toksMain0, 0, emptySyms,
        (fun n => if n = "main" then some ("int", [], false)
          else (initPState toksMain0).functions n), none⟩) ∧
    (⟨toksMain0, 0, emptySyms,
        (fun n => if n = "main" then some ("int", [], false)
          else (initPState toksMain0).functions n), none⟩ : PState).functions
      "printf" = some ("int", [], true) := by
  constructor
  · rfl
  · exact (c9_prescan_first_wins.2 50 toksMain0 () _ rfl).1

/-- Two parser states that agree on everything except the symbol table. -/
def SRel (s t : PState) : Prop :=
  s.tokens = t.tokens ∧ s.i = t.i ∧ s.functions = t.functions ∧
  s.curRet = t.curRet

/-- A parser computation whose behaviour does not depend on (and whose
result keeps no trace of) the incoming symbol table, except possibly in the
symbol table itself. -/
def SIndep {α : Type} (m : M α) : Prop :=
  ∀ s t, SRel s t →
    (∃ e, m s = .error e ∧ m t = .error e) ∨
    (∃ a s' t', m s = .ok (a, s') ∧ m t = .ok (a, t') ∧ SRel s' t')

/-- A parser computation returning literally equal outcomes on two states
that differ only in the symbol table. -/
def MEq {α : Type} (m : M α) : Prop :=
  ∀ s t, SRel s t → m s = m t

theorem sIndep_bind {α β : Type} {m : M α} {k : α → M β}
    (hm : SIndep m) (hk : ∀ a, SIndep (k a)) : SIndep (m >>= k) := by
  intro s t hrel
  rcases hm s t hrel with ⟨e, hs, ht⟩ | ⟨a, s', t', hs, ht, hrel'⟩
  · refine Or.inl ⟨e, ?_, ?_⟩
    · show (match m s with
        | .ok (a, s1) => k a s1
        | .error e => (.error e : Except PErr (β × PState))) = .error e
      rw [hs]
    · show (match m t with
        | .ok (a, s1) => k a s1
        | .error e => (.error e : Except PErr (β × PState))) = .error e
      rw [ht]
  · rcases hk a s' t' hrel' with ⟨e, hs2, ht2⟩ | ⟨b, s2, t2, hs2, ht2, hrel2⟩
    · refine Or.inl ⟨e, ?_, ?_⟩
      · show (match m s with
          | .ok (a, s1) => k a s1
          | .error e => (.error e : Except PErr (β × PState))) = .error e
        rw [hs]
        exact hs2
      · show (match m t with
          | .ok (a, s1) => k a s1
          | .error e => (.error e : Except PErr (β × PState))) = .error e
        rw [ht]
        exact ht2
    · refine Or.inr ⟨b, s2, t2, ?_, ?_, hrel2⟩
      · show (match m s with
          | .ok (a, s1) => k a s1
          | .error e => (.error e : Except PErr (β × PState))) = .ok (b, s2)
        rw [hs]
        exact hs2
      · show (match m t with
          | .ok (a, s1) => k a s1
          | .error e => (.error e : Except PErr (β × PState))) = .ok (b, t2)
        rw [ht]
        exact ht2

theorem sIndep_pure {α : Type} (a : α) : SIndep (pure a : M α) :=
  fun s t hrel => Or.inr ⟨a, s, t, rfl, rfl, hrel⟩

theorem sIndep_throwSyn {α : Type} (msg : String) :
    SIndep (throwSyn msg : M α) :=
  fun _ _ _ => Or.inl ⟨.syn msg, rfl, rfl⟩

theorem sIndep_pcheck (ty : String) : SIndep (pcheck ty) := by
  intro s t hrel
  obtain ⟨h1, h2, h3, h4⟩ := hrel
  refine Or.inr ⟨(s.tokens.getD s.i dfltTok).type = ty, s, t, rfl, ?_,
    h1, h2, h3, h4⟩
  show Except.ok (((t.tokens.getD t.i dfltTok).type = ty : Bool), t) =
    Except.ok (((s.tokens.getD s.i dfltTok).type = ty : Bool), t)
  rw [h1, h2]

theorem sIndep_curTok : SIndep curTok := by
  intro s t hrel
  obtain ⟨h1, h2, h3, h4⟩ := hrel
  refine Or.inr ⟨s.tokens.getD s.i dfltTok, s, t, rfl, ?_, h1, h2, h3, h4⟩
  show Except.ok (t.tokens.getD t.i dfltTok, t) =
    Except.ok (s.tokens.getD s.i dfltTok, t)
  rw [h1, h2]

theorem sIndep_padv : SIndep padv := by
  intro s t hrel
  obtain ⟨h1, h2, h3, h4⟩ := hrel
  rcases s with ⟨toks, i, syms, fns, ret⟩
  rcases t with ⟨toks2, i2, syms2, fns2, ret2⟩
  simp only at h1 h2 h3 h4
  subst h1; subst h2; subst h3; subst h4
  by_cases hc : i + 1 < toks.length
  · refine Or.inr ⟨(), ⟨toks, i + 1, syms, fns, ret⟩,
      ⟨toks, i + 1, syms2, fns, ret⟩, ?_, ?_, rfl, rfl, rfl, rfl⟩
    · simp [padv, hc]
    · simp [padv, hc]
  · refine Or.inr ⟨(), ⟨toks, i, syms, fns, ret⟩,
      ⟨toks, i, syms2, fns, ret⟩, ?_, ?_, rfl, rfl, rfl, rfl⟩
    · simp [padv, hc]
    · simp [padv, hc]

theorem sIndep_pconsume (ty msg : String) : SIndep (pconsume ty msg) := by
  rw [pconsume]
  apply sIndep_bind sIndep_curTok
  intro tok
  by_cases hc : tok.type = ty
  · rw [if_pos hc]
    exact sIndep_bind sIndep_padv (fun _ => sIndep_pure tok)
  · rw [if_neg hc]
    exact sIndep_throwSyn _

theorem mEq_bind {α β : Type} {m : M α} {k : α → M β}
    (hm : SIndep m) (hk : ∀ a, MEq (k a)) : MEq (m >>= k) := by
  intro s t hrel
  rcases hm s t hrel with ⟨e, hs, ht⟩ | ⟨a, s', t', hs, ht, hrel'⟩
  · show (match m s with
      | .ok (a, s1) => k a s1
      | .error e => (.error e : Except PErr (β × PState))) =
      (match m t with
      | .ok (a, s1) => k a s1
      | .error e => (.error e : Except PErr (β × PState)))
    rw [hs, ht]
  · show (match m s with
      | .ok (a, s1) => k a s1
      | .error e => (.error e : Except PErr (β × PState))) =
      (match m t with
      | .ok (a, s1) => k a s1
      | .error e => (.error e : Except PErr (β × PState)))
    rw [hs, ht]
    exact hk a s' t' hrel'

/-- After `self.symbols = \x7b\x7d`, the two runs coincide completely: the
cleared symbol table erases the only difference between the states. -/
theorem mEq_clear_seq {β : Type} (k : Unit → M β) :
    MEq (clearSyms >>= k) := by
  intro s t hrel
  obtain ⟨h1, h2, h3, h4⟩ := hrel
  rcases s with ⟨toks, i, syms, fns, ret⟩
  rcases t with ⟨toks2, i2, syms2, fns2, ret2⟩
  simp only at h1 h2 h3 h4
  subst h1; subst h2; subst h3; subst h4
  rfl

/-- A parser computation that, whenever it succeeds, leaves the symbol
table empty. -/
def ClearedAfter {α : Type} (m : M α) : Prop :=
  ∀ s a s', m s = .ok (a, s') → s'.symbols = fun _ => none

theorem clearedAfter_bind {α β : Type} {m : M α} {k : α → M β}
    (hk : ∀ a, ClearedAfter (k a)) : ClearedAfter (m >>= k) := by
  intro s b s' h
  have h2 : (match m s with
    | .ok (a, s1) => k a s1
    | .error e => (.error e : Except PErr (β × PState))) = .ok (b, s') := h
  split at h2
  next a s1 heq => exact hk a s1 b s' h2
  next e heq => exact Except.noConfusion h2

/-- The exit sequence of func_decl: clear the symbol table, restore the
saved return type, return the node. -/
theorem clearedAfter_tail (r : Option String) (it : Item) :
    ClearedAfter (clearSyms >>= fun _ => setCurRet r >>= fun _ =>
      (pure it : M Item)) := by
  intro s a s' h
  rcases s with ⟨toks, i, syms, fns, ret⟩
  have h2 : (clearSyms >>= fun _ => setCurRet r >>= fun _ =>
      (pure it : M Item)) ⟨toks, i, syms, fns, ret⟩ =
      .ok (it, ⟨toks, i, fun _ => none, fns, r⟩) := rfl
  rw [h2] at h
  injection h with h3
  exact (congrArg PState.symbols (congrArg Prod.snd h3)).symm

theorem clearedAfter_pFuncDecl : ∀ fuel, ClearedAfter (pFuncDecl fuel)
  | 0 => fun _ _ _ h => Except.noConfusion h
  | fuel + 1 => by
      rw [pFuncDecl]
      apply clearedAfter_bind
      intro isInt
      apply clearedAfter_bind
      intro retTy
      apply clearedAfter_bind
      intro nameTok
      apply clearedAfter_bind
      intro u1
      apply clearedAfter_bind
      intro u2
      apply clearedAfter_bind
      intro atRp
      apply clearedAfter_bind
      intro ps
      apply clearedAfter_bind
      intro u3
      apply clearedAfter_bind
      intro s2
      apply clearedAfter_bind
      intro u4
      apply clearedAfter_bind
      intro body
      exact clearedAfter_tail _ _

theorem mEq_pFuncDecl : ∀ fuel, MEq (pFuncDecl fuel)
  | 0 => fun _ _ _ => rfl
  | fuel + 1 => by
      rw [pFuncDecl]
      apply mEq_bind (sIndep_pcheck _)
      intro isInt
      apply mEq_bind
      · by_cases h1 : isInt = true
        · rw [if_pos h1]
          exact sIndep_bind sIndep_padv (fun _ => sIndep_pure "int")
        · rw [if_neg h1]
          apply sIndep_bind (sIndep_pcheck _)
          intro isId
          apply sIndep_bind sIndep_curTok
          intro cur
          by_cases h2 : isId = true
          · rw [if_pos h2]
            exact sIndep_bind sIndep_padv (fun _ => sIndep_pure cur.lexeme)
          · rw [if_neg h2]
            exact sIndep_throwSyn _
      · intro retTy
        apply mEq_bind (sIndep_pconsume _ _)
        intro nameTok
        exact mEq_clear_seq _

/-- Claim C10: func_decl clears the one shared symbol table on entry
(before parameters are inserted — its outcome is entirely independent of
the incoming symbol table) and on exit (a successful parse of a function
declaration always leaves the symbol table empty); consequently the
program `int x = 1; int f() \x7b return 0; \x7d x = 2;`, whose top-level
statement declares x before the function and uses it after, is rejected
with the undeclared-variable semantic error. -/
theorem c10_func_scopes :
    (∀ (fuel : Nat) (toks : List Token) (i : Nat)
       (syms1 syms2 : String → Option String)
       (fns : String → Option (String × List (String × String) × Bool))
       (ret : Option String),
       pFuncDecl fuel ⟨toks, i, syms1, fns, ret⟩ =
         pFuncDecl fuel ⟨toks, i, syms2, fns, ret⟩) ∧
    (∀ (fuel : Nat) (s : PState) (a : Item) (s' : PState),
       pFuncDecl fuel s = .ok (a, s') → s'.symbols = fun _ => none) ∧
    parseToks 50 toksScope = .error (.sem "Variable 'x' no declarada") := by
  refine ⟨?_, ?_, rfl⟩
  · intro fuel toks i syms1 syms2 fns ret
    exact mEq_pFuncDecl fuel _ _ ⟨rfl, rfl, rfl, rfl⟩
  · intro fuel s a s' h
    exact clearedAfter_pFuncDecl fuel s a s' h

theorem c10_func_scopes_witness :
    ∃ a s', pFuncDecl 49 (initPState toksMain0) = .ok (a, s') ∧
      s'.symbols = fun _ => none :=
  ⟨_, _, rfl, c10_func_scopes.2.1 49 (initPState toksMain0) _ _ rfl⟩

/-- Claim C5: the pipeline is deterministic — any two successful compiles
of the same source string yield byte-identical IR text and byte-identical
assembly text. -/
theorem c5_deterministic (fuel : Nat) (src : String) (ir1 ir2 asm1 asm2 : String)
    (h1 : compileIRText fuel src = .ok ir1)
    (h2 : compileIRText fuel src = .ok ir2)
    (h3 : compileAsmText fuel src = .ok asm1)
    (h4 : compileAsmText fuel src = .ok asm2) :
    ir1 = ir2 ∧ asm1 = asm2 :=
  ⟨Except.ok.inj (h1.symm.trans h2), Except.ok.inj (h3.symm.trans h4)⟩

theorem c5_deterministic_witness :
    compileIRText 50 "int main() \x7b return 0; \x7d" =
      .ok "func main()\nreturn 0\nendfunc main" ∧
    compileAsmText 50 "int main() \x7b return 0; \x7d" =
      .ok ("; Generado por el compilador\n; Arquitectura: x86-64 (64 bits)\n; Sintaxis: NASM (Intel)\n\nbits 64\ndefault rel\n\nsection .text\n    extern printf\n    extern scanf\n    extern exit\n\n    global main\n\nmain:\n    push rbp\n    mov rbp, rsp\n    sub rsp, 64  ; Espacio para variables locales\n\n    mov rax, 0\n    jmp .end_main\n.end_main:\n    mov rsp, rbp\n    pop rbp\n    ret\n") ∧
    ("func main()\nreturn 0\nendfunc main" =
       "func main()\nreturn 0\nendfunc main" ∧
     ("; Generado por el compilador\n; Arquitectura: x86-64 (64 bits)\n; Sintaxis: NASM (Intel)\n\nbits 64\ndefault rel\n\nsection .text\n    extern printf\n    extern scanf\n    extern exit\n\n    global main\n\nmain:\n    push rbp\n    mov rbp, rsp\n    sub rsp, 64  ; Espacio para variables locales\n\n    mov rax, 0\n    jmp .end_main\n.end_main:\n    mov rsp, rbp\n    pop rbp\n    ret\n" : String) =
       "; Generado por el compilador\n; Arquitectura: x86-64 (64 bits)\n; Sintaxis: NASM (Intel)\n\nbits 64\ndefault rel\n\nsection .text\n    extern printf\n    extern scanf\n    extern exit\n\n    global main\n\nmain:\n    push rbp\n    mov rbp, rsp\n    sub rsp, 64  ; Espacio para variables locales\n\n    mov rax, 0\n    jmp .end_main\n.end_main:\n    mov rsp, rbp\n    pop rbp\n    ret\n") := by
  have hts : tokenizeStd "int main() \x7b return 0; \x7d" = .ok toksMain0 := rfl
  have hp : pipeParse 50 "int main() \x7b return 0; \x7d" =
      (match parseToks 50 toksMain0 with
       | .error e => .error (.parseE e)
       | .ok r => .ok r) := pipeParse_eq 50 _ toksMain0 hts
  obtain ⟨st, hok⟩ : ∃ st, parseToks 50 toksMain0 = .ok (progMain0, st) := ⟨_, rfl⟩
  rw [hok] at hp
  have h1 : compileIRText 50 "int main() \x7b return 0; \x7d" =
      .ok "func main()\nreturn 0\nendfunc main" := by
    unfold compileIRText
    rw [hp]
    rfl
  have h3 : compileAsmText 50 "int main() \x7b return 0; \x7d" =
      .ok ("; Generado por el compilador\n; Arquitectura: x86-64 (64 bits)\n; Sintaxis: NASM (Intel)\n\nbits 64\ndefault rel\n\nsection .text\n    extern printf\n    extern scanf\n    extern exit\n\n    global main\n\nmain:\n    push rbp\n    mov rbp, rsp\n    sub rsp, 64  ; Espacio para variables locales\n\n    mov rax, 0\n    jmp .end_main\n.end_main:\n    mov rsp, rbp\n    pop rbp\n    ret\n") := by
    unfold compileAsmText
    rw [hp]
    rfl
  exact ⟨h1, h3, c5_deterministic 50 _ _ _ _ _ h1 h1 h3 h3⟩

-- ========================================================================
-- Claim C4 — IR label and temporary invariants
-- ========================================================================

/-- The destination operand written by an instruction, when there is one. -/
def destOf : IRInstr → Option String
  | .assign d _ => some d
  | .binop d _ _ _ => some d
  | .unaryop d _ _ => some d
  | .call d _ _ => d
  | _ => none

/-- The source operands read by an instruction. -/
def srcsOf : IRInstr → List String
  | .assign _ s => [s]
  | .binop _ l _ r => [l, r]
  | .unaryop _ _ s => [s]
  | .ifFalseGoto c _ => [c]
  | .ifGoto c _ => [c]
  | .call _ _ args => args
  | .ret (some v) => [v]
  | .param v => [v]
  | _ => []

/-- The label targeted by a Goto or IfFalseGoto. -/
def isJump : IRInstr → Option String
  | .goto l => some l
  | .ifFalseGoto _ l => some l
  | _ => none

def isFuncMarker : IRInstr → Bool
  | .funcBegin _ _ => true
  | .funcEnd _ => true
  | _ => false

/-- How many instructions of the chunk write the temporary tK. -/
def destCountT (k : Nat) (c : List IRInstr) : Nat :=
  c.countP (fun i => decide (destOf i = some (tempName k)))

def usesT (k : Nat) (i : IRInstr) : Bool :=
  (srcsOf i).any (fun s => decide (s = tempName k))

/-- How many Label instructions of the chunk carry the given name. -/
def labelCountS (l : String) (c : List IRInstr) : Nat :=
  c.countP (fun i => decide (i = .label l))

def labelCountK (k : Nat) (c : List IRInstr) : Nat :=
  labelCountS (labelName k) c

def jumpTargets (c : List IRInstr) : List String := c.filterMap isJump

/-- Whether a string has the shape of a generated temporary name: a `t`
followed by a nonempty run of digits. -/
def isTempForm (s : String) : Bool :=
  match s.data with
  | 't' :: rest => !rest.isEmpty && rest.all Char.isDigit
  | _ => false

theorem string_append_data (a b : String) : (a ++ b).data = a.data ++ b.data := rfl

theorem tempName_isTempForm (k : Nat) : isTempForm (tempName k) = true := by
  show (!(natDigs k).isEmpty && (natDigs k).all Char.isDigit) = true
  rw [Bool.and_eq_true]
  refine ⟨?_, natDigs_all_digits k⟩
  cases hn : natDigs k with
  | nil => exact absurd hn (natDigs_ne_nil k)
  | cons a l => rfl

theorem tempName_inj {a b : Nat} (h : tempName a = tempName b) : a = b := by
  have h2 : ('t' : Char) :: natDigs a = 't' :: natDigs b := congrArg String.data h
  injection h2 with h3 h4
  exact natStr_injective (congrArg String.mk h4)

theorem labelName_inj {a b : Nat} (h : labelName a = labelName b) : a = b := by
  have h2 : ('L' : Char) :: natDigs a = 'L' :: natDigs b := congrArg String.data h
  injection h2 with h3 h4
  exact natStr_injective (congrArg String.mk h4)

theorem isTempForm_strName (j : Nat) : isTempForm (strName j) = false := rfl

theorem isTempForm_labelName (j : Nat) : isTempForm (labelName j) = false := rfl

/-- An operand that cannot collide with any generated temporary. -/
theorem not_tempName_of_not_tempForm {s : String} (h : isTempForm s = false)
    (k : Nat) : s ≠ tempName k := by
  intro he
  rw [he, tempName_isTempForm k] at h
  exact Bool.noConfusion h

mutual

/-- No identifier or literal spelling of the expression has the shape of a
generated temporary name. -/
def exprNoTemps : Expr → Bool
  | .num v => !isTempForm (litStr v)
  | .str _ => true
  | .var n => !isTempForm n
  | .unary _ e => exprNoTemps e
  | .bin l _ r => exprNoTemps l && exprNoTemps r
  | .call _ args => exprListNoTemps args

def exprListNoTemps : ExprList → Bool
  | .nil => true
  | .cons a as => exprNoTemps a && exprListNoTemps as

end

mutual

def stmtNoTemps : Stmt → Bool
  | .block ss => stmtsNoTemps ss
  | .decl n none => !isTempForm n
  | .decl n (some e) => !isTempForm n && exprNoTemps e
  | .assign n e => !isTempForm n && exprNoTemps e
  | .ret none => true
  | .ret (some e) => exprNoTemps e
  | .ifS c t none => exprNoTemps c && stmtNoTemps t
  | .ifS c t (some e) => exprNoTemps c && stmtNoTemps t && stmtNoTemps e
  | .whileS c b => exprNoTemps c && stmtNoTemps b
  | .forS i c s b =>
      stmtNoTemps i && exprNoTemps c && stmtNoTemps s && stmtNoTemps b
  | .exprS e => exprNoTemps e

def stmtsNoTemps : StmtList → Bool
  | .nil => true
  | .cons s ss => stmtNoTemps s && stmtsNoTemps ss

end

def itemNoTemps : Item → Bool
  | .fn _ _ _ body => stmtNoTemps body
  | .st s => stmtNoTemps s

def progNoTemps (p : Prog) : Bool := p.items.all itemNoTemps

/-- An operand is safe for the temp range [t0, t1): if it is a temporary at
all, its index lies in the range. -/
def OpOk (t0 t1 : Nat) (r : String) : Prop :=
  ∀ k, r = tempName k → t0 ≤ k ∧ k < t1

theorem opOk_of_nonTemp {s : String} (h : isTempForm s = false) (t0 t1 : Nat) :
    OpOk t0 t1 s :=
  fun k hk => absurd hk (not_tempName_of_not_tempForm h k)

theorem opOk_mono {t0 t1 t0' t1' : Nat} {r : String} (h : OpOk t0 t1 r)
    (h0 : t0' ≤ t0) (h1 : t1 ≤ t1') : OpOk t0' t1' r :=
  fun k hk => ⟨le_trans h0 (h k hk).1, lt_of_lt_of_le (h k hk).2 h1⟩

theorem bor_iff {a b : Bool} : (a || b) = true ↔ a = true ∨ b = true := by
  cases a <;> cases b <;> simp

/-- No instruction of the list uses a temporary before an earlier
instruction has written it; `defd` is the set of temporaries already
defined before the list runs. -/
def NUBD : List IRInstr → (Nat → Bool) → Prop
  | [], _ => True
  | i :: rest, defd =>
      (∀ k, usesT k i = true → defd k = true) ∧
      NUBD rest (fun k => defd k || decide (destOf i = some (tempName k)))

theorem nubd_mono : ∀ (c : List IRInstr) (d d' : Nat → Bool),
    NUBD c d → (∀ k, d k = true → d' k = true) → NUBD c d'
  | [], _, _, _, _ => trivial
  | i :: rest, d, d', h, hm => by
      obtain ⟨h1, h2⟩ := h
      refine ⟨fun k hk => hm k (h1 k hk), ?_⟩
      apply nubd_mono rest _ _ h2
      intro k hk
      rcases bor_iff.mp hk with hk2 | hk2
      · exact bor_iff.mpr (Or.inl (hm k hk2))
      · exact bor_iff.mpr (Or.inr hk2)

theorem nubd_append : ∀ (c1 c2 : List IRInstr) (d : Nat → Bool),
    NUBD c1 d → NUBD c2 d → NUBD (c1 ++ c2) d
  | [], c2, d, _, h2 => by simpa using h2
  | i :: rest, c2, d, h1, h2 => by
      obtain ⟨ha, hb⟩ := h1
      refine ⟨ha, ?_⟩
      apply nubd_append rest c2 _ hb
      apply nubd_mono c2 d _ h2
      intro k hk
      exact bor_iff.mpr (Or.inl hk)

/-- The chunk invariant of the IR generator: over a chunk generated while
the temp counter went from t0 to t1 and the label counter from l0 to l1,
each temporary of the range is written exactly once and only range
temporaries are written or read, no temporary is read before it is
written, each label of the range appears exactly once, every jump targets
a label of the range, and the chunk holds no FuncBegin/FuncEnd. -/
structure ChunkInv (t0 t1 l0 l1 : Nat) (c : List IRInstr) : Prop where
  dest : ∀ k, destCountT k c = if t0 ≤ k ∧ k < t1 then 1 else 0
  useLt : ∀ i ∈ c, ∀ k, usesT k i = true → t0 ≤ k ∧ k < t1
  nubd : NUBD c (fun _ => false)
  label : ∀ k, labelCountK k c = if l0 ≤ k ∧ k < l1 then 1 else 0
  jump : ∀ i ∈ c, ∀ l, isJump i = some l → ∃ k, l = labelName k ∧ l0 ≤ k ∧ k < l1
  nofm : ∀ i ∈ c, isFuncMarker i = false

theorem chunkInv_nil (t l : Nat) : ChunkInv t t l l [] := by
  refine ⟨?_, ?_, trivial, ?_, ?_, ?_⟩
  · intro k
    simp only [destCountT, List.countP_nil]
    split_ifs with h
    · omega
    · rfl
  · intro i hi
    exact absurd hi (List.not_mem_nil i)
  · intro k
    simp only [labelCountK, labelCountS, List.countP_nil]
    split_ifs with h
    · omega
    · rfl
  · intro i hi
    exact absurd hi (List.not_mem_nil i)
  · intro i hi
    exact absurd hi (List.not_mem_nil i)

theorem chunkInv_append {t0 tm t1 l0 lm l1 : Nat} {c1 c2 : List IRInstr}
    (h1 : ChunkInv t0 tm l0 lm c1) (h2 : ChunkInv tm t1 lm l1 c2)
    (ht0 : t0 ≤ tm) (ht1 : tm ≤ t1) (hl0 : l0 ≤ lm) (hl1 : lm ≤ l1) :
    ChunkInv t0 t1 l0 l1 (c1 ++ c2) := by
  refine ⟨?_, ?_, ?_, ?_, ?_, ?_⟩
  · intro k
    simp only [destCountT, List.countP_append]
    have e1 := h1.dest k
    have e2 := h2.dest k
    simp only [destCountT] at e1 e2
    rw [e1, e2]
    split_ifs <;> omega
  · intro i hi k hk
    rcases List.mem_append.mp hi with h | h
    · have := h1.useLt i h k hk
      omega
    · have := h2.useLt i h k hk
      omega
  · exact nubd_append c1 c2 _ h1.nubd h2.nubd
  · intro k
    simp only [labelCountK, labelCountS, List.countP_append]
    have e1 := h1.label k
    have e2 := h2.label k
    simp only [labelCountK, labelCountS] at e1 e2
    rw [e1, e2]
    split_ifs <;> omega
  · intro i hi l hl
    rcases List.mem_append.mp hi with h | h
    · obtain ⟨k, hk1, hk2, hk3⟩ := h1.jump i h l hl
      exact ⟨k, hk1, hk2, by omega⟩
    · obtain ⟨k, hk1, hk2, hk3⟩ := h2.jump i h l hl
      exact ⟨k, hk1, by omega, hk3⟩
  · intro i hi
    rcases List.mem_append.mp hi with h | h
    · exact h1.nofm i h
    · exact h2.nofm i h

def definedIn (c : List IRInstr) (k : Nat) : Bool :=
  c.any (fun i => decide (destOf i = some (tempName k)))

theorem nubd_append_defs : ∀ (c1 c2 : List IRInstr) (d : Nat → Bool),
    NUBD c1 d → NUBD c2 (fun k => d k || definedIn c1 k) → NUBD (c1 ++ c2) d
  | [], c2, d, _, h2 => by
      simp only [List.nil_append]
      apply nubd_mono c2 _ _ h2
      intro k hk
      simpa [definedIn] using hk
  | i :: rest, c2, d, h1, h2 => by
      obtain ⟨ha, hb⟩ := h1
      refine ⟨ha, ?_⟩
      apply nubd_append_defs rest c2 _ hb
      apply nubd_mono c2 _ _ h2
      intro k hk
      simp only [definedIn, List.any_cons] at hk ⊢
      rcases bor_iff.mp hk with h | h
      · exact bor_iff.mpr (Or.inl (bor_iff.mpr (Or.inl h)))
      · rcases bor_iff.mp h with h | h
        · exact bor_iff.mpr (Or.inl (bor_iff.mpr (Or.inr h)))
        · exact bor_iff.mpr (Or.inr h)

theorem definedIn_of_count {k : Nat} {c : List IRInstr}
    (h : destCountT k c = 1) : definedIn c k = true := by
  have hp : 0 < List.countP (fun i => decide (destOf i = some (tempName k))) c := by
    simp only [destCountT] at h
    omega
  obtain ⟨a, ha, hpa⟩ := List.countP_pos.mp hp
  exact List.any_eq_true.mpr ⟨a, ha, hpa⟩

theorem destOf_some_shape {i : IRInstr} {d : String} (h : destOf i = some d) :
    isJump i = none ∧ (∀ l, i ≠ .label l) ∧ isFuncMarker i = false := by
  cases i <;> simp_all [destOf, isJump, isFuncMarker]

theorem labelName_eq_iff (a b : Nat) : labelName a = labelName b ↔ a = b :=
  ⟨labelName_inj, fun h => by rw [h]⟩

theorem tempName_eq_iff (a b : Nat) : tempName a = tempName b ↔ a = b :=
  ⟨tempName_inj, fun h => by rw [h]⟩

theorem destCountT_append (k : Nat) (c1 c2 : List IRInstr) :
    destCountT k (c1 ++ c2) = destCountT k c1 + destCountT k c2 :=
  List.countP_append _ _ _

theorem labelCountK_append (k : Nat) (c1 c2 : List IRInstr) :
    labelCountK k (c1 ++ c2) = labelCountK k c1 + labelCountK k c2 :=
  List.countP_append _ _ _

theorem destCountT_cons (k : Nat) (i : IRInstr) (c : List IRInstr) :
    destCountT k (i :: c) =
      destCountT k c + (if destOf i = some (tempName k) then 1 else 0) := by
  simp [destCountT, List.countP_cons]

theorem labelCountK_cons (k : Nat) (i : IRInstr) (c : List IRInstr) :
    labelCountK k (i :: c) =
      labelCountK k c + (if i = .label (labelName k) then 1 else 0) := by
  simp [labelCountK, labelCountS, List.countP_cons]

theorem destCountT_nil (k : Nat) : destCountT k [] = 0 := rfl

theorem labelCountK_nil (k : Nat) : labelCountK k [] = 0 := rfl

/-- Append one instruction that writes the next fresh temporary and reads
only temporaries of the chunk's range. -/
theorem chunkInv_snoc_dest {t0 t1 l0 l1 : Nat} {c : List IRInstr}
    (h : ChunkInv t0 t1 l0 l1 c) (i : IRInstr)
    (hd : destOf i = some (tempName t1))
    (hu : ∀ k, usesT k i = true → t0 ≤ k ∧ k < t1) (ht : t0 ≤ t1) :
    ChunkInv t0 (t1 + 1) l0 l1 (c ++ [i]) := by
  obtain ⟨hj, hlab, hfm⟩ := destOf_some_shape hd
  refine ⟨?_, ?_, ?_, ?_, ?_, ?_⟩
  · intro k
    rw [destCountT_append, destCountT_cons, destCountT_nil, h.dest k, hd]
    simp only [Option.some.injEq, tempName_eq_iff]
    split_ifs <;> omega
  · intro j hj2 k hk
    rcases List.mem_append.mp hj2 with hm | hm
    · have := h.useLt j hm k hk
      omega
    · rw [List.mem_singleton] at hm
      subst hm
      have := hu k hk
      omega
  · apply nubd_append_defs c [i] _ h.nubd
    refine ⟨?_, trivial⟩
    intro k hk
    have hr := hu k hk
    have hc := h.dest k
    rw [if_pos ⟨hr.1, hr.2⟩] at hc
    exact bor_iff.mpr (Or.inr (definedIn_of_count hc))
  · intro k
    rw [labelCountK_append, labelCountK_cons, labelCountK_nil, h.label k,
      if_neg (hlab (labelName k))]
    omega
  · intro j hj2 l hl
    rcases List.mem_append.mp hj2 with hm | hm
    · exact h.jump j hm l hl
    · rw [List.mem_singleton] at hm
      subst hm
      rw [hj] at hl
      exact Option.noConfusion hl
  · intro j hj2
    rcases List.mem_append.mp hj2 with hm | hm
    · exact h.nofm j hm
    · rw [List.mem_singleton] at hm
      subst hm
      exact hfm

/-- Append one instruction that writes no temporary (its destination, if
any, is a user identifier) and reads only temporaries of the range. -/
theorem chunkInv_snoc {t0 t1 l0 l1 : Nat} {c : List IRInstr}
    (h : ChunkInv t0 t1 l0 l1 c) (i : IRInstr)
    (hd : ∀ k, destOf i ≠ some (tempName k))
    (hu : ∀ k, usesT k i = true → t0 ≤ k ∧ k < t1)
    (hlab : ∀ k, i ≠ .label (labelName k))
    (hj : ∀ l, isJump i = some l → ∃ k, l = labelName k ∧ l0 ≤ k ∧ k < l1)
    (hfm : isFuncMarker i = false) :
    ChunkInv t0 t1 l0 l1 (c ++ [i]) := by
  refine ⟨?_, ?_, ?_, ?_, ?_, ?_⟩
  · intro k
    rw [destCountT_append, destCountT_cons, destCountT_nil, h.dest k,
      if_neg (hd k)]
    omega
  · intro j hj2 k hk
    rcases List.mem_append.mp hj2 with hm | hm
    · exact h.useLt j hm k hk
    · rw [List.mem_singleton] at hm
      subst hm
      exact hu k hk
  · apply nubd_append_defs c [i] _ h.nubd
    refine ⟨?_, trivial⟩
    intro k hk
    have hr := hu k hk
    have hc := h.dest k
    rw [if_pos ⟨hr.1, hr.2⟩] at hc
    exact bor_iff.mpr (Or.inr (definedIn_of_count hc))
  · intro k
    rw [labelCountK_append, labelCountK_cons, labelCountK_nil, h.label k,
      if_neg (hlab k)]
    omega
  · intro j hj2 l hl
    rcases List.mem_append.mp hj2 with hm | hm
    · exact h.jump j hm l hl
    · rw [List.mem_singleton] at hm
      subst hm
      exact hj l hl
  · intro j hj2
    rcases List.mem_append.mp hj2 with hm | hm
    · exact h.nofm j hm
    · rw [List.mem_singleton] at hm
      subst hm
      exact hfm

/-- Every name interned in the string-literal table has strN shape. -/
def GenWF (st : GenSt) : Prop :=
  ∀ pr ∈ st.strings, ∃ j, pr.2 = strName j

theorem newString_inv (v : String) (st : GenSt) (hwf : GenWF st)
    (n : String) (stn : GenSt) (hn : newString v st = (n, stn)) :
    stn.temps = st.temps ∧ stn.labels = st.labels ∧
    GenWF stn ∧ isTempForm n = false := by
  rw [newString] at hn
  rcases hl : st.strings.lookup v with _ | m
  · rw [hl] at hn
    injection hn with h1 h2
    subst h1; subst h2
    refine ⟨rfl, rfl, ?_, isTempForm_strName _⟩
    intro pr hpr
    rcases List.mem_append.mp hpr with hm | hm
    · exact hwf pr hm
    · rw [List.mem_singleton] at hm
      subst hm
      exact ⟨st.strCount, rfl⟩
  · rw [hl] at hn
    injection hn with h1 h2
    subst h1; subst h2
    refine ⟨rfl, rfl, hwf, ?_⟩
    obtain ⟨pr, hpr, hsnd⟩ := List.mem_map.mp (lookup_snd_mem _ _ _ hl)
    obtain ⟨j, hj⟩ := hwf pr hpr
    rw [← hsnd, hj]
    exact isTempForm_strName j

mutual

theorem genExpr_inv : ∀ (e : Expr) (st : GenSt) (c : List IRInstr) (r : String)
    (st2 : GenSt), genExpr e st = (c, r, st2) → exprNoTemps e = true →
    GenWF st →
    st.temps ≤ st2.temps ∧ st2.labels = st.labels ∧ GenWF st2 ∧
    ChunkInv st.temps st2.temps st.labels st.labels c ∧
    OpOk st.temps st2.temps r
  | .num v, st, c, r, st2, he, hnt, hwf => by
      simp only [genExpr] at he
      injection he with h1 hrest
      injection hrest with h2 h3
      subst h1; subst h2; subst h3
      refine ⟨le_refl _, rfl, hwf, chunkInv_nil _ _, ?_⟩
      have hf : isTempForm (litStr v) = false := by
        simp only [exprNoTemps, Bool.not_eq_true'] at hnt
        exact hnt
      exact opOk_of_nonTemp hf _ _
  | .str v, st, c, r, st2, he, hnt, hwf => by
      rcases hn : newString v st with ⟨n, stn⟩
      simp only [genExpr, hn] at he
      injection he with h1 hrest
      injection hrest with h2 h3
      subst h1; subst h2; subst h3
      obtain ⟨hw1, hw2, hw3, hw4⟩ := newString_inv v st hwf n stn hn
      refine ⟨le_of_eq hw1.symm, hw2, hw3, ?_, opOk_of_nonTemp hw4 _ _⟩
      rw [hw1]
      exact chunkInv_nil _ _
  | .var n, st, c, r, st2, he, hnt, hwf => by
      simp only [genExpr] at he
      injection he with h1 hrest
      injection hrest with h2 h3
      subst h1; subst h2; subst h3
      refine ⟨le_refl _, rfl, hwf, chunkInv_nil _ _, ?_⟩
      have hf : isTempForm n = false := by
        simp only [exprNoTemps, Bool.not_eq_true'] at hnt
        exact hnt
      exact opOk_of_nonTemp hf _ _
  | .unary op e, st, c, r, st2, he, hnt, hwf => by
      rcases hsub : genExpr e st with ⟨ce, re, st1⟩
      simp only [genExpr, hsub, newTemp] at he
      injection he with h1 hrest
      injection hrest with h2 h3
      subst h1; subst h2; subst h3
      have hnt2 : exprNoTemps e = true := hnt
      obtain ⟨ih1, ih2, ih3, ih4, ih5⟩ := genExpr_inv e st ce re st1 hsub hnt2 hwf
      refine ⟨by simp; omega, by simp [ih2], ih3, ?_, ?_⟩
      · have hc := chunkInv_snoc_dest ih4 (.unaryop (tempName st1.temps) op re)
          rfl ?_ ih1
        · exact hc
        · intro k hk
          simp only [usesT, srcsOf, List.any_cons, List.any_nil, Bool.or_false,
            decide_eq_true_eq] at hk
          exact ih5 k hk
      · intro k hk
        have := tempName_inj hk.symm
        subst this
        simp
        omega
  | .bin el op er, st, c, r, st2, he, hnt, hwf => by
      rcases hl : genExpr el st with ⟨cl, rl, st1⟩
      rcases hr : genExpr er st1 with ⟨cr, rr, stm⟩
      simp only [genExpr, hl, hr, newTemp] at he
      injection he with h1 hrest
      injection hrest with h2 h3
      subst h1; subst h2; subst h3
      have hnt2 : exprNoTemps el = true ∧ exprNoTemps er = true := by
        simp only [exprNoTemps, Bool.and_eq_true] at hnt
        exact hnt
      obtain ⟨ihl1, ihl2, ihl3, ihl4, ihl5⟩ :=
        genExpr_inv el st cl rl st1 hl hnt2.1 hwf
      obtain ⟨ihr1, ihr2, ihr3, ihr4, ihr5⟩ :=
        genExpr_inv er st1 cr rr stm hr hnt2.2 ihl3
      refine ⟨by simp; omega, by simp [ihr2, ihl2], ihr3, ?_, ?_⟩
      · have hap : ChunkInv st.temps stm.temps st.labels st.labels (cl ++ cr) := by
          have h4 : ChunkInv st1.temps stm.temps st.labels st.labels cr := by
            rw [← ihl2]
            exact ihr4
          exact chunkInv_append ihl4 h4 ihl1 ihr1 (le_refl _) (le_refl _)
        have hc := chunkInv_snoc_dest hap
          (.binop (tempName stm.temps) rl op rr) rfl ?_ (le_trans ihl1 ihr1)
        · exact hc
        · intro k hk
          simp only [usesT, srcsOf, List.any_cons, List.any_nil, Bool.or_false,
            Bool.or_eq_true, decide_eq_true_eq] at hk
          rcases hk with hk | hk
          · have := ihl5 k hk
            omega
          · have := ihr5 k hk
            omega
      · intro k hk
        have := tempName_inj hk.symm
        subst this
        simp
        omega
  | .call name args, st, c, r, st2, he, hnt, hwf => by
      rcases ha : genArgs args st with ⟨ca, rs, st1⟩
      simp only [genExpr, ha, newTemp] at he
      injection he with h1 hrest
      injection hrest with h2 h3
      subst h1; subst h2; subst h3
      have hnt2 : exprListNoTemps args = true := hnt
      obtain ⟨ih1, ih2, ih3, ih4, ih5⟩ := genArgs_inv args st ca rs st1 ha hnt2 hwf
      refine ⟨by simp; omega, by simp [ih2], ih3, ?_, ?_⟩
      · have hc := chunkInv_snoc_dest ih4 (.call (some (tempName st1.temps)) name rs)
          rfl ?_ ih1
        · exact hc
        · intro k hk
          simp only [usesT, srcsOf, List.any_eq_true, decide_eq_true_eq] at hk
          obtain ⟨s, hs, hsk⟩ := hk
          exact ih5 s hs k hsk
      · intro k hk
        have := tempName_inj hk.symm
        subst this
        simp
        omega

theorem genArgs_inv : ∀ (as : ExprList) (st : GenSt) (c : List IRInstr)
    (rs : List String) (st2 : GenSt), genArgs as st = (c, rs, st2) →
    exprListNoTemps as = true → GenWF st →
    st.temps ≤ st2.temps ∧ st2.labels = st.labels ∧ GenWF st2 ∧
    ChunkInv st.temps st2.temps st.labels st.labels c ∧
    ∀ s ∈ rs, OpOk st.temps st2.temps s
  | .nil, st, c, rs, st2, he, hnt, hwf => by
      simp only [genArgs] at he
      injection he with h1 hrest
      injection hrest with h2 h3
      subst h1; subst h2; subst h3
      refine ⟨le_refl _, rfl, hwf, chunkInv_nil _ _, ?_⟩
      intro s hs
      exact absurd hs (List.not_mem_nil s)
  | .cons a as, st, c, rs, st2, he, hnt, hwf => by
      rcases hs1 : genExpr a st with ⟨ca, ra, st1⟩
      rcases hs2 : genArgs as st1 with ⟨crest, rrest, stm⟩
      simp only [genArgs, hs1, hs2] at he
      injection he with h1 hrest
      injection hrest with h2 h3
      subst h1; subst h2; subst h3
      have hnt2 : exprNoTemps a = true ∧ exprListNoTemps as = true := by
        simp only [exprListNoTemps, Bool.and_eq_true] at hnt
        exact hnt
      obtain ⟨ih1, ih2, ih3, ih4, ih5⟩ := genExpr_inv a st ca ra st1 hs1 hnt2.1 hwf
      obtain ⟨jh1, jh2, jh3, jh4, jh5⟩ :=
        genArgs_inv as st1 crest rrest stm hs2 hnt2.2 ih3
      refine ⟨le_trans ih1 jh1, by rw [jh2, ih2], jh3, ?_, ?_⟩
      · have hpa : ChunkInv st.temps st1.temps st.labels st.labels
            (ca ++ [.param ra]) := by
          apply chunkInv_snoc ih4 (.param ra)
          · intro k
            simp [destOf]
          · intro k hk
            simp only [usesT, srcsOf, List.any_cons, List.any_nil, Bool.or_false,
              decide_eq_true_eq] at hk
            exact ih5 k hk
          · intro k
            simp
          · intro l hl
            exact Option.noConfusion hl
          · rfl
        have h4 : ChunkInv st1.temps stm.temps st.labels st.labels crest := by
          rw [← ih2]
          exact jh4
        have := chunkInv_append hpa h4 ih1 jh1 (le_refl _) (le_refl _)
        simpa [List.append_assoc] using this
      · intro s hs
        rcases List.mem_cons.mp hs with h | h
        · subst h
          exact opOk_mono ih5 (le_refl _) jh1
        · exact opOk_mono (jh5 s h) ih1 (le_refl _)

end

theorem nubd_cons {i : IRInstr} {rest : List IRInstr} {d : Nat → Bool}
    (hhead : ∀ k, usesT k i = true → d k = true)
    (hrest : NUBD rest (fun k => d k || decide (destOf i = some (tempName k)))) :
    NUBD (i :: rest) d := ⟨hhead, hrest⟩

theorem nubd_of_false {c : List IRInstr} (h : NUBD c (fun _ => false))
    (d : Nat → Bool) : NUBD c d :=
  nubd_mono c _ d h (fun k hk => Bool.noConfusion hk)

theorem opOk_definedIn {t0 t1 l0 l1 : Nat} {c : List IRInstr} {r : String}
    (hc : ChunkInv t0 t1 l0 l1 c) (hr : OpOk t0 t1 r)
    (k : Nat) (hk : r = tempName k) : definedIn c k = true := by
  have hrange := hr k hk
  have hd := hc.dest k
  rw [if_pos ⟨hrange.1, hrange.2⟩] at hd
  exact definedIn_of_count hd

theorem labelCountK_single_label (m k : Nat) :
    labelCountK k [.label (labelName m)] = if k = m then 1 else 0 := by
  rw [labelCountK_cons, labelCountK_nil]
  by_cases h : k = m
  · subst h
    simp
  · rw [if_neg h, if_neg]
    intro he
    injection he with h2
    exact h (labelName_inj h2).symm

theorem labelCountK_single_not {i : IRInstr} (h : ∀ s, i ≠ .label s) (k : Nat) :
    labelCountK k [i] = 0 := by
  rw [labelCountK_cons, labelCountK_nil, if_neg (h (labelName k))]

theorem destCountT_single_none {i : IRInstr} (h : destOf i = none) (k : Nat) :
    destCountT k [i] = 0 := by
  rw [destCountT_cons, destCountT_nil, h, if_neg]
  intro h2
  exact Option.noConfusion h2

theorem destCountT_single_label (s : String) (k : Nat) :
    destCountT k [.label s] = 0 := rfl

theorem destCountT_brk1 (cv l s : String) (k : Nat) :
    destCountT k [.ifFalseGoto cv l, .label s] = 0 := rfl

theorem destCountT_brk2 (l s : String) (k : Nat) :
    destCountT k [.goto l, .label s] = 0 := rfl

theorem labelCountK_brk1 (cv l : String) (m k : Nat) :
    labelCountK k [.ifFalseGoto cv l, .label (labelName m)] =
      if k = m then 1 else 0 := by
  rw [labelCountK_cons, labelCountK_single_label,
    if_neg (fun h => IRInstr.noConfusion h)]
  omega

theorem labelCountK_brk2 (l : String) (m k : Nat) :
    labelCountK k [.goto l, .label (labelName m)] =
      if k = m then 1 else 0 := by
  rw [labelCountK_cons, labelCountK_single_label,
    if_neg (fun h => IRInstr.noConfusion h)]
  omega

mutual

theorem genStmt_inv : ∀ (s : Stmt) (st : GenSt) (c : List IRInstr)
    (st2 : GenSt), genStmt s st = (c, st2) → stmtNoTemps s = true →
    GenWF st →
    st.temps ≤ st2.temps ∧ st.labels ≤ st2.labels ∧ GenWF st2 ∧
    ChunkInv st.temps st2.temps st.labels st2.labels c
  | .block ss, st, c, st2, he, hnt, hwf => by
      simp only [genStmt] at he
      exact genStmts_inv ss st c st2 he hnt hwf
  | .decl n none, st, c, st2, he, hnt, hwf => by
      simp only [genStmt] at he
      injection he with h1 h2
      subst h1; subst h2
      exact ⟨le_refl _, le_refl _, hwf, chunkInv_nil _ _⟩
  | .decl n (some e), st, c, st2, he, hnt, hwf => by
      rcases hsub : genExpr e st with ⟨ce, re, st1⟩
      simp only [genStmt, hsub] at he
      injection he with h1 h2
      subst h1; subst h2
      simp only [stmtNoTemps, Bool.and_eq_true, Bool.not_eq_true'] at hnt
      obtain ⟨ih1, ih2, ih3, ih4, ih5⟩ := genExpr_inv e st ce re st1 hsub hnt.2 hwf
      refine ⟨ih1, le_of_eq ih2.symm, ih3, ?_⟩
      have hc := chunkInv_snoc ih4 (.assign n re) ?_ ?_ ?_ ?_ rfl
      · rw [ih2]
        exact hc
      · intro k heq
        simp only [destOf, Option.some.injEq] at heq
        exact not_tempName_of_not_tempForm hnt.1 k heq
      · intro k hk
        simp only [usesT, srcsOf, List.any_cons, List.any_nil, Bool.or_false,
          decide_eq_true_eq] at hk
        exact ih5 k hk
      · intro k
        intro heq
        exact IRInstr.noConfusion heq
      · intro l hl
        exact Option.noConfusion hl
  | .assign n e, st, c, st2, he, hnt, hwf => by
      rcases hsub : genExpr e st with ⟨ce, re, st1⟩
      simp only [genStmt, hsub] at he
      injection he with h1 h2
      subst h1; subst h2
      simp only [stmtNoTemps, Bool.and_eq_true, Bool.not_eq_true'] at hnt
      obtain ⟨ih1, ih2, ih3, ih4, ih5⟩ := genExpr_inv e st ce re st1 hsub hnt.2 hwf
      refine ⟨ih1, le_of_eq ih2.symm, ih3, ?_⟩
      have hc := chunkInv_snoc ih4 (.assign n re) ?_ ?_ ?_ ?_ rfl
      · rw [ih2]
        exact hc
      · intro k heq
        simp only [destOf, Option.some.injEq] at heq
        exact not_tempName_of_not_tempForm hnt.1 k heq
      · intro k hk
        simp only [usesT, srcsOf, List.any_cons, List.any_nil, Bool.or_false,
          decide_eq_true_eq] at hk
        exact ih5 k hk
      · intro k
        intro heq
        exact IRInstr.noConfusion heq
      · intro l hl
        exact Option.noConfusion hl
  | .ret none, st, c, st2, he, hnt, hwf => by
      simp only [genStmt] at he
      injection he with h1 h2
      subst h1; subst h2
      refine ⟨le_refl _, le_refl _, hwf, ?_⟩
      have hc := chunkInv_snoc (chunkInv_nil st.temps st.labels)
        (.ret none) ?_ ?_ ?_ ?_ rfl
      · simpa using hc
      · intro k heq
        exact Option.noConfusion heq
      · intro k hk
        simp [usesT, srcsOf] at hk
      · intro k heq
        exact IRInstr.noConfusion heq
      · intro l hl
        exact Option.noConfusion hl
  | .ret (some e), st, c, st2, he, hnt, hwf => by
      rcases hsub : genExpr e st with ⟨ce, re, st1⟩
      simp only [genStmt, hsub] at he
      injection he with h1 h2
      subst h1; subst h2
      have hnt2 : exprNoTemps e = true := hnt
      obtain ⟨ih1, ih2, ih3, ih4, ih5⟩ := genExpr_inv e st ce re st1 hsub hnt2 hwf
      refine ⟨ih1, le_of_eq ih2.symm, ih3, ?_⟩
      have hc := chunkInv_snoc ih4 (.ret (some re)) ?_ ?_ ?_ ?_ rfl
      · rw [ih2]
        exact hc
      · intro k heq
        exact Option.noConfusion heq
      · intro k hk
        simp only [usesT, srcsOf, List.any_cons, List.any_nil, Bool.or_false,
          decide_eq_true_eq] at hk
        exact ih5 k hk
      · intro k
        intro heq
        exact IRInstr.noConfusion heq
      · intro l hl
        exact Option.noConfusion hl
  | .exprS e, st, c, st2, he, hnt, hwf => by
      rcases hsub : genExpr e st with ⟨ce, re, st1⟩
      simp only [genStmt, hsub] at he
      injection he with h1 h2
      subst h1; subst h2
      have hnt2 : exprNoTemps e = true := hnt
      obtain ⟨ih1, ih2, ih3, ih4, ih5⟩ := genExpr_inv e st ce re st1 hsub hnt2 hwf
      refine ⟨ih1, le_of_eq ih2.symm, ih3, ?_⟩
      rw [ih2]
      exact ih4
  | .ifS cond thenB none, st, c, st2, he, hnt, hwf => by
      rcases hc : genExpr cond st with ⟨cc, cv, st1⟩
      rcases ht : genStmt thenB
          ⟨st1.temps, st1.labels + 1 + 1, st1.strings, st1.strCount⟩
        with ⟨ct, st4⟩
      simp only [genStmt, hc, newLabel, ht] at he
      injection he with h1 h2
      subst h1; subst h2
      simp only [stmtNoTemps, Bool.and_eq_true] at hnt
      obtain ⟨ihc1, ihc2, ihc3, ihc4, ihc5⟩ :=
        genExpr_inv cond st cc cv st1 hc hnt.1 hwf
      obtain ⟨iht1, iht2, iht3, iht4⟩ :=
        genStmt_inv thenB ⟨st1.temps, st1.labels + 1 + 1, st1.strings,
          st1.strCount⟩ ct st4 ht hnt.2 ihc3
      simp only at iht1 iht2 iht4
      refine ⟨by omega, by omega, iht3, ?_⟩
      refine ⟨?_, ?_, ?_, ?_, ?_, ?_⟩
      · intro k
        simp only [destCountT_append]
        rw [destCountT_brk1, destCountT_single_label, ihc4.dest k,
          iht4.dest k]
        split_ifs <;> omega
      · intro i hi k hk
        simp only [List.mem_append, List.mem_cons, List.not_mem_nil,
          or_false] at hi
        rcases hi with ((hi | hi | hi) | hi) | hi
        · have := ihc4.useLt i hi k hk
          omega
        · subst hi
          simp only [usesT, srcsOf, List.any_cons, List.any_nil, Bool.or_false,
            decide_eq_true_eq] at hk
          have := ihc5 k hk
          omega
        · subst hi
          simp [usesT, srcsOf] at hk
        · have := iht4.useLt i hi k hk
          omega
        · subst hi
          simp [usesT, srcsOf] at hk
      · have hsh : cc ++ [IRInstr.ifFalseGoto cv (labelName (st1.labels + 1)),
            IRInstr.label (labelName st1.labels)] ++ ct ++
            [IRInstr.label (labelName (st1.labels + 1))] =
            cc ++ (IRInstr.ifFalseGoto cv (labelName (st1.labels + 1)) ::
              IRInstr.label (labelName st1.labels) ::
              (ct ++ [IRInstr.label (labelName (st1.labels + 1))])) := by
          simp [List.append_assoc]
        rw [hsh]
        apply nubd_append_defs cc _ _ ihc4.nubd
        apply nubd_cons
        · intro k hk
          simp only [usesT, srcsOf, List.any_cons, List.any_nil, Bool.or_false,
            decide_eq_true_eq] at hk
          exact bor_iff.mpr (Or.inr (opOk_definedIn ihc4 ihc5 k hk))
        apply nubd_cons
        · intro k hk
          simp [usesT, srcsOf] at hk
        apply nubd_append_defs ct _ _ (nubd_of_false iht4.nubd _)
        apply nubd_cons
        · intro k hk
          simp [usesT, srcsOf] at hk
        trivial
      · intro k
        simp only [labelCountK_append]
        rw [labelCountK_brk1, labelCountK_single_label, ihc4.label k,
          iht4.label k]
        split_ifs <;> omega
      · intro i hi l hl
        simp only [List.mem_append, List.mem_cons, List.not_mem_nil,
          or_false] at hi
        rcases hi with ((hi | hi | hi) | hi) | hi
        · obtain ⟨k, hk1, hk2, hk3⟩ := ihc4.jump i hi l hl
          exact ⟨k, hk1, by omega, by omega⟩
        · subst hi
          simp only [isJump, Option.some.injEq] at hl
          exact ⟨st1.labels + 1, hl.symm, by omega, by omega⟩
        · subst hi
          exact Option.noConfusion hl
        · obtain ⟨k, hk1, hk2, hk3⟩ := iht4.jump i hi l hl
          exact ⟨k, hk1, by omega, by omega⟩
        · subst hi
          exact Option.noConfusion hl
      · intro i hi
        simp only [List.mem_append, List.mem_cons, List.not_mem_nil,
          or_false] at hi
        rcases hi with ((hi | hi | hi) | hi) | hi
        · exact ihc4.nofm i hi
        · subst hi
          rfl
        · subst hi
          rfl
        · exact iht4.nofm i hi
        · subst hi
          rfl
  | .ifS cond thenB (some eb), st, c, st2, he, hnt, hwf => by
      rcases hc : genExpr cond st with ⟨cc, cv, st1⟩
      rcases ht : genStmt thenB
          ⟨st1.temps, st1.labels + 1 + 1 + 1, st1.strings, st1.strCount⟩
        with ⟨ct, st5⟩
      rcases hel : genStmt eb st5 with ⟨ce2, st6⟩
      simp only [genStmt, hc, newLabel, ht, hel] at he
      injection he with h1 h2
      subst h1; subst h2
      simp only [stmtNoTemps, Bool.and_eq_true] at hnt
      obtain ⟨ihc1, ihc2, ihc3, ihc4, ihc5⟩ :=
        genExpr_inv cond st cc cv st1 hc hnt.1.1 hwf
      obtain ⟨iht1, iht2, iht3, iht4⟩ :=
        genStmt_inv thenB ⟨st1.temps, st1.labels + 1 + 1 + 1, st1.strings,
          st1.strCount⟩ ct st5 ht hnt.1.2 ihc3
      obtain ⟨ihe1, ihe2, ihe3, ihe4⟩ :=
        genStmt_inv eb st5 ce2 st6 hel hnt.2 iht3
      simp only at iht1 iht2 iht4
      refine ⟨by omega, by omega, ihe3, ?_⟩
      refine ⟨?_, ?_, ?_, ?_, ?_, ?_⟩
      · intro k
        simp only [destCountT_append]
        rw [destCountT_brk1, destCountT_brk2, destCountT_single_label,
          ihc4.dest k, iht4.dest k, ihe4.dest k]
        split_ifs <;> omega
      · intro i hi k hk
        simp only [List.mem_append, List.mem_cons, List.not_mem_nil,
          or_false] at hi
        rcases hi with ((((hi | hi | hi) | hi) | hi | hi) | hi) | hi
        · have := ihc4.useLt i hi k hk
          omega
        · subst hi
          simp only [usesT, srcsOf, List.any_cons, List.any_nil, Bool.or_false,
            decide_eq_true_eq] at hk
          have := ihc5 k hk
          omega
        · subst hi
          simp [usesT, srcsOf] at hk
        · have := iht4.useLt i hi k hk
          omega
        · subst hi
          simp [usesT, srcsOf] at hk
        · subst hi
          simp [usesT, srcsOf] at hk
        · have := ihe4.useLt i hi k hk
          omega
        · subst hi
          simp [usesT, srcsOf] at hk
      · have hsh : cc ++ [IRInstr.ifFalseGoto cv (labelName (st1.labels + 2)),
            IRInstr.label (labelName st1.labels)] ++ ct ++
            [IRInstr.goto (labelName (st1.labels + 1)),
             IRInstr.label (labelName (st1.labels + 2))] ++ ce2 ++
            [IRInstr.label (labelName (st1.labels + 1))] =
            cc ++ (IRInstr.ifFalseGoto cv (labelName (st1.labels + 2)) ::
              IRInstr.label (labelName st1.labels) ::
              (ct ++ (IRInstr.goto (labelName (st1.labels + 1)) ::
                IRInstr.label (labelName (st1.labels + 2)) ::
                (ce2 ++ [IRInstr.label (labelName (st1.labels + 1))])))) := by
          simp [List.append_assoc]
        rw [hsh]
        apply nubd_append_defs cc _ _ ihc4.nubd
        apply nubd_cons
        · intro k hk
          simp only [usesT, srcsOf, List.any_cons, List.any_nil, Bool.or_false,
            decide_eq_true_eq] at hk
          exact bor_iff.mpr (Or.inr (opOk_definedIn ihc4 ihc5 k hk))
        apply nubd_cons
        · intro k hk
          simp [usesT, srcsOf] at hk
        apply nubd_append_defs ct _ _ (nubd_of_false iht4.nubd _)
        apply nubd_cons
        · intro k hk
          simp [usesT, srcsOf] at hk
        apply nubd_cons
        · intro k hk
          simp [usesT, srcsOf] at hk
        apply nubd_append_defs ce2 _ _ (nubd_of_false ihe4.nubd _)
        apply nubd_cons
        · intro k hk
          simp [usesT, srcsOf] at hk
        trivial
      · intro k
        simp only [labelCountK_append]
        rw [labelCountK_brk1, labelCountK_brk2, labelCountK_single_label,
          ihc4.label k, iht4.label k, ihe4.label k]
        split_ifs <;> omega
      · intro i hi l hl
        simp only [List.mem_append, List.mem_cons, List.not_mem_nil,
          or_false] at hi
        rcases hi with ((((hi | hi | hi) | hi) | hi | hi) | hi) | hi
        · obtain ⟨k, hk1, hk2, hk3⟩ := ihc4.jump i hi l hl
          exact ⟨k, hk1, by omega, by omega⟩
        · subst hi
          simp only [isJump, Option.some.injEq] at hl
          exact ⟨st1.labels + 2, hl.symm, by omega, by omega⟩
        · subst hi
          exact Option.noConfusion hl
        · obtain ⟨k, hk1, hk2, hk3⟩ := iht4.jump i hi l hl
          exact ⟨k, hk1, by omega, by omega⟩
        · subst hi
          simp only [isJump, Option.some.injEq] at hl
          exact ⟨st1.labels + 1, hl.symm, by omega, by omega⟩
        · subst hi
          exact Option.noConfusion hl
        · obtain ⟨k, hk1, hk2, hk3⟩ := ihe4.jump i hi l hl
          exact ⟨k, hk1, by omega, by omega⟩
        · subst hi
          exact Option.noConfusion hl
      · intro i hi
        simp only [List.mem_append, List.mem_cons, List.not_mem_nil,
          or_false] at hi
        rcases hi with ((((hi | hi | hi) | hi) | hi | hi) | hi) | hi
        · exact ihc4.nofm i hi
        · subst hi; rfl
        · subst hi; rfl
        · exact iht4.nofm i hi
        · subst hi; rfl
        · subst hi; rfl
        · exact ihe4.nofm i hi
        · subst hi; rfl
  | .whileS cond body, st, c, st2, he, hnt, hwf => by
      rcases hc : genExpr cond
          ⟨st.temps, st.labels + 1 + 1 + 1, st.strings, st.strCount⟩
        with ⟨cc, cv, st4⟩
      rcases hb : genStmt body st4 with ⟨cb, st5⟩
      simp only [genStmt, newLabel, hc, hb] at he
      injection he with h1 h2
      subst h1; subst h2
      simp only [stmtNoTemps, Bool.and_eq_true] at hnt
      obtain ⟨ihc1, ihc2, ihc3, ihc4, ihc5⟩ :=
        genExpr_inv cond ⟨st.temps, st.labels + 1 + 1 + 1, st.strings,
          st.strCount⟩ cc cv st4 hc hnt.1 hwf
      obtain ⟨ihb1, ihb2, ihb3, ihb4⟩ :=
        genStmt_inv body st4 cb st5 hb hnt.2 ihc3
      simp only at ihc1 ihc2 ihc4 ihc5
      refine ⟨by omega, by omega, ihb3, ?_⟩
      rw [ihc2] at ihb2 ihb4
      refine ⟨?_, ?_, ?_, ?_, ?_, ?_⟩
      · intro k
        simp only [destCountT_append]
        rw [destCountT_single_label, destCountT_brk1, destCountT_brk2,
          ihc4.dest k, ihb4.dest k]
        split_ifs <;> omega
      · intro i hi k hk
        simp only [List.mem_append, List.mem_cons, List.not_mem_nil,
          or_false] at hi
        rcases hi with (((hi | hi) | hi | hi) | hi) | hi | hi
        · subst hi
          simp [usesT, srcsOf] at hk
        · have := ihc4.useLt i hi k hk
          omega
        · subst hi
          simp only [usesT, srcsOf, List.any_cons, List.any_nil, Bool.or_false,
            decide_eq_true_eq] at hk
          have := ihc5 k hk
          omega
        · subst hi
          simp [usesT, srcsOf] at hk
        · have := ihb4.useLt i hi k hk
          omega
        · subst hi
          simp [usesT, srcsOf] at hk
        · subst hi
          simp [usesT, srcsOf] at hk
      · have hsh : [IRInstr.label (labelName st.labels)] ++ cc ++
            [IRInstr.ifFalseGoto cv (labelName (st.labels + 2)),
             IRInstr.label (labelName (st.labels + 1))] ++ cb ++
            [IRInstr.goto (labelName st.labels),
             IRInstr.label (labelName (st.labels + 2))] =
            IRInstr.label (labelName st.labels) ::
              (cc ++ (IRInstr.ifFalseGoto cv (labelName (st.labels + 2)) ::
                IRInstr.label (labelName (st.labels + 1)) ::
                (cb ++ [IRInstr.goto (labelName st.labels),
                  IRInstr.label (labelName (st.labels + 2))]))) := by
          simp [List.append_assoc]
        rw [hsh]
        apply nubd_cons
        · intro k hk
          simp [usesT, srcsOf] at hk
        apply nubd_append_defs cc _ _ (nubd_of_false ihc4.nubd _)
        apply nubd_cons
        · intro k hk
          simp only [usesT, srcsOf, List.any_cons, List.any_nil, Bool.or_false,
            decide_eq_true_eq] at hk
          exact bor_iff.mpr (Or.inr (opOk_definedIn ihc4 ihc5 k hk))
        apply nubd_cons
        · intro k hk
          simp [usesT, srcsOf] at hk
        apply nubd_append_defs cb _ _ (nubd_of_false ihb4.nubd _)
        apply nubd_cons
        · intro k hk
          simp [usesT, srcsOf] at hk
        apply nubd_cons
        · intro k hk
          simp [usesT, srcsOf] at hk
        trivial
      · intro k
        simp only [labelCountK_append]
        rw [labelCountK_single_label, labelCountK_brk1, labelCountK_brk2,
          ihc4.label k, ihb4.label k]
        split_ifs <;> omega
      · intro i hi l hl
        simp only [List.mem_append, List.mem_cons, List.not_mem_nil,
          or_false] at hi
        rcases hi with (((hi | hi) | hi | hi) | hi) | hi | hi
        · subst hi
          exact Option.noConfusion hl
        · obtain ⟨k, hk1, hk2, hk3⟩ := ihc4.jump i hi l hl
          exact ⟨k, hk1, by omega, by omega⟩
        · subst hi
          simp only [isJump, Option.some.injEq] at hl
          exact ⟨st.labels + 2, hl.symm, by omega, by omega⟩
        · subst hi
          exact Option.noConfusion hl
        · obtain ⟨k, hk1, hk2, hk3⟩ := ihb4.jump i hi l hl
          exact ⟨k, hk1, by omega, by omega⟩
        · subst hi
          simp only [isJump, Option.some.injEq] at hl
          exact ⟨st.labels, hl.symm, by omega, by omega⟩
        · subst hi
          exact Option.noConfusion hl
      · intro i hi
        simp only [List.mem_append, List.mem_cons, List.not_mem_nil,
          or_false] at hi
        rcases hi with (((hi | hi) | hi | hi) | hi) | hi | hi
        · subst hi; rfl
        · exact ihc4.nofm i hi
        · subst hi; rfl
        · subst hi; rfl
        · exact ihb4.nofm i hi
        · subst hi; rfl
        · subst hi; rfl
  | .forS finit cond step body, st, c, st2, he, hnt, hwf => by
      rcases hin : genStmt finit st with ⟨ci, st1⟩
      rcases hc : genExpr cond
          ⟨st1.temps, st1.labels + 1 + 1 + 1, st1.strings, st1.strCount⟩
        with ⟨cc, cv, st5⟩
      rcases hb : genStmt body st5 with ⟨cb, st6⟩
      rcases hs : genStmt step st6 with ⟨cs, st7⟩
      simp only [genStmt, hin, newLabel, hc, hb, hs] at he
      injection he with h1 h2
      subst h1; subst h2
      simp only [stmtNoTemps, Bool.and_eq_true] at hnt
      obtain ⟨ihi1, ihi2, ihi3, ihi4⟩ :=
        genStmt_inv finit st ci st1 hin hnt.1.1.1 hwf
      obtain ⟨ihc1, ihc2, ihc3, ihc4, ihc5⟩ :=
        genExpr_inv cond ⟨st1.temps, st1.labels + 1 + 1 + 1, st1.strings,
          st1.strCount⟩ cc cv st5 hc hnt.1.1.2 ihi3
      obtain ⟨ihb1, ihb2, ihb3, ihb4⟩ :=
        genStmt_inv body st5 cb st6 hb hnt.2 ihc3
      obtain ⟨ihs1, ihs2, ihs3, ihs4⟩ :=
        genStmt_inv step st6 cs st7 hs hnt.1.2 ihb3
      simp only at ihc1 ihc2 ihc4 ihc5
      refine ⟨by omega, by omega, ihs3, ?_⟩
      rw [ihc2] at ihb2 ihb4
      refine ⟨?_, ?_, ?_, ?_, ?_, ?_⟩
      · intro k
        simp only [destCountT_append]
        rw [destCountT_single_label, destCountT_brk1, destCountT_brk2,
          ihi4.dest k, ihc4.dest k, ihb4.dest k, ihs4.dest k]
        split_ifs <;> omega
      · intro i hi k hk
        simp only [List.mem_append, List.mem_cons, List.not_mem_nil,
          or_false] at hi
        rcases hi with (((((hi | hi) | hi) | hi | hi) | hi) | hi) | hi | hi
        · have := ihi4.useLt i hi k hk
          omega
        · subst hi
          simp [usesT, srcsOf] at hk
        · have := ihc4.useLt i hi k hk
          omega
        · subst hi
          simp only [usesT, srcsOf, List.any_cons, List.any_nil, Bool.or_false,
            decide_eq_true_eq] at hk
          have := ihc5 k hk
          omega
        · subst hi
          simp [usesT, srcsOf] at hk
        · have := ihb4.useLt i hi k hk
          omega
        · have := ihs4.useLt i hi k hk
          omega
        · subst hi
          simp [usesT, srcsOf] at hk
        · subst hi
          simp [usesT, srcsOf] at hk
      · have hsh : ci ++ [IRInstr.label (labelName st1.labels)] ++ cc ++
            [IRInstr.ifFalseGoto cv (labelName (st1.labels + 2)),
             IRInstr.label (labelName (st1.labels + 1))] ++ cb ++ cs ++
            [IRInstr.goto (labelName st1.labels),
             IRInstr.label (labelName (st1.labels + 2))] =
            ci ++ (IRInstr.label (labelName st1.labels) ::
              (cc ++ (IRInstr.ifFalseGoto cv (labelName (st1.labels + 2)) ::
                IRInstr.label (labelName (st1.labels + 1)) ::
                (cb ++ (cs ++ [IRInstr.goto (labelName st1.labels),
                  IRInstr.label (labelName (st1.labels + 2))]))))) := by
          simp [List.append_assoc]
        rw [hsh]
        apply nubd_append_defs ci _ _ ihi4.nubd
        apply nubd_cons
        · intro k hk
          simp [usesT, srcsOf] at hk
        apply nubd_append_defs cc _ _ (nubd_of_false ihc4.nubd _)
        apply nubd_cons
        · intro k hk
          simp only [usesT, srcsOf, List.any_cons, List.any_nil, Bool.or_false,
            decide_eq_true_eq] at hk
          exact bor_iff.mpr (Or.inr (opOk_definedIn ihc4 ihc5 k hk))
        apply nubd_cons
        · intro k hk
          simp [usesT, srcsOf] at hk
        apply nubd_append_defs cb _ _ (nubd_of_false ihb4.nubd _)
        apply nubd_append_defs cs _ _ (nubd_of_false ihs4.nubd _)
        apply nubd_cons
        · intro k hk
          simp [usesT, srcsOf] at hk
        apply nubd_cons
        · intro k hk
          simp [usesT, srcsOf] at hk
        trivial
      · intro k
        simp only [labelCountK_append]
        rw [labelCountK_single_label, labelCountK_brk1, labelCountK_brk2,
          ihi4.label k, ihc4.label k, ihb4.label k, ihs4.label k]
        split_ifs <;> omega
      · intro i hi l hl
        simp only [List.mem_append, List.mem_cons, List.not_mem_nil,
          or_false] at hi
        rcases hi with (((((hi | hi) | hi) | hi | hi) | hi) | hi) | hi | hi
        · obtain ⟨k, hk1, hk2, hk3⟩ := ihi4.jump i hi l hl
          exact ⟨k, hk1, by omega, by omega⟩
        · subst hi
          exact Option.noConfusion hl
        · obtain ⟨k, hk1, hk2, hk3⟩ := ihc4.jump i hi l hl
          exact ⟨k, hk1, by omega, by omega⟩
        · subst hi
          simp only [isJump, Option.some.injEq] at hl
          exact ⟨st1.labels + 2, hl.symm, by omega, by omega⟩
        · subst hi
          exact Option.noConfusion hl
        · obtain ⟨k, hk1, hk2, hk3⟩ := ihb4.jump i hi l hl
          exact ⟨k, hk1, by omega, by omega⟩
        · obtain ⟨k, hk1, hk2, hk3⟩ := ihs4.jump i hi l hl
          exact ⟨k, hk1, by omega, by omega⟩
        · subst hi
          simp only [isJump, Option.some.injEq] at hl
          exact ⟨st1.labels, hl.symm, by omega, by omega⟩
        · subst hi
          exact Option.noConfusion hl
      · intro i hi
        simp only [List.mem_append, List.mem_cons, List.not_mem_nil,
          or_false] at hi
        rcases hi with (((((hi | hi) | hi) | hi | hi) | hi) | hi) | hi | hi
        · exact ihi4.nofm i hi
        · subst hi; rfl
        · exact ihc4.nofm i hi
        · subst hi; rfl
        · subst hi; rfl
        · exact ihb4.nofm i hi
        · exact ihs4.nofm i hi
        · subst hi; rfl
        · subst hi; rfl

theorem genStmts_inv : ∀ (ss : StmtList) (st : GenSt) (c : List IRInstr)
    (st2 : GenSt), genStmts ss st = (c, st2) → stmtsNoTemps ss = true →
    GenWF st →
    st.temps ≤ st2.temps ∧ st.labels ≤ st2.labels ∧ GenWF st2 ∧
    ChunkInv st.temps st2.temps st.labels st2.labels c
  | .nil, st, c, st2, he, hnt, hwf => by
      simp only [genStmts] at he
      injection he with h1 h2
      subst h1; subst h2
      exact ⟨le_refl _, le_refl _, hwf, chunkInv_nil _ _⟩
  | .cons s ss, st, c, st2, he, hnt, hwf => by
      rcases hs : genStmt s st with ⟨cs, st1⟩
      rcases hr : genStmts ss st1 with ⟨crest, stm⟩
      simp only [genStmts, hs, hr] at he
      injection he with h1 h2
      subst h1; subst h2
      simp only [stmtsNoTemps, Bool.and_eq_true] at hnt
      obtain ⟨ih1, ih2, ih3, ih4⟩ := genStmt_inv s st cs st1 hs hnt.1 hwf
      obtain ⟨jh1, jh2, jh3, jh4⟩ := genStmts_inv ss st1 crest stm hr hnt.2 ih3
      exact ⟨le_trans ih1 jh1, le_trans ih2 jh2, jh3,
        chunkInv_append ih4 jh4 ih1 jh1 ih2 jh2⟩

end

/-- genItems with the per-item chunks kept separate. -/
def genItemsChunks : List Item → GenSt → List (List IRInstr) × GenSt
  | [], st => ([], st)
  | it :: its, st =>
      match genItem it st with
      | (ci, st1) =>
          match genItemsChunks its st1 with
          | (cs, st2) => (ci :: cs, st2)

theorem genItemsChunks_spec : ∀ (its : List Item) (st : GenSt)
    (cs : List (List IRInstr)) (st2 : GenSt),
    genItemsChunks its st = (cs, st2) → genItems its st = (cs.join, st2)
  | [], st, cs, st2, he => by
      simp only [genItemsChunks] at he
      injection he with h1 h2
      subst h1; subst h2
      rfl
  | it :: its, st, cs, st2, he => by
      rcases hi : genItem it st with ⟨ci, st1⟩
      rcases hr : genItemsChunks its st1 with ⟨crest, stm⟩
      simp only [genItemsChunks, hi, hr] at he
      injection he with h1 h2
      subst h1; subst h2
      have ih := genItemsChunks_spec its st1 crest stm hr
      simp only [genItems, hi, ih, List.join_cons]

/-- The well-formed shape of an item's chunk: a function item is exactly
its FuncBegin, a marker-free body, and its FuncEnd; a top-level statement
chunk holds no markers at all. -/
def ChunkShape : Item → List IRInstr → Prop
  | .fn _ nm ps _, c => ∃ mid,
      c = .funcBegin nm (ps.map Prod.snd) :: mid ++ [.funcEnd nm] ∧
      ∀ i ∈ mid, isFuncMarker i = false
  | .st _, c => ∀ i ∈ c, isFuncMarker i = false

/-- The interior invariant of an item's chunk. -/
def ItemInvP (t0 t1 l0 l1 : Nat) : Item → List IRInstr → Prop
  | .fn _ nm ps _, c => ∃ mid,
      c = .funcBegin nm (ps.map Prod.snd) :: mid ++ [.funcEnd nm] ∧
      ChunkInv t0 t1 l0 l1 mid
  | .st _, c => ChunkInv t0 t1 l0 l1 c

theorem genItem_inv (it : Item) (st : GenSt) (c : List IRInstr) (st2 : GenSt)
    (he : genItem it st = (c, st2)) (hnt : itemNoTemps it = true)
    (hwf : GenWF st) :
    st.temps ≤ st2.temps ∧ st.labels ≤ st2.labels ∧ GenWF st2 ∧
    ItemInvP st.temps st2.temps st.labels st2.labels it c := by
  match it with
  | .fn rt nm params body =>
      rcases hb : genStmt body st with ⟨cb, st1⟩
      simp only [genItem, hb] at he
      injection he with h1 h2
      subst h1; subst h2
      have hnt2 : stmtNoTemps body = true := hnt
      obtain ⟨ih1, ih2, ih3, ih4⟩ := genStmt_inv body st cb st1 hb hnt2 hwf
      refine ⟨ih1, ih2, ih3, cb, by simp, ih4⟩
  | .st s =>
      simp only [genItem] at he
      have hnt2 : stmtNoTemps s = true := hnt
      obtain ⟨ih1, ih2, ih3, ih4⟩ := genStmt_inv s st c st2 he hnt2 hwf
      exact ⟨ih1, ih2, ih3, ih4⟩

theorem itemInvP_nubd {t0 t1 l0 l1 : Nat} {it : Item} {c : List IRInstr}
    (h : ItemInvP t0 t1 l0 l1 it c) : NUBD c (fun _ => false) := by
  match it, h with
  | .fn rt nm params body, ⟨mid, hc, hinv⟩ =>
      subst hc
      apply nubd_cons
      · intro k hk
        simp [usesT, srcsOf] at hk
      apply nubd_append_defs mid _ _ (nubd_of_false hinv.nubd _)
      apply nubd_cons
      · intro k hk
        simp [usesT, srcsOf] at hk
      trivial
  | .st s, h => exact h.nubd

theorem destCountT_single_funcEnd (nm : String) (k : Nat) :
    destCountT k [.funcEnd nm] = 0 := rfl

theorem labelCountK_single_funcEnd (nm : String) (k : Nat) :
    labelCountK k [.funcEnd nm] = 0 := rfl

theorem itemInvP_dest {t0 t1 l0 l1 : Nat} {it : Item} {c : List IRInstr}
    (h : ItemInvP t0 t1 l0 l1 it c) (k : Nat) :
    destCountT k c = if t0 ≤ k ∧ k < t1 then 1 else 0 := by
  match it, h with
  | .fn rt nm params body, ⟨mid, hc, hinv⟩ =>
      subst hc
      rw [destCountT_append, destCountT_cons, destCountT_single_funcEnd,
        hinv.dest k]
      simp only [destOf]
      rw [if_neg (fun hx => Option.noConfusion hx)]
      split_ifs <;> omega
  | .st s, h => exact h.dest k

theorem itemInvP_label {t0 t1 l0 l1 : Nat} {it : Item} {c : List IRInstr}
    (h : ItemInvP t0 t1 l0 l1 it c) (k : Nat) :
    labelCountK k c = if l0 ≤ k ∧ k < l1 then 1 else 0 := by
  match it, h with
  | .fn rt nm params body, ⟨mid, hc, hinv⟩ =>
      subst hc
      rw [labelCountK_append, labelCountK_cons, labelCountK_single_funcEnd,
        hinv.label k, if_neg (fun hx => IRInstr.noConfusion hx)]
      split_ifs <;> omega
  | .st s, h => exact h.label k

theorem itemInvP_jump {t0 t1 l0 l1 : Nat} {it : Item} {c : List IRInstr}
    (h : ItemInvP t0 t1 l0 l1 it c) :
    ∀ i ∈ c, ∀ l, isJump i = some l →
      ∃ m, l = labelName m ∧ l0 ≤ m ∧ m < l1 ∧ labelCountS l c = 1 := by
  match it, h with
  | .fn rt nm params body, ⟨mid, hc, hinv⟩ =>
      subst hc
      intro i hi l hl
      rcases List.mem_append.mp hi with h1 | h1
      · rcases List.mem_cons.mp h1 with h2 | h2
        · subst h2
          exact Option.noConfusion hl
        · obtain ⟨m, hm1, hm2, hm3⟩ := hinv.jump i h2 l hl
          refine ⟨m, hm1, hm2, hm3, ?_⟩
          subst hm1
          have hlab := hinv.label m
          rw [if_pos ⟨hm2, hm3⟩] at hlab
          show labelCountK m
            (IRInstr.funcBegin nm (params.map Prod.snd) :: mid ++
              [IRInstr.funcEnd nm]) = 1
          rw [labelCountK_append, labelCountK_cons, labelCountK_single_funcEnd,
            hlab, if_neg (fun hx => IRInstr.noConfusion hx)]
      · rw [List.mem_singleton] at h1
        subst h1
        exact Option.noConfusion hl
  | .st s, h =>
      intro i hi l hl
      obtain ⟨m, hm1, hm2, hm3⟩ := h.jump i hi l hl
      refine ⟨m, hm1, hm2, hm3, ?_⟩
      subst hm1
      have hlab := h.label m
      rw [if_pos ⟨hm2, hm3⟩] at hlab
      exact hlab

theorem itemInvP_shape {t0 t1 l0 l1 : Nat} {it : Item} {c : List IRInstr}
    (h : ItemInvP t0 t1 l0 l1 it c) : ChunkShape it c := by
  match it, h with
  | .fn rt nm params body, ⟨mid, hc, hinv⟩ => exact ⟨mid, hc, hinv.nofm⟩
  | .st s, h => exact h.nofm

theorem join_cons_ir (a : List IRInstr) (l : List (List IRInstr)) :
    (a :: l).join = a ++ l.join := rfl

theorem genItemsChunks_inv : ∀ (its : List Item) (st : GenSt)
    (cs : List (List IRInstr)) (st2 : GenSt),
    genItemsChunks its st = (cs, st2) → its.all itemNoTemps = true →
    GenWF st →
    st.temps ≤ st2.temps ∧ st.labels ≤ st2.labels ∧ GenWF st2 ∧
    (∀ k, destCountT k cs.join =
      if st.temps ≤ k ∧ k < st2.temps then 1 else 0) ∧
    NUBD cs.join (fun _ => false) ∧
    (∀ k, labelCountK k cs.join =
      if st.labels ≤ k ∧ k < st2.labels then 1 else 0) ∧
    List.Forall₂ ChunkShape its cs ∧
    (∀ c ∈ cs, ∀ i ∈ c, ∀ l, isJump i = some l →
       ∃ m, l = labelName m ∧ st.labels ≤ m ∧ m < st2.labels ∧
         labelCountS l c = 1)
  | [], st, cs, st2, he, hnt, hwf => by
      simp only [genItemsChunks] at he
      injection he with h1 h2
      subst h1; subst h2
      refine ⟨le_refl _, le_refl _, hwf, ?_, trivial, ?_, List.Forall₂.nil, ?_⟩
      · intro k
        rw [show ([] : List (List IRInstr)).join = [] from rfl, destCountT_nil]
        split_ifs with h
        · omega
        · rfl
      · intro k
        rw [show ([] : List (List IRInstr)).join = [] from rfl, labelCountK_nil]
        split_ifs with h
        · omega
        · rfl
      · intro c hc
        exact absurd hc (List.not_mem_nil c)
  | it :: its, st, cs, st2, he, hnt, hwf => by
      rcases hi : genItem it st with ⟨ci, st1⟩
      rcases hr : genItemsChunks its st1 with ⟨crest, stm⟩
      simp only [genItemsChunks, hi, hr] at he
      injection he with h1 h2
      subst h1; subst h2
      simp only [List.all_cons, Bool.and_eq_true] at hnt
      obtain ⟨ih1, ih2, ih3, ih4⟩ := genItem_inv it st ci st1 hi hnt.1 hwf
      obtain ⟨jh1, jh2, jh3, jh4, jh5, jh6, jh7, jh8⟩ :=
        genItemsChunks_inv its st1 crest stm hr hnt.2 ih3
      refine ⟨le_trans ih1 jh1, le_trans ih2 jh2, jh3, ?_, ?_, ?_, ?_, ?_⟩
      · intro k
        rw [join_cons_ir, destCountT_append, itemInvP_dest ih4 k, jh4 k]
        split_ifs <;> omega
      · rw [join_cons_ir]
        exact nubd_append _ _ _ (itemInvP_nubd ih4) jh5
      · intro k
        rw [join_cons_ir, labelCountK_append, itemInvP_label ih4 k, jh6 k]
        split_ifs <;> omega
      · exact List.Forall₂.cons (itemInvP_shape ih4) jh7
      · intro c hc i hii l hl
        rcases List.mem_cons.mp hc with h1 | h1
        · subst h1
          obtain ⟨m, hm1, hm2, hm3, hm4⟩ := itemInvP_jump ih4 i hii l hl
          exact ⟨m, hm1, by omega, by omega, hm4⟩
        · obtain ⟨m, hm1, hm2, hm3, hm4⟩ := jh8 c h1 i hii l hl
          exact ⟨m, hm1, by omega, by omega, hm4⟩

/-- Claim C4 (amended): for every parsed program whose own identifiers and
literal spellings never take the generated temporary shape t0, t1, …, the
generated IR decomposes into one chunk per top-level item, function chunks
being exactly FuncBegin, marker-free body, FuncEnd; every label targeted
by a Goto or IfFalseGoto appears exactly once as a Label instruction in
the jump's own item chunk (hence within the same FuncBegin…FuncEnd pair)
and exactly once in the whole program; every temporary tK with K below
the final temp counter is the destination of exactly one instruction of
the program; and no instruction reads a temporary that an earlier
instruction has not already written. Without the no-temp-shaped-names
restriction the temporary part fails, see the counterexample. -/
theorem c4_ir_invariants (p : Prog) (hnt : progNoTemps p = true) :
    ∃ chunks stFin,
      genItemsChunks p.items initGenSt = (chunks, stFin) ∧
      (generateIR p).1 = chunks.join ∧
      List.Forall₂ ChunkShape p.items chunks ∧
      (∀ c ∈ chunks, ∀ i ∈ c, ∀ l, isJump i = some l →
        labelCountS l c = 1) ∧
      (∀ l ∈ jumpTargets (generateIR p).1,
        labelCountS l (generateIR p).1 = 1) ∧
      (∀ k, destCountT k (generateIR p).1 =
        if k < stFin.temps then 1 else 0) ∧
      NUBD (generateIR p).1 (fun _ => false) := by
  rcases hg : genItemsChunks p.items initGenSt with ⟨chunks, stFin⟩
  have hgen := genItemsChunks_spec p.items initGenSt chunks stFin hg
  have hIR : (generateIR p).1 = chunks.join := by
    simp [generateIR, hgen]
  have hwf0 : GenWF initGenSt := by
    intro pr hpr
    exact absurd hpr (List.not_mem_nil pr)
  obtain ⟨h1, h2, h3, h4, h5, h6, h7, h8⟩ :=
    genItemsChunks_inv p.items initGenSt chunks stFin hg hnt hwf0
  have h4z : ∀ k, destCountT k chunks.join =
      if 0 ≤ k ∧ k < stFin.temps then 1 else 0 := h4
  have h6z : ∀ k, labelCountK k chunks.join =
      if 0 ≤ k ∧ k < stFin.labels then 1 else 0 := h6
  have h8z : ∀ c ∈ chunks, ∀ i ∈ c, ∀ l, isJump i = some l →
      ∃ m, l = labelName m ∧ 0 ≤ m ∧ m < stFin.labels ∧
        labelCountS l c = 1 := h8
  refine ⟨chunks, stFin, rfl, hIR, h7, ?_, ?_, ?_, ?_⟩
  · intro c hc i hii l hl
    obtain ⟨m, hm1, hm2, hm3, hm4⟩ := h8z c hc i hii l hl
    exact hm4
  · intro l hl
    rw [hIR] at hl ⊢
    obtain ⟨i, hii, hji⟩ := List.mem_filterMap.mp hl
    obtain ⟨c, hc, hic⟩ := List.mem_join.mp hii
    obtain ⟨m, hm1, hm2, hm3, hm4⟩ := h8z c hc i hic l hji
    subst hm1
    show labelCountK m chunks.join = 1
    rw [h6z m, if_pos ⟨hm2, hm3⟩]
  · intro k
    rw [hIR, h4z k]
    split_ifs <;> omega
  · rw [hIR]
    exact h5

/-- Counterexample to claim C4 as stated: the parser accepts
`int t0 = 1; int y = 1 + 2;`, whose user variable t0 collides with the
generator's first temporary; in the generated IR the name t0 is the
destination of two instructions, not exactly one. -/
theorem c4_counterexample :
    (match parseToks 50 toksTemp with
     | .ok (p, _) => p
     | .error _ => ⟨[]⟩) = progTemp ∧
    (generateIR progTemp).1 =
      [.assign "t0" "1", .binop "t0" "1" "+" "2", .assign "y" "t0"] ∧
    destCountT 0 (generateIR progTemp).1 = 2 := ⟨rfl, rfl, rfl⟩

theorem c4_ir_invariants_witness :
    progNoTemps progMain0 = true ∧
    (∃ chunks stFin,
      genItemsChunks progMain0.items initGenSt = (chunks, stFin) ∧
      (generateIR progMain0).1 = chunks.join ∧
      List.Forall₂ ChunkShape progMain0.items chunks ∧
      (∀ c ∈ chunks, ∀ i ∈ c, ∀ l, isJump i = some l →
        labelCountS l c = 1) ∧
      (∀ l ∈ jumpTargets (generateIR progMain0).1,
        labelCountS l (generateIR progMain0).1 = 1) ∧
      (∀ k, destCountT k (generateIR progMain0).1 =
        if k < stFin.temps then 1 else 0) ∧
      NUBD (generateIR progMain0).1 (fun _ => false)) :=
  ⟨rfl, c4_ir_invariants progMain0 rfl⟩
